import Mathlib

/-!
Shallow embedding of the Mesos hierarchical allocator
(`src/master/allocator/mesos/hierarchical.cpp`) together with proofs about
its allocation engine, quota-headroom accounting, offer filters, inverse
offers (deallocation) and recovery logic.

Modelling conventions:
* All identifiers (`SlaveID`, `FrameworkID`, roles) are strings.
* `ResourceQuantities` (`RQ`) is an association list name → integer
  quantity (the C++ `Value::Scalar` is fixed-point with three decimal
  digits, so integers — think millis — model it faithfully); `RQ.get`
  sums all entries of a name, `RQ.sub` is the truncated
  (floor-at-zero) per-name subtraction of the C++ class, `RQ.contains` the
  per-name ≤ check.
* A `Resource` is one element of the `Resources` collection: a name, a
  scalar/non-scalar marker, an integer `amount` (scalar value, or item
  count for ranges/sets), reservation role, revocable/shared/divisible/
  refined flags and optional allocation role.  `Resources` arithmetic is
  quantity-based per "key" (the resource with its amount erased), mirroring
  the merging behaviour of the C++ `Resources` algebra.
* Hash maps are association lists; the C++ `CHECK` assertions become
  hypotheses of the theorems (the definitions model the behaviour after the
  checks pass, and skip an iteration whose lookup fails).
* The two uses of `random_shuffle` inside `__allocate` (candidate order and
  the shuffle inside `shrinkResources`) are modelled by the identity
  permutation: a fixed resolution of the randomness; no claim below depends
  on the chosen order.
* `process::Future` timers (filter expiry, the recovery resume timer) are
  modelled as recorded data (`timeout` fields, `resumeTimer`), not as real
  time.
-/

abbrev SlaveID := String
abbrev FrameworkID := String
abbrev Role := String

/-- Association-list lookup by string key (models `hashmap::at`/`find`). -/
def alookup {β : Type} (l : List (String × β)) (k : String) : Option β :=
  (l.find? (fun p => p.1 == k)).map (fun p => p.2)

/-- Update the value at `k` through `f` (starting from default `d` when the
key is absent); models `hashmap::operator[]` mutation. -/
def aupdate {β : Type} : List (String × β) → String → β → (β → β) →
    List (String × β)
  | [], k, d, f => [(k, f d)]
  | p :: l, k, d, f =>
    if p.1 == k then (p.1, f p.2) :: l
    else p :: aupdate l k d f

/-- Remove all entries with key `k` (models `hashmap::erase`). -/
def aerase {β : Type} (l : List (String × β)) (k : String) : List (String × β) :=
  l.filter (fun p => p.1 != k)

/-- The `ResourceQuantities` class: an association list name → quantity. -/
abbrev RQ := List (String × ℤ)

/-- Total quantity stored for name `n` (0 when absent), as
`ResourceQuantities::get`. -/
def RQ.get (a : RQ) (n : String) : ℤ :=
  ((a.filter (fun p => p.1 == n)).map (fun p => p.2)).sum

/-- The distinct names of `a`. -/
def RQ.names (a : RQ) : List String := (a.map Prod.fst).dedup

/-- Helper for `RQ.sub`: per-name truncated difference over a given list of
names. -/
def RQ.subAux (ks : List String) (a b : RQ) : RQ :=
  ks.filterMap (fun n =>
    if 0 < RQ.get a n - RQ.get b n then some (n, RQ.get a n - RQ.get b n)
    else none)

/-- `ResourceQuantities::operator-`: per-name subtraction, dropping entries
that would become non-positive. -/
def RQ.sub (a b : RQ) : RQ := RQ.subAux (RQ.names a) a b

/-- `ResourceQuantities::contains`: every quantity of `b` is at most the
corresponding quantity of `a`. -/
def RQ.contains (a b : RQ) : Bool :=
  (RQ.names b).all (fun n => decide (RQ.get b n ≤ RQ.get a n))

/-- One resource object of the `Resources` collection. -/
structure Resource where
  name : String
  isScalar : Bool
  amount : ℤ
  reservation : Option Role
  revocable : Bool
  shared : Bool
  divisible : Bool
  refined : Bool
  allocatedTo : Option Role
deriving DecidableEq, Repr, Inhabited

abbrev Resources := List Resource

/-- `Resources::unreserved`. -/
def Resources.unreserved (R : Resources) : Resources :=
  R.filter (fun r => r.reservation == none)

/-- `Resources::reserved()` with no argument: all reserved resources. -/
def Resources.reservedAll (R : Resources) : Resources :=
  R.filter (fun r => r.reservation != none)

/-- `Resources::reserved(role)`. -/
def Resources.reservedTo (R : Resources) (role : Role) : Resources :=
  R.filter (fun r => r.reservation == some role)

/-- `Resources::nonRevocable`. -/
def Resources.nonRevocable (R : Resources) : Resources :=
  R.filter (fun r => !r.revocable)

/-- `Resources::revocable`. -/
def Resources.revocableOf (R : Resources) : Resources :=
  R.filter (fun r => r.revocable)

/-- `Resources::scalars`. -/
def Resources.scalars (R : Resources) : Resources :=
  R.filter (fun r => r.isScalar)

/-- `Resources::shared`. -/
def Resources.sharedOf (R : Resources) : Resources :=
  R.filter (fun r => r.shared)

/-- `ResourceQuantities::fromScalarResources`: quantities of the scalar
resources, per name. -/
def RQ.fromScalarResources (R : Resources) : RQ :=
  (Resources.scalars R).map (fun r => (r.name, r.amount))

/-- Quantities of all resources (scalar value, or item count for
non-scalars); backs `Resources::contains(ResourceQuantities)`. -/
def Resources.quantitiesOf (R : Resources) : RQ :=
  R.map (fun r => (r.name, r.amount))

/-- `Resources::contains(ResourceQuantities)`. -/
def Resources.containsQuantities (R : Resources) (q : RQ) : Bool :=
  RQ.contains (Resources.quantitiesOf R) q

/-- The identity of a resource with its amount erased; two resources with
the same key are merged by the `Resources` arithmetic. -/
def rkey (r : Resource) : Resource := { r with amount := 0 }

/-- Total amount carried by resources of key `k`. -/
def Resources.amountOf (R : Resources) (k : Resource) : ℤ :=
  ((R.filter (fun r => rkey r == k)).map (fun r => r.amount)).sum

/-- The distinct keys of `R`. -/
def Resources.keysR (R : Resources) : List Resource := (R.map rkey).dedup

/-- Helper for `Resources.subR`: per-key truncated difference over a given
list of keys. -/
def Resources.subAuxR (ks : List Resource) (A B : Resources) : Resources :=
  ks.filterMap (fun k =>
    if 0 < Resources.amountOf A k - Resources.amountOf B k then
      some { k with amount := Resources.amountOf A k - Resources.amountOf B k }
    else none)

/-- `Resources::operator-`: per-key truncated subtraction. -/
def Resources.subR (A B : Resources) : Resources :=
  Resources.subAuxR (Resources.keysR A) A B

/-- `Resources::contains(Resources)`: per-key quantity containment. -/
def Resources.containsR (A B : Resources) : Bool :=
  (Resources.keysR B).all (fun k =>
    decide (Resources.amountOf B k ≤ Resources.amountOf A k))

/-- Ancestors of a hierarchical role, nearest first
(`roles::ancestors("a/b/c") = ["a/b", "a"]`). -/
def roleAncestors (role : Role) : List Role :=
  let parts := role.splitOn "/"
  (((List.range parts.length).filter (fun k => 0 < k)).map
    (fun k => String.intercalate "/" (parts.take k))).reverse

/-- Top-level role: `strings::contains(role, "/") ? role.substr(0, find) :
role`. -/
def topLevelRole (role : Role) : Role :=
  match role.splitOn "/" with
  | [] => role
  | p :: _ => p

/-- `Resources::allocatableTo(role)`: unreserved resources plus resources
reserved to the role or one of its ancestors. -/
def Resources.allocatableTo (R : Resources) (role : Role) : Resources :=
  R.filter (fun r =>
    r.reservation == none ||
    r.reservation == some role ||
    (roleAncestors role).any (fun a => r.reservation == some a))

/-- `Resources::allocate(role)`: attach allocation info. -/
def Resources.allocateRole (R : Resources) (role : Role) : Resources :=
  R.map (fun r => { r with allocatedTo := some role })

/-- `Resources::unallocate`. -/
def Resources.unallocate (R : Resources) : Resources :=
  R.map (fun r => { r with allocatedTo := none })

/-- `Resources::allocations()`: group by allocation role. -/
def Resources.allocations (R : Resources) : List (Role × Resources) :=
  ((R.filterMap (fun r => r.allocatedTo)).dedup).map
    (fun ρ => (ρ, R.filter (fun r => r.allocatedTo == some ρ)))

/-- `Resources::reservations()`: group reserved resources by reservation
role. -/
def Resources.reservations (R : Resources) : List (Role × Resources) :=
  ((R.filterMap (fun r => r.reservation)).dedup).map
    (fun ρ => (ρ, R.filter (fun r => r.reservation == some ρ)))

/-- `Resources::shrink(&resource, target)`: keep the resource whole when it
already fits, scale a divisible scalar down to the target, and refuse to
shrink an indivisible resource. -/
def Resource.shrinkTo (r : Resource) (target : ℤ) : Option Resource :=
  if r.amount ≤ target then some r
  else if r.isScalar && r.divisible then some { r with amount := target }
  else none

/-- Loop body of the `shrinkResources` lambda of `__allocate` (the
`random_shuffle` of the resource vector is modelled by the identity
permutation). -/
def shrinkLoop : Resources → RQ → Resources
  | [], _ => []
  | r :: rest, target =>
    let scalar := RQ.get target r.name
    if scalar = 0 then shrinkLoop rest target
    else
      match Resource.shrinkTo r scalar with
      | some r2 =>
          r2 :: shrinkLoop rest (RQ.sub target (RQ.fromScalarResources [r2]))
      | none => shrinkLoop rest target

/-- The `shrinkResources` lambda of `__allocate`. -/
def shrinkResources (resources : Resources) (target : RQ) : Resources :=
  if target.isEmpty then [] else shrinkLoop resources target

/-- Agent capabilities relevant to the allocator. -/
structure SlaveCapabilities where
  multiRole : Bool
  hierarchicalRole : Bool
deriving DecidableEq, Repr, Inhabited

/-- `Slave::Maintenance`: unavailability window (opaque label), outstanding
inverse-offer framework set and last-known statuses. -/
structure Maintenance where
  unavailability : String
  offersOutstanding : List FrameworkID
  statuses : List (FrameworkID × String)
deriving DecidableEq, Repr, Inhabited

/-- The allocator's `Slave` record.  The helper accessors below are
modelled from the spec (the class body lives in `hierarchical.hpp`, which
is not part of the sources): available = total − allocated, `allocate`
adds to `allocated`, `unallocate` subtracts. -/
structure Slave where
  hostname : String
  total : Resources
  allocated : Resources
  activated : Bool
  hasGpu : Bool
  region : Option String
  capabilities : SlaveCapabilities
  maintenance : Option Maintenance
deriving DecidableEq, Repr, Inhabited

/-- Modelled from the spec: for every agent, available = total − allocated
(`Slave::getAvailable` of the missing header). -/
def Slave.getAvailable (s : Slave) : Resources :=
  Resources.subR s.total (Resources.unallocate s.allocated)

/-- Modelled from the spec: `Slave::allocate` grows the allocated set. -/
def Slave.allocateRes (s : Slave) (r : Resources) : Slave :=
  { s with allocated := s.allocated ++ r }

/-- Modelled from the spec: `Slave::unallocate` removes from the allocated
set. -/
def Slave.unallocateRes (s : Slave) (r : Resources) : Slave :=
  { s with allocated := Resources.subR s.allocated r }

/-- Modelled from the spec: `Slave::updateTotal`. -/
def Slave.updateTotal (s : Slave) (t : Resources) : Slave :=
  { s with total := t }

/-- Framework capabilities relevant to the allocator. -/
structure FrameworkCapabilities where
  multiRole : Bool
  gpuResources : Bool
  revocableResources : Bool
  sharedResources : Bool
  reservationRefinement : Bool
  regionAware : Bool
deriving DecidableEq, Repr, Inhabited

/-- A stored `RefusedOfferFilter`: the refused resources (in unallocated
form) and the expiry timeout that was scheduled. -/
structure OfferFilterRec where
  resources : Resources
  timeout : ℤ
deriving DecidableEq, Repr, Inhabited

/-- A stored `RefusedInverseOfferFilter`: whether its expiry future is
still pending, and the timeout that was scheduled. -/
structure InverseOfferFilterRec where
  pending : Bool
  timeout : ℤ
deriving DecidableEq, Repr, Inhabited

/-- The allocator's `Framework` record. -/
structure Framework where
  roles : List Role
  suppressedRoles : List Role
  capabilities : FrameworkCapabilities
  active : Bool
  minAllocatableResources : List (Role × List RQ)
  offerFilters : List (Role × List (SlaveID × List OfferFilterRec))
  inverseOfferFilters : List (SlaveID × List InverseOfferFilterRec)
deriving DecidableEq, Repr, Inhabited

/-- A wDRF sorter: the list of active clients in sort order (`sort()` is
modelled as stored data, since no claim depends on the DRF ordering
itself), the set of added clients, per-agent totals and per-client
per-agent allocations. -/
structure Sorter where
  order : List String
  clients : List String
  totals : List (SlaveID × Resources)
  alloc : List (String × List (SlaveID × Resources))
deriving DecidableEq, Repr, Inhabited

/-- `Sorter::contains(client)`. -/
def Sorter.hasClient (s : Sorter) (c : String) : Bool := s.clients.contains c

/-- `Sorter::add(client)`. -/
def Sorter.addClient (s : Sorter) (c : String) : Sorter :=
  { s with clients := s.clients ++ [c] }

/-- `Sorter::remove(client)`. -/
def Sorter.removeClient (s : Sorter) (c : String) : Sorter :=
  { s with clients := s.clients.filter (fun x => x != c),
           order := s.order.filter (fun x => x != c),
           alloc := aerase s.alloc c }

/-- `Sorter::add(slaveId, total)`. -/
def Sorter.addTotal (s : Sorter) (slaveId : SlaveID) (r : Resources) : Sorter :=
  { s with totals := aupdate s.totals slaveId [] (fun old => old ++ r) }

/-- `Sorter::remove(slaveId, total)`: subtract, dropping the agent when
nothing remains. -/
def Sorter.removeTotal (s : Sorter) (slaveId : SlaveID) (r : Resources) : Sorter :=
  { s with totals :=
      match alookup s.totals slaveId with
      | none => s.totals
      | some old =>
          let rest := Resources.subR old r
          if rest.isEmpty then aerase s.totals slaveId
          else aupdate s.totals slaveId [] (fun _ => rest) }

/-- `Sorter::allocated(client, slaveId, resources)`. -/
def Sorter.allocatedRes (s : Sorter) (c : String) (slaveId : SlaveID)
    (r : Resources) : Sorter :=
  let f := fun (m : List (SlaveID × Resources)) =>
    aupdate m slaveId [] (fun old => old ++ r)
  { s with alloc := aupdate s.alloc c [] f }

/-- `Sorter::unallocated(client, slaveId, resources)`: subtract, dropping
the agent entry when nothing remains. -/
def Sorter.unallocatedRes (s : Sorter) (c : String) (slaveId : SlaveID)
    (r : Resources) : Sorter :=
  let f := fun (m : List (SlaveID × Resources)) =>
    match alookup m slaveId with
    | none => m
    | some old =>
        let rest := Resources.subR old r
        if rest.isEmpty then aerase m slaveId
        else aupdate m slaveId [] (fun _ => rest)
  { s with alloc := aupdate s.alloc c [] f }

/-- `Sorter::allocation(client)`: the per-agent allocation of one client. -/
def Sorter.allocationOf (s : Sorter) (c : String) : List (SlaveID × Resources) :=
  (alookup s.alloc c).getD []

/-- `Sorter::allocation(slaveId)`: client → resources held on the agent. -/
def Sorter.allocationAt (s : Sorter) (slaveId : SlaveID) :
    List (String × Resources) :=
  s.alloc.filterMap (fun p => (alookup p.2 slaveId).map (fun r => (p.1, r)))

/-- `Sorter::totalScalarQuantities`. -/
def Sorter.totalScalarQuantities (s : Sorter) : RQ :=
  RQ.fromScalarResources (s.totals.flatMap (fun p => p.2))

/-- `Sorter::allocationScalarQuantities` (aggregated over all clients). -/
def Sorter.allocationScalarQuantities (s : Sorter) : RQ :=
  RQ.fromScalarResources
    (s.alloc.flatMap (fun p => p.2.flatMap (fun q => q.2)))

/-- The allocator options consumed by the embedded functions. -/
structure AllocOptions where
  allocationInterval : ℤ
  minAllocatableResources : Option (List RQ)
  filterGpuResources : Bool
  domainRegion : Option String
deriving DecidableEq, Repr, Inhabited

/-- The mutable state of `HierarchicalAllocatorProcess`. -/
structure AllocState where
  options : AllocOptions
  frameworks : List (FrameworkID × Framework)
  slaves : List (SlaveID × Slave)
  whitelist : Option (List String)
  allocationCandidates : List SlaveID
  roles : List (Role × List FrameworkID)
  quotaGuarantees : List (Role × RQ)
  reservationScalarQuantities : List (Role × RQ)
  roleSorter : Sorter
  quotaRoleSorter : Sorter
  frameworkSorters : List (Role × Sorter)
  paused : Bool
  expectedAgentCount : Option Nat
  resumeTimer : Option ℤ
deriving DecidableEq, Repr, Inhabited

/-- `HierarchicalAllocatorProcess::isWhitelisted`. -/
def isWhitelisted (s : AllocState) (slave : Slave) : Bool :=
  match s.whitelist with
  | none => true
  | some w => w.contains slave.hostname

/-- `HierarchicalAllocatorProcess::isRemoteSlave`: an agent with a fault
domain whose region differs from the master's region. -/
def isRemoteSlave (opts : AllocOptions) (slave : Slave) : Bool :=
  match slave.region, opts.domainRegion with
  | some r, some m => r != m
  | _, _ => false

/-- `HierarchicalAllocatorProcess::isCapableOfReceivingAgent`. -/
def isCapableOfReceivingAgent (opts : AllocOptions)
    (caps : FrameworkCapabilities) (slave : Slave) : Bool :=
  if opts.filterGpuResources && !caps.gpuResources && slave.hasGpu then false
  else if !caps.regionAware && isRemoteSlave opts slave then false
  else true

/-- `HierarchicalAllocatorProcess::stripIncapableResources`. -/
def stripIncapableResources (resources : Resources)
    (caps : FrameworkCapabilities) : Resources :=
  resources.filter (fun r =>
    if !caps.sharedResources && r.shared then false
    else if !caps.revocableResources && r.revocable then false
    else if !caps.reservationRefinement && r.refined then false
    else true)

/-- `HierarchicalAllocatorProcess::allocatable(resources, role, framework)`:
empty resources are never allocatable; otherwise the framework's per-role
min-allocatable list overrides the global option, and with no (or an
empty) requirement list anything goes, else some requirement set must be
contained. -/
def allocatable (opts : AllocOptions) (framework : Framework)
    (resources : Resources) (role : Role) : Bool :=
  if resources.isEmpty then false
  else
    let reqs : Option (List RQ) :=
      match alookup framework.minAllocatableResources role with
      | some l => some l
      | none => opts.minAllocatableResources
    match reqs with
    | none => true
    | some l =>
        if l.isEmpty then true
        else l.any (fun qs => Resources.containsQuantities resources qs)

/-- `HierarchicalAllocatorProcess::isFiltered(framework, role, slave,
resources)` (offer filters), taking the already-looked-up records. -/
def isFilteredOffer (framework : Framework) (slave : Slave) (role : Role)
    (slaveId : SlaveID) (resources : Resources) : Bool :=
  if framework.capabilities.multiRole && !slave.capabilities.multiRole then
    true
  else if !slave.capabilities.hierarchicalRole && role.contains '/' then
    true
  else
    match alookup framework.offerFilters role with
    | none => false
    | some roleFilters =>
        match alookup roleFilters slaveId with
        | none => false
        | some agentFilters =>
            agentFilters.any (fun f => Resources.containsR f.resources resources)

/-- `HierarchicalAllocatorProcess::isFiltered(framework, slave)` (inverse
offer filters): some still-pending filter exists for the agent. -/
def isFilteredInverse (framework : Framework) (slaveId : SlaveID) : Bool :=
  match alookup framework.inverseOfferFilters slaveId with
  | none => false
  | some filters => filters.any (fun f => f.pending)

/-- Add quantities to one role of a role → quantities map
(`map[role] += quantities`). -/
def rqMapAdd (m : List (Role × RQ)) (k : Role) (q : RQ) : List (Role × RQ) :=
  aupdate m k [] (fun old => old ++ q)

/-- Subtract quantities from one role of a role → quantities map, erasing
the entry when it becomes empty. -/
def rqMapSub (m : List (Role × RQ)) (k : Role) (q : RQ) : List (Role × RQ) :=
  match alookup m k with
  | none => m
  | some old =>
      let rest := RQ.sub old q
      if rest.isEmpty then aerase m k
      else aupdate m k [] (fun _ => rest)

/-- `HierarchicalAllocatorProcess::trackReservations`: add each role's
scalar reservation quantities to the role and all its ancestors. -/
def trackReservations (m : List (Role × RQ))
    (reservations : List (Role × Resources)) : List (Role × RQ) :=
  reservations.foldl
    (fun m p =>
      let quantities := RQ.fromScalarResources (Resources.scalars p.2)
      if quantities.isEmpty then m
      else
        (roleAncestors p.1).foldl (fun m a => rqMapAdd m a quantities)
          (rqMapAdd m p.1 quantities))
    m

/-- `HierarchicalAllocatorProcess::untrackReservations`. -/
def untrackReservations (m : List (Role × RQ))
    (reservations : List (Role × Resources)) : List (Role × RQ) :=
  reservations.foldl
    (fun m p =>
      let quantities := RQ.fromScalarResources (Resources.scalars p.2)
      if quantities.isEmpty then m
      else
        ([p.1] ++ roleAncestors p.1).foldl
          (fun m r => rqMapSub m r quantities) m)
    m

/-- `HierarchicalAllocatorProcess::isFrameworkTrackedUnderRole`. -/
def isFrameworkTrackedUnderRole (s : AllocState) (frameworkId : FrameworkID)
    (role : Role) : Bool :=
  match alookup s.roles role with
  | some l => l.contains frameworkId
  | none => false

/-- `HierarchicalAllocatorProcess::trackFrameworkUnderRole`: lazily create
the role (role sorter entry, per-role framework sorter seeded with every
agent total), then record the subscription. -/
def trackFrameworkUnderRole (s : AllocState) (frameworkId : FrameworkID)
    (role : Role) : AllocState :=
  let s1 :=
    if (alookup s.roles role).isSome then s
    else
      let fwSorter : Sorter :=
        { order := [], clients := [],
          totals := s.slaves.map (fun p => (p.1, p.2.total)), alloc := [] }
      let rs :=
        { s.roleSorter with
          clients := s.roleSorter.clients ++ [role],
          order := s.roleSorter.order ++ [role] }
      { s with
        roles := s.roles ++ [(role, [])],
        roleSorter := rs,
        frameworkSorters := s.frameworkSorters ++ [(role, fwSorter)] }
  let roles2 := aupdate s1.roles role [] (fun l => l ++ [frameworkId])
  let fws2 :=
    aupdate s1.frameworkSorters role default
      (fun so => Sorter.addClient so frameworkId)
  { s1 with roles := roles2, frameworkSorters := fws2 }

/-- `HierarchicalAllocatorProcess::untrackFrameworkUnderRole`: drop the
subscription, collapsing the role when no framework remains. -/
def untrackFrameworkUnderRole (s : AllocState) (frameworkId : FrameworkID)
    (role : Role) : AllocState :=
  let roles2 := aupdate s.roles role [] (fun l => l.filter (fun x => x != frameworkId))
  let fws2 :=
    aupdate s.frameworkSorters role default
      (fun so => Sorter.removeClient so frameworkId)
  if ((alookup roles2 role).getD []).isEmpty then
    { s with
      roles := aerase roles2 role,
      roleSorter := Sorter.removeClient s.roleSorter role,
      frameworkSorters := aerase fws2 role }
  else
    { s with roles := roles2, frameworkSorters := fws2 }

/-- One iteration of `trackAllocatedResources` (a single role's chunk of
the allocation). -/
def trackAllocatedOne (s : AllocState) (slaveId : SlaveID)
    (frameworkId : FrameworkID) (role : Role) (allocation : Resources) :
    AllocState :=
  let s1 :=
    if isFrameworkTrackedUnderRole s frameworkId role then s
    else trackFrameworkUnderRole s frameworkId role
  let rs2 := Sorter.allocatedRes s1.roleSorter role slaveId allocation
  let fws2 :=
    aupdate s1.frameworkSorters role default
      (fun so => Sorter.allocatedRes so frameworkId slaveId allocation)
  let s2 := { s1 with roleSorter := rs2, frameworkSorters := fws2 }
  if (alookup s2.quotaGuarantees role).isSome then
    let qs2 :=
      Sorter.allocatedRes s2.quotaRoleSorter role slaveId
        (Resources.nonRevocable allocation)
    { s2 with quotaRoleSorter := qs2 }
  else s2

/-- `HierarchicalAllocatorProcess::trackAllocatedResources`. -/
def trackAllocatedResources (s : AllocState) (slaveId : SlaveID)
    (frameworkId : FrameworkID) (allocated : Resources) : AllocState :=
  (Resources.allocations allocated).foldl
    (fun s p => trackAllocatedOne s slaveId frameworkId p.1 p.2) s

/-- One iteration of `untrackAllocatedResources`. -/
def untrackAllocatedOne (s : AllocState) (slaveId : SlaveID)
    (frameworkId : FrameworkID) (role : Role) (allocation : Resources) :
    AllocState :=
  let fws2 :=
    aupdate s.frameworkSorters role default
      (fun so => Sorter.unallocatedRes so frameworkId slaveId allocation)
  let rs2 := Sorter.unallocatedRes s.roleSorter role slaveId allocation
  let s1 := { s with frameworkSorters := fws2, roleSorter := rs2 }
  if (alookup s1.quotaGuarantees role).isSome then
    let qs2 :=
      Sorter.unallocatedRes s1.quotaRoleSorter role slaveId
        (Resources.nonRevocable allocation)
    { s1 with quotaRoleSorter := qs2 }
  else s1

/-- `HierarchicalAllocatorProcess::untrackAllocatedResources`. -/
def untrackAllocatedResources (s : AllocState) (slaveId : SlaveID)
    (frameworkId : FrameworkID) (allocated : Resources) : AllocState :=
  (Resources.allocations allocated).foldl
    (fun s p => untrackAllocatedOne s slaveId frameworkId p.1 p.2) s

/-- `HierarchicalAllocatorProcess::updateSlaveTotal`: returns the updated
state and whether anything changed. -/
def updateSlaveTotal (s : AllocState) (slaveId : SlaveID) (total : Resources) :
    AllocState × Bool :=
  match alookup s.slaves slaveId with
  | none => (s, false)
  | some slave =>
    let oldTotal := slave.total
    if oldTotal = total then (s, false)
    else
      let slaves2 := aupdate s.slaves slaveId default (fun sl => Slave.updateTotal sl total)
      let s1 := { s with slaves := slaves2 }
      let oldReservations := Resources.reservations oldTotal
      let newReservations := Resources.reservations total
      let s2 :=
        if oldReservations = newReservations then s1
        else
          let rsq2 :=
            trackReservations
              (untrackReservations s1.reservationScalarQuantities oldReservations)
              newReservations
          { s1 with reservationScalarQuantities := rsq2 }
      let rs2 := Sorter.addTotal (Sorter.removeTotal s2.roleSorter slaveId oldTotal) slaveId total
      let s3 := { s2 with roleSorter := rs2 }
      let fws2 :=
        s3.frameworkSorters.map
          (fun p => (p.1, Sorter.addTotal (Sorter.removeTotal p.2 slaveId oldTotal) slaveId total))
      let s4 := { s3 with frameworkSorters := fws2 }
      let qs2 :=
        Sorter.addTotal
          (Sorter.removeTotal s4.quotaRoleSorter slaveId (Resources.nonRevocable oldTotal))
          slaveId (Resources.nonRevocable total)
      let s5 := { s4 with quotaRoleSorter := qs2 }
      (s5, true)

/-- Modelled from the spec: an offer operation (RESERVE, UNRESERVE, CREATE,
DESTROY) is a resource conversion that consumes one set of resources and
produces another; applying it fails when the consumed resources are not
contained (the `Resources::apply` collaborator is outside the sources,
which guarantee that operations preserve or fully remove quantities). -/
structure OfferOperation where
  consumed : Resources
  converted : Resources
deriving DecidableEq, Repr, Inhabited

/-- Modelled from the spec: apply a single offer operation. -/
def applyOp (R : Resources) (op : OfferOperation) : Option Resources :=
  if Resources.containsR R op.consumed then
    some (Resources.subR R op.consumed ++ op.converted)
  else none

/-- Modelled from the spec: apply a sequence of operations, failing if any
single application fails (`Try<Resources> Resources::apply`). -/
def applyOps (R : Resources) (ops : List OfferOperation) : Option Resources :=
  ops.foldl (fun acc op => acc.bind (fun r => applyOp r op)) (some R)

/-- `HierarchicalAllocatorProcess::updateAvailable`: `none` models the
failure future (the C++ code mutates nothing in that case); on success the
agent total and all sorter totals are updated through `updateSlaveTotal`. -/
def updateAvailable (s : AllocState) (slaveId : SlaveID)
    (operations : List OfferOperation) : Option AllocState :=
  match alookup s.slaves slaveId with
  | none => none
  | some slave =>
    match applyOps (Slave.getAvailable slave) operations with
    | none => none
    | some _ =>
      match applyOps slave.total operations with
      | none => none
      | some updatedTotal => some (updateSlaveTotal s slaveId updatedTotal).1

/-- Default of the `Filters` protobuf `refuse_seconds` field. -/
def defaultRefuseSeconds : ℤ := 5

/-- `Days(365)` in seconds. -/
def days365 : ℤ := 365 * 24 * 60 * 60

/-- The `refuse_seconds` clamping shared by `recoverResources` and
`updateInverseOffer`: 365 days when too big, the protobuf default when
negative (an unrepresentable/invalid duration cannot arise for rational
inputs). -/
def clampRefuseSeconds (rs : ℤ) : ℤ :=
  if rs > days365 then days365
  else if rs < 0 then defaultRefuseSeconds
  else rs

/-- The sorter-untracking phase of `recoverResources` (updating the
resources allocated to the framework, when it still exists). -/
def recoverUntrackPhase (s : AllocState) (frameworkId : FrameworkID)
    (slaveId : SlaveID) (resources : Resources) (role : Role) : AllocState :=
  match alookup s.frameworks frameworkId with
  | none => s
  | some framework =>
    match alookup s.frameworkSorters role with
    | none => s
    | some frameworkSorter =>
      if Sorter.hasClient frameworkSorter frameworkId then
        let s2 := untrackAllocatedResources s slaveId frameworkId resources
        if !(framework.roles.contains role) &&
           (((alookup s2.frameworkSorters role).map
              (fun so => Sorter.allocationOf so frameworkId)).getD []).isEmpty then
          untrackFrameworkUnderRole s2 frameworkId role
        else s2
      else s

/-- The agent phase of `recoverResources` (updating the resources allocated
on the agent, when it still exists). -/
def recoverUnallocPhase (s : AllocState) (slaveId : SlaveID)
    (resources : Resources) : AllocState :=
  match alookup s.slaves slaveId with
  | none => s
  | some _ =>
    let slaves2 :=
      aupdate s.slaves slaveId default (fun sl => Slave.unallocateRes sl resources)
    { s with slaves := slaves2 }

/-- The filter-installation phase of `recoverResources`: no filter when the
framework or agent is gone or the clamped timeout is zero, otherwise a
`RefusedOfferFilter` on the unallocated resources with expiry
`max(allocationInterval, timeout)`. -/
def recoverInstallFilter (s : AllocState) (frameworkId : FrameworkID)
    (slaveId : SlaveID) (resources : Resources) (role : Role)
    (refuseSeconds : ℤ) : AllocState :=
  if (alookup s.frameworks frameworkId).isNone ||
     (alookup s.slaves slaveId).isNone then s
  else
    let timeout := clampRefuseSeconds refuseSeconds
    if timeout ≠ 0 then
      let timeout2 := max s.options.allocationInterval timeout
      let flt : OfferFilterRec :=
        { resources := Resources.unallocate resources, timeout := timeout2 }
      let frameworks2 :=
        aupdate s.frameworks frameworkId default
          (fun fw =>
            let rf2 :=
              aupdate fw.offerFilters role []
                (fun rf => aupdate rf slaveId [] (fun l => l ++ [flt]))
            { fw with offerFilters := rf2 })
      { s with frameworks := frameworks2 }
    else s

/-- `HierarchicalAllocatorProcess::recoverResources`.  The `filters`
argument carries `refuse_seconds` when a `Filters` object was supplied. -/
def recoverResources (s : AllocState) (frameworkId : FrameworkID)
    (slaveId : SlaveID) (resources : Resources) (filters : Option ℤ) :
    AllocState :=
  if resources.isEmpty then s
  else
    match Resources.allocations resources with
    | [(role, _)] =>
      let s1 := recoverUntrackPhase s frameworkId slaveId resources role
      let s3 := recoverUnallocPhase s1 slaveId resources
      match filters with
      | none => s3
      | some refuseSeconds =>
        recoverInstallFilter s3 frameworkId slaveId resources role refuseSeconds
    | _ => s

/-- `HierarchicalAllocatorProcess::setQuota` (the quota argument is already
the guarantee's scalar quantities). -/
def setQuota (s : AllocState) (role : Role) (guarantee : RQ) : AllocState :=
  let qs1 :=
    { s.quotaRoleSorter with
      clients := s.quotaRoleSorter.clients ++ [role],
      order := s.quotaRoleSorter.order ++ [role] }
  let s1 :=
    { s with
      quotaGuarantees := s.quotaGuarantees ++ [(role, guarantee)],
      quotaRoleSorter := qs1 }
  if Sorter.hasClient s1.roleSorter role then
    let qs2 :=
      (Sorter.allocationOf s1.roleSorter role).foldl
        (fun so p => Sorter.allocatedRes so role p.1 (Resources.nonRevocable p.2))
        s1.quotaRoleSorter
    { s1 with quotaRoleSorter := qs2 }
  else s1

/-- `ALLOCATION_HOLD_OFF_RECOVERY_TIMEOUT = Minutes(10)`, in seconds. -/
def allocationHoldOffRecoveryTimeoutSeconds : ℤ := 10 * 60

/-- `static_cast<int>(expectedAgentCount * AGENT_RECOVERY_FACTOR)` with
`AGENT_RECOVERY_FACTOR = 0.8`; for every machine integer the IEEE-double
product truncates to `⌊4·n/5⌋`, which is how it is modelled here. -/
def effectiveExpectedAgents (n : Nat) : Nat := n * 4 / 5

/-- `HierarchicalAllocatorProcess::recover` (the `CHECK`ed preconditions —
initialized, no agents, empty quota-role sorter — are hypotheses of the
theorems below). -/
def recoverAllocator (s : AllocState) (expectedAgentCount : Nat)
    (quotas : List (Role × RQ)) : AllocState :=
  if quotas.isEmpty then s
  else
    let s1 := quotas.foldl (fun s p => setQuota s p.1 p.2) s
    let s2 := { s1 with expectedAgentCount := some (effectiveExpectedAgents expectedAgentCount) }
    if effectiveExpectedAgents expectedAgentCount = 0 then s2
    else
      { s2 with paused := true,
                resumeTimer := some allocationHoldOffRecoveryTimeoutSeconds }

/-- The `used` loop of `addSlave`: allocations of frameworks already known
to the allocator are tracked in the sorters, others are skipped. -/
def trackUsedAllocations (s : AllocState) (slaveId : SlaveID)
    (used : List (FrameworkID × Resources)) : AllocState :=
  used.foldl
    (fun s p =>
      if (alookup s.frameworks p.1).isSome then
        trackAllocatedResources s slaveId p.1 p.2
      else s)
    s

/-- `HierarchicalAllocatorProcess::addSlave` (the final `allocate(slaveId)`
dispatch is outside this state-transition model). -/
def addSlave (s : AllocState) (slaveId : SlaveID) (hostname : String)
    (capabilities : SlaveCapabilities) (hasGpu : Bool) (region : Option String)
    (unavailability : Option String) (total : Resources)
    (used : List (FrameworkID × Resources)) : AllocState :=
  let maint : Option Maintenance :=
    unavailability.map
      (fun u => { unavailability := u, offersOutstanding := [], statuses := [] })
  let slave : Slave :=
    { hostname := hostname, total := total,
      allocated := used.flatMap (fun p => p.2), activated := true,
      hasGpu := hasGpu, region := region, capabilities := capabilities,
      maintenance := maint }
  let s1 := { s with slaves := s.slaves ++ [(slaveId, slave)] }
  let rsq2 := trackReservations s1.reservationScalarQuantities (Resources.reservations total)
  let s2 := { s1 with reservationScalarQuantities := rsq2 }
  let s3 := { s2 with roleSorter := Sorter.addTotal s2.roleSorter slaveId total }
  let fws2 := s3.frameworkSorters.map (fun p => (p.1, Sorter.addTotal p.2 slaveId total))
  let s4 := { s3 with frameworkSorters := fws2 }
  let qs2 := Sorter.addTotal s4.quotaRoleSorter slaveId (Resources.nonRevocable total)
  let s5 := { s4 with quotaRoleSorter := qs2 }
  let s6 := trackUsedAllocations s5 slaveId used
  if s6.paused && s6.expectedAgentCount.isSome &&
     decide (s6.expectedAgentCount.getD 0 ≤ s6.slaves.length) then
    { s6 with expectedAgentCount := none, paused := false }
  else s6

/-- `HierarchicalAllocatorProcess::updateInverseOffer`: clear the
outstanding inverse offer, record the status, optionally install an
inverse-offer filter. -/
def updateInverseOffer (s : AllocState) (slaveId : SlaveID)
    (frameworkId : FrameworkID) (status : Option String) (filters : Option ℤ) :
    AllocState :=
  match alookup s.slaves slaveId with
  | none => s
  | some slave =>
    match slave.maintenance with
    | none => s
    | some m =>
      let m2 :=
        if m.offersOutstanding.contains frameworkId then
          let m3 :=
            { m with offersOutstanding :=
                m.offersOutstanding.filter (fun x => x != frameworkId) }
          match status with
          | some st =>
            { m3 with statuses := aupdate m3.statuses frameworkId "" (fun _ => st) }
          | none => m3
        else m
      let slaves2 :=
        aupdate s.slaves slaveId default (fun sl => { sl with maintenance := some m2 })
      let s1 := { s with slaves := slaves2 }
      match filters with
      | none => s1
      | some refuseSeconds =>
        let timeout := clampRefuseSeconds refuseSeconds
        if timeout ≠ 0 then
          let frameworks2 :=
            aupdate s1.frameworks frameworkId default
              (fun fw =>
                let iofs2 :=
                  aupdate fw.inverseOfferFilters slaveId []
                    (fun l => l ++ [{ pending := true, timeout := timeout }])
                { fw with inverseOfferFilters := iofs2 })
          { s1 with frameworks := frameworks2 }
        else s1

instance decEqSlaveResources : DecidableEq (List (SlaveID × Resources)) :=
  inferInstance

instance decEqRoleSlaveResources :
    DecidableEq (List (Role × List (SlaveID × Resources))) :=
  inferInstance

instance decEqOfferableMap :
    DecidableEq (List (FrameworkID × List (Role × List (SlaveID × Resources)))) :=
  inferInstance

/-- The run-local variables of one `__allocate` pass, threaded through the
two allocation stages together with the allocator state. -/
structure RunState where
  state : AllocState
  rolesConsumedQuota : List (Role × RQ)
  requiredHeadroom : RQ
  availableHeadroom : RQ
  offeredSharedResources : List (SlaveID × Resources)
  offerable : List (FrameworkID × List (Role × List (SlaveID × Resources)))
  heldBackForHeadroom : RQ
  heldBackAgentCount : Nat
deriving DecidableEq, Repr, Inhabited

/-- Reservation part of the consumed-quota seeding of `__allocate`:
`rolesConsumedQuota[role] += reservationScalarQuantities.get(role)` for
each quota'ed role. -/
def seedConsumedReservations (s : AllocState) : List (Role × RQ) :=
  s.quotaGuarantees.foldl
    (fun m p => rqMapAdd m p.1 ((alookup s.reservationScalarQuantities p.1).getD []))
    []

/-- Allocation part of the consumed-quota seeding: each role's unreserved
non-revocable scalar allocation is charged to its top-level role when that
top-level role has a quota guarantee. -/
def seedConsumedAllocations (s : AllocState) (m : List (Role × RQ)) :
    List (Role × RQ) :=
  s.roles.foldl
    (fun m p =>
      let topLevel := topLevelRole p.1
      if (alookup s.quotaGuarantees topLevel).isNone then m
      else if !(Sorter.hasClient s.roleSorter p.1) then m
      else
        (Sorter.allocationOf s.roleSorter p.1).foldl
          (fun m q =>
            rqMapAdd m topLevel
              (RQ.fromScalarResources
                (Resources.scalars (Resources.nonRevocable (Resources.unreserved q.2)))))
          m)
    m

/-- The `rolesConsumedQuota` map as seeded before Stage 1. -/
def seedConsumedQuota (s : AllocState) : List (Role × RQ) :=
  seedConsumedAllocations s (seedConsumedReservations s)

/-- The `requiredHeadroom` seeding:
`Σ (guarantee − consumed quota)` over the quota'ed roles (with the
truncated `ResourceQuantities` subtraction). -/
def seedRequiredHeadroom (s : AllocState) (consumed : List (Role × RQ)) : RQ :=
  s.quotaGuarantees.foldl
    (fun acc p => acc ++ RQ.sub p.2 ((alookup consumed p.1).getD [])) []

/-- `totalAllocatedReservation` of the availableHeadroom seeding. -/
def seedTotalAllocatedReservation (s : AllocState) : RQ :=
  s.roles.foldl
    (fun acc p =>
      if !(Sorter.hasClient s.roleSorter p.1) then acc
      else
        (Sorter.allocationOf s.roleSorter p.1).foldl
          (fun acc q =>
            acc ++ RQ.fromScalarResources (Resources.scalars (Resources.reservedAll q.2)))
          acc)
    []

/-- `totalReservation` of the availableHeadroom seeding: reservations of
the top-level roles only. -/
def seedTotalReservation (s : AllocState) : RQ :=
  s.reservationScalarQuantities.foldl
    (fun acc p => if p.1.contains '/' then acc else acc ++ p.2) []

/-- The `availableHeadroom` seeding: total − allocated − unallocated
reservations − unallocated revocable scalars. -/
def seedAvailableHeadroom (s : AllocState) : RQ :=
  let h1 := Sorter.totalScalarQuantities s.roleSorter
  let h2 := RQ.sub h1 (Sorter.allocationScalarQuantities s.roleSorter)
  let h3 := RQ.sub h2 (RQ.sub (seedTotalReservation s) (seedTotalAllocatedReservation s))
  s.slaves.foldl
    (fun acc p =>
      RQ.sub acc
        (RQ.fromScalarResources
          (Resources.scalars (Resources.revocableOf (Slave.getAvailable p.2)))))
    h3

/-- The candidate agents of one run: whitelisted, present and activated
(`random_shuffle` is modelled by the identity permutation). -/
def runCandidates (s : AllocState) : List SlaveID :=
  s.allocationCandidates.filter
    (fun slaveId =>
      match alookup s.slaves slaveId with
      | some slave => isWhitelisted s slave && slave.activated
      | none => false)

/-- One (agent, role, framework) step of Stage 1 (quota guarantee).  The
returned flag is `true` for `continue` and `false` for `break` (nothing
left for the role on this agent). -/
def stage1FwStep (slaveId : SlaveID) (role : Role) (quotaGuarantee : RQ)
    (frameworkId : FrameworkID) (st : RunState) : RunState × Bool :=
  match alookup st.state.slaves slaveId with
  | none => (st, false)
  | some slave =>
    let available0 := Slave.getAvailable slave
    let available1 :=
      Resources.subR available0 ((alookup st.offeredSharedResources slaveId).getD [])
    if (Resources.allocatableTo available1 role).isEmpty then (st, false)
    else
      match alookup st.state.frameworks frameworkId with
      | none => (st, true)
      | some framework =>
        if !(isCapableOfReceivingAgent st.state.options framework.capabilities slave) then
          (st, true)
        else
          let available := stripIncapableResources available1 framework.capabilities
          let toAllocate0 := Resources.nonRevocable (Resources.reservedTo available role)
          let unsatisfiedQuotaGuarantee :=
            RQ.sub quotaGuarantee ((alookup st.rolesConsumedQuota role).getD [])
          let unreserved := Resources.unreserved (Resources.nonRevocable available)
          let newQuotaAllocation := shrinkResources unreserved unsatisfiedQuotaGuarantee
          let toAllocate1 := toAllocate0 ++ newQuotaAllocation
          if toAllocate1.isEmpty then (st, true)
          else
            let nonQuotaGuaranteeResources0 :=
              unreserved.filter (fun r => decide (RQ.get quotaGuarantee r.name = 0))
            let surplusHeadroom := RQ.sub st.availableHeadroom st.requiredHeadroom
            let nonQuotaGuaranteeResources :=
              shrinkResources nonQuotaGuaranteeResources0 surplusHeadroom
            let toAllocate2 := toAllocate1 ++ nonQuotaGuaranteeResources
            let toAllocate3 := toAllocate2 ++ unreserved.filter (fun r => !r.isScalar)
            if !(allocatable st.state.options framework toAllocate3 role) ||
               isFilteredOffer framework slave role slaveId toAllocate3 then
              (st, true)
            else
              let toAllocate := Resources.allocateRole toAllocate3 role
              let offerable2 :=
                aupdate st.offerable frameworkId []
                  (fun rm =>
                    aupdate rm role []
                      (fun sm => aupdate sm slaveId [] (fun old => old ++ toAllocate)))
              let offeredShared2 :=
                aupdate st.offeredSharedResources slaveId []
                  (fun old => old ++ Resources.sharedOf toAllocate)
              let allocatedUnreserved :=
                RQ.fromScalarResources (Resources.scalars (Resources.unreserved toAllocate))
              let consumed2 := rqMapAdd st.rolesConsumedQuota role allocatedUnreserved
              let consumed3 :=
                (roleAncestors role).foldl
                  (fun m a => rqMapAdd m a allocatedUnreserved) consumed2
              let required2 :=
                RQ.sub st.requiredHeadroom
                  (RQ.fromScalarResources (Resources.scalars newQuotaAllocation))
              let availHead2 := RQ.sub st.availableHeadroom allocatedUnreserved
              let slaves2 :=
                aupdate st.state.slaves slaveId default
                  (fun sl => Slave.allocateRes sl toAllocate)
              let state2 :=
                trackAllocatedResources { st.state with slaves := slaves2 }
                  slaveId frameworkId toAllocate
              ({ st with
                  state := state2,
                  rolesConsumedQuota := consumed3,
                  requiredHeadroom := required2,
                  availableHeadroom := availHead2,
                  offeredSharedResources := offeredShared2,
                  offerable := offerable2 },
               true)

/-- The Stage 1 framework loop for one role on one agent. -/
def stage1FwLoop (slaveId : SlaveID) (role : Role) (quotaGuarantee : RQ) :
    List FrameworkID → RunState → RunState
  | [], st => st
  | f :: rest, st =>
    match stage1FwStep slaveId role quotaGuarantee f st with
    | (st2, true) => stage1FwLoop slaveId role quotaGuarantee rest st2
    | (st2, false) => st2

/-- The Stage 1 role loop for one agent (roles in `quotaRoleSorter` order;
the loop breaks when the agent has nothing available left). -/
def stage1RoleLoop (slaveId : SlaveID) : List Role → RunState → RunState
  | [], st => st
  | role :: rest, st =>
    match alookup st.state.quotaGuarantees role with
    | none => stage1RoleLoop slaveId rest st
    | some quotaGuarantee =>
      if (alookup st.state.roles role).isNone then stage1RoleLoop slaveId rest st
      else
        match alookup st.state.slaves slaveId with
        | none => st
        | some slave =>
          if (Slave.getAvailable slave).isEmpty then st
          else
            match alookup st.state.frameworkSorters role with
            | none => stage1RoleLoop slaveId rest st
            | some frameworkSorter =>
              stage1RoleLoop slaveId rest
                (stage1FwLoop slaveId role quotaGuarantee frameworkSorter.order st)

/-- The Stage 1 agent loop. -/
def stage1SlaveLoop : List SlaveID → RunState → RunState
  | [], st => st
  | slaveId :: rest, st =>
    stage1SlaveLoop rest (stage1RoleLoop slaveId st.state.quotaRoleSorter.order st)

/-- One (agent, role, framework) step of Stage 2 (above guarantee): offer
everything allocatable to the role, holding the unreserved non-revocable
scalar portion back when offering it would leave less available headroom
than required. -/
def stage2FwStep (slaveId : SlaveID) (role : Role) (frameworkId : FrameworkID)
    (st : RunState) : RunState × Bool :=
  match alookup st.state.slaves slaveId with
  | none => (st, false)
  | some slave =>
    let available0 := Slave.getAvailable slave
    let available1 :=
      Resources.subR available0 ((alookup st.offeredSharedResources slaveId).getD [])
    if (Resources.allocatableTo available1 role).isEmpty then (st, false)
    else
      match alookup st.state.frameworks frameworkId with
      | none => (st, true)
      | some framework =>
        if !(isCapableOfReceivingAgent st.state.options framework.capabilities slave) then
          (st, true)
        else
          let available := stripIncapableResources available1 framework.capabilities
          let toAllocate := Resources.allocatableTo available role
          let headroomResources :=
            Resources.nonRevocable (Resources.unreserved (Resources.scalars toAllocate))
          let headroomToAllocate := RQ.fromScalarResources headroomResources
          let sufficientHeadroom :=
            RQ.contains (RQ.sub st.availableHeadroom headroomToAllocate)
              st.requiredHeadroom
          let toAllocate2 :=
            if sufficientHeadroom then toAllocate
            else Resources.subR toAllocate headroomResources
          let heldBack2 :=
            if sufficientHeadroom then st.heldBackForHeadroom
            else st.heldBackForHeadroom ++ headroomToAllocate
          let heldCount2 :=
            if sufficientHeadroom then st.heldBackAgentCount
            else st.heldBackAgentCount + 1
          let st1 :=
            { st with heldBackForHeadroom := heldBack2, heldBackAgentCount := heldCount2 }
          if !(allocatable st1.state.options framework toAllocate2 role) ||
             isFilteredOffer framework slave role slaveId toAllocate2 then
            (st1, true)
          else
            let toAllocate3 := Resources.allocateRole toAllocate2 role
            let offerable2 :=
              aupdate st1.offerable frameworkId []
                (fun rm =>
                  aupdate rm role []
                    (fun sm => aupdate sm slaveId [] (fun old => old ++ toAllocate3)))
            let offeredShared2 :=
              aupdate st1.offeredSharedResources slaveId []
                (fun old => old ++ Resources.sharedOf toAllocate3)
            let availHead2 :=
              if sufficientHeadroom then RQ.sub st1.availableHeadroom headroomToAllocate
              else st1.availableHeadroom
            let slaves2 :=
              aupdate st1.state.slaves slaveId default
                (fun sl => Slave.allocateRes sl toAllocate3)
            let state2 :=
              trackAllocatedResources { st1.state with slaves := slaves2 }
                slaveId frameworkId toAllocate3
            ({ st1 with
                state := state2,
                offerable := offerable2,
                offeredSharedResources := offeredShared2,
                availableHeadroom := availHead2 },
             true)

/-- The Stage 2 framework loop. -/
def stage2FwLoop (slaveId : SlaveID) (role : Role) :
    List FrameworkID → RunState → RunState
  | [], st => st
  | f :: rest, st =>
    match stage2FwStep slaveId role f st with
    | (st2, true) => stage2FwLoop slaveId role rest st2
    | (st2, false) => st2

/-- The Stage 2 role loop for one agent (roles in `roleSorter` order;
quota'ed roles are skipped, they already ran in Stage 1). -/
def stage2RoleLoop (slaveId : SlaveID) : List Role → RunState → RunState
  | [], st => st
  | role :: rest, st =>
    if (alookup st.state.quotaGuarantees role).isSome then
      stage2RoleLoop slaveId rest st
    else
      match alookup st.state.slaves slaveId with
      | none => st
      | some slave =>
        if (Slave.getAvailable slave).isEmpty then st
        else
          match alookup st.state.frameworkSorters role with
          | none => stage2RoleLoop slaveId rest st
          | some frameworkSorter =>
            stage2RoleLoop slaveId rest
              (stage2FwLoop slaveId role frameworkSorter.order st)

/-- The Stage 2 agent loop. -/
def stage2SlaveLoop : List SlaveID → RunState → RunState
  | [], st => st
  | slaveId :: rest, st =>
    stage2SlaveLoop rest (stage2RoleLoop slaveId st.state.roleSorter.order st)

/-- `HierarchicalAllocatorProcess::__allocate`: seed the quota bookkeeping,
run both stages and return the final run state (its `offerable` field is
what the offer callback receives). -/
def allocateRun (s : AllocState) : RunState :=
  let slaveIds := runCandidates s
  let consumed := seedConsumedQuota s
  let st : RunState :=
    { state := s,
      rolesConsumedQuota := consumed,
      requiredHeadroom := seedRequiredHeadroom s consumed,
      availableHeadroom := seedAvailableHeadroom s,
      offeredSharedResources := [],
      offerable := [],
      heldBackForHeadroom := [],
      heldBackAgentCount := 0 }
  stage2SlaveLoop slaveIds (stage1SlaveLoop slaveIds st)

/-- The payload of an inverse offer: empty resources plus the agent's
unavailability. -/
structure UnavailableResources where
  resources : Resources
  unavailability : String
deriving DecidableEq, Repr, Inhabited

/-- The inverse offers collected by one deallocation pass. -/
abbrev InverseOfferable := List (FrameworkID × List (SlaveID × UnavailableResources))

/-- The body of the innermost `deallocate` loop, for one (framework,
agent) pair. -/
def deallocateFw (slaveId : SlaveID) (frameworkId : FrameworkID)
    (s : AllocState) (offerable : InverseOfferable) :
    AllocState × InverseOfferable :=
  match alookup s.slaves slaveId with
  | none => (s, offerable)
  | some slave =>
    match slave.maintenance with
    | none => (s, offerable)
    | some m =>
      match alookup s.frameworks frameworkId with
      | none => (s, offerable)
      | some framework =>
        if !framework.active then (s, offerable)
        else if (alookup ((alookup offerable frameworkId).getD []) slaveId).isSome then
          (s, offerable)
        else if m.offersOutstanding.contains frameworkId then (s, offerable)
        else if isFilteredInverse framework slaveId then (s, offerable)
        else
          let unav : UnavailableResources :=
            { resources := [], unavailability := m.unavailability }
          let offerable2 :=
            aupdate offerable frameworkId []
              (fun sm => aupdate sm slaveId unav (fun _ => unav))
          let m2 := { m with offersOutstanding := m.offersOutstanding ++ [frameworkId] }
          let slaves2 :=
            aupdate s.slaves slaveId default (fun sl => { sl with maintenance := some m2 })
          ({ s with slaves := slaves2 }, offerable2)

/-- One candidate agent of one framework sorter inside `deallocate`. -/
def deallocateSlave (sorter : Sorter) (slaveId : SlaveID)
    (acc : AllocState × InverseOfferable) : AllocState × InverseOfferable :=
  match alookup acc.1.slaves slaveId with
  | none => acc
  | some slave =>
    match slave.maintenance with
    | none => acc
    | some _ =>
      (Sorter.allocationAt sorter slaveId).foldl
        (fun acc p => deallocateFw slaveId p.1 acc.1 acc.2) acc

/-- `HierarchicalAllocatorProcess::deallocate`: for every framework sorter
and candidate agent under maintenance, emit an inverse offer (empty
resources + unavailability) to each active framework holding allocation
there that has no offer outstanding, no pending inverse-offer filter and
was not already collected in this pass; each emission records the
outstanding flag.  (The C++ `offerable[frameworkId]` lookup default-inserts
an empty map; that quirk only affects an empty callback invocation, never
which pairs are emitted, and is not modelled.) -/
def deallocate (s : AllocState) : AllocState × InverseOfferable :=
  if s.roles.isEmpty then (s, [])
  else
    s.frameworkSorters.foldl
      (fun acc p =>
        s.allocationCandidates.foldl
          (fun acc slaveId => deallocateSlave p.2 slaveId acc) acc)
      (s, [])

/-! ### Basic lemmas about the `ResourceQuantities` model -/

theorem RQ.get_nil (n : String) : RQ.get ([] : RQ) n = 0 := rfl

theorem RQ.get_cons (p : String × ℤ) (l : RQ) (n : String) :
    RQ.get (p :: l) n = (if p.1 = n then p.2 else 0) + RQ.get l n := by
  by_cases h : p.1 = n
  · simp [RQ.get, List.filter_cons, h]
  · simp [RQ.get, List.filter_cons, h]

theorem RQ.get_append (a b : RQ) (n : String) :
    RQ.get (a ++ b) n = RQ.get a n + RQ.get b n := by
  simp [RQ.get, List.filter_append]

theorem RQ.mem_names (a : RQ) (n : String) :
    n ∈ RQ.names a ↔ ∃ p ∈ a, p.1 = n := by
  simp [RQ.names, List.mem_dedup, List.mem_map]

theorem RQ.get_eq_zero (a : RQ) (n : String) (h : n ∉ RQ.names a) :
    RQ.get a n = 0 := by
  induction a with
  | nil => rfl
  | cons p l ih =>
      rw [RQ.get_cons]
      have h1 : ¬ (p.1 = n) := by
        intro e
        exact h ((RQ.mem_names (p :: l) n).mpr ⟨p, List.mem_cons_self p l, e⟩)
      have h2 : n ∉ RQ.names l := by
        intro hm
        obtain ⟨q, hq, e⟩ := (RQ.mem_names l n).mp hm
        exact h ((RQ.mem_names (p :: l) n).mpr ⟨q, List.mem_cons_of_mem p hq, e⟩)
      rw [if_neg h1, ih h2, zero_add]

theorem RQ.get_subAux (ks : List String) (a b : RQ) (n : String)
    (hk : ks.Nodup) :
    RQ.get (RQ.subAux ks a b) n =
      if n ∈ ks then max 0 (RQ.get a n - RQ.get b n) else 0 := by
  induction ks with
  | nil => simp [RQ.subAux, RQ.get]
  | cons k ks ih =>
      obtain ⟨hk1, hk2⟩ := List.nodup_cons.mp hk
      by_cases e : n = k
      · subst e
        have htail : RQ.get (RQ.subAux ks a b) n = 0 := by
          rw [ih hk2, if_neg hk1]
        by_cases hpos : 0 < RQ.get a n - RQ.get b n
        · have : RQ.subAux (n :: ks) a b =
              (n, RQ.get a n - RQ.get b n) :: RQ.subAux ks a b := by
            unfold RQ.subAux
            rw [List.filterMap_cons, if_pos hpos]
          rw [this, RQ.get_cons, htail, if_pos rfl, if_pos (List.mem_cons_self n ks)]
          have : max 0 (RQ.get a n - RQ.get b n) = RQ.get a n - RQ.get b n :=
            max_eq_right (le_of_lt hpos)
          rw [this, add_zero]
        · have : RQ.subAux (n :: ks) a b = RQ.subAux ks a b := by
            unfold RQ.subAux
            rw [List.filterMap_cons, if_neg hpos]
          rw [this, htail, if_pos (List.mem_cons_self n ks)]
          have : max 0 (RQ.get a n - RQ.get b n) = 0 :=
            max_eq_left (le_of_not_lt hpos)
          rw [this]
      · have hstep : RQ.get (RQ.subAux (k :: ks) a b) n = RQ.get (RQ.subAux ks a b) n := by
          by_cases hpos : 0 < RQ.get a k - RQ.get b k
          · have : RQ.subAux (k :: ks) a b =
                (k, RQ.get a k - RQ.get b k) :: RQ.subAux ks a b := by
              unfold RQ.subAux
              rw [List.filterMap_cons, if_pos hpos]
            rw [this, RQ.get_cons, if_neg (fun h => e h.symm), zero_add]
          · have : RQ.subAux (k :: ks) a b = RQ.subAux ks a b := by
              unfold RQ.subAux
              rw [List.filterMap_cons, if_neg hpos]
            rw [this]
        rw [hstep, ih hk2]
        have : (n ∈ k :: ks) ↔ (n ∈ ks) := by
          constructor
          · intro h; rcases List.mem_cons.mp h with h | h
            · exact absurd h e
            · exact h
          · exact fun h => List.mem_cons_of_mem k h
        by_cases hm : n ∈ ks
        · rw [if_pos hm, if_pos (this.mpr hm)]
        · rw [if_neg hm, if_neg (fun h => hm (this.mp h))]

theorem RQ.get_sub (a b : RQ) (n : String) :
    RQ.get (RQ.sub a b) n =
      if n ∈ RQ.names a then max 0 (RQ.get a n - RQ.get b n) else 0 := by
  exact RQ.get_subAux (RQ.names a) a b n (List.nodup_dedup _)

theorem RQ.get_sub_nonneg (a b : RQ) (n : String) :
    0 ≤ RQ.get (RQ.sub a b) n := by
  rw [RQ.get_sub]
  by_cases h : n ∈ RQ.names a
  · rw [if_pos h]; exact le_max_left 0 _
  · rw [if_neg h]

theorem RQ.get_sub_of_nonneg (a b : RQ) (n : String) (hb : 0 ≤ RQ.get b n) :
    RQ.get (RQ.sub a b) n = max 0 (RQ.get a n - RQ.get b n) := by
  rw [RQ.get_sub]
  by_cases h : n ∈ RQ.names a
  · rw [if_pos h]
  · rw [if_neg h, RQ.get_eq_zero a n h]
    have : RQ.get ([] : RQ) n - RQ.get b n ≤ 0 := by
      simpa using neg_nonpos_of_nonneg hb
    symm
    exact max_eq_left (by simpa using this)

theorem RQ.contains_iff (a b : RQ) :
    RQ.contains a b = true ↔ ∀ n ∈ RQ.names b, RQ.get b n ≤ RQ.get a n := by
  simp [RQ.contains, List.all_eq_true]

theorem RQ.contains_iff_forall (a b : RQ) (ha : ∀ n, 0 ≤ RQ.get a n) :
    RQ.contains a b = true ↔ ∀ n, RQ.get b n ≤ RQ.get a n := by
  rw [RQ.contains_iff]
  constructor
  · intro h n
    by_cases hm : n ∈ RQ.names b
    · exact h n hm
    · rw [RQ.get_eq_zero b n hm]; exact ha n
  · intro h n _
    exact h n

/-! ### Lemmas about association lists -/

theorem alookup_nil {β : Type} (k : String) :
    alookup ([] : List (String × β)) k = none := rfl

theorem alookup_cons {β : Type} (p : String × β) (l : List (String × β))
    (k : String) :
    alookup (p :: l) k = if p.1 = k then some p.2 else alookup l k := by
  by_cases h : p.1 = k
  · simp [alookup, List.find?_cons, h]
  · simp [alookup, List.find?_cons, h]

theorem alookup_aupdate_self {β : Type} (l : List (String × β)) (k : String)
    (d : β) (f : β → β) :
    alookup (aupdate l k d f) k = some (f ((alookup l k).getD d)) := by
  induction l with
  | nil => simp [aupdate, alookup_cons, alookup_nil]
  | cons p l ih =>
      by_cases h : p.1 = k
      · simp [aupdate, h, alookup_cons]
      · have hb : (p.1 == k) = false := beq_eq_false_iff_ne.mpr h
        simp only [aupdate, hb, Bool.false_eq_true, if_false]
        rw [alookup_cons, if_neg h, ih, alookup_cons, if_neg h]

theorem alookup_aupdate_ne {β : Type} (l : List (String × β)) (k k2 : String)
    (d : β) (f : β → β) (h : k2 ≠ k) :
    alookup (aupdate l k d f) k2 = alookup l k2 := by
  induction l with
  | nil =>
      show alookup [(k, f d)] k2 = alookup [] k2
      rw [alookup_cons, if_neg (fun e : k = k2 => h e.symm)]
  | cons p l ih =>
      by_cases hp : p.1 = k
      · have hb : (p.1 == k) = true := beq_iff_eq.mpr hp
        simp only [aupdate, hb, if_true]
        rw [alookup_cons, alookup_cons]
        have : ¬ (p.1 = k2) := by rw [hp]; exact fun e => h e.symm
        rw [if_neg this, if_neg this]
      · have hb : (p.1 == k) = false := beq_eq_false_iff_ne.mpr hp
        simp only [aupdate, hb, Bool.false_eq_true, if_false]
        rw [alookup_cons, alookup_cons, ih]

theorem aerase_cons_pos {β : Type} (p : String × β) (l : List (String × β))
    (k : String) (h : p.1 = k) : aerase (p :: l) k = aerase l k := by
  have hb : (p.1 != k) = false := by simp [h]
  simp only [aerase, List.filter_cons, hb, Bool.false_eq_true, if_false]

theorem aerase_cons_neg {β : Type} (p : String × β) (l : List (String × β))
    (k : String) (h : ¬ (p.1 = k)) : aerase (p :: l) k = p :: aerase l k := by
  have hb : (p.1 != k) = true := by simp [h]
  simp only [aerase, List.filter_cons, hb, if_true]

theorem alookup_aerase_self {β : Type} (l : List (String × β)) (k : String) :
    alookup (aerase l k) k = none := by
  induction l with
  | nil => rfl
  | cons p l ih =>
      by_cases hp : p.1 = k
      · rw [aerase_cons_pos p l k hp]
        exact ih
      · rw [aerase_cons_neg p l k hp, alookup_cons, if_neg hp]
        exact ih

theorem alookup_aerase_ne {β : Type} (l : List (String × β)) (k k2 : String)
    (h : k2 ≠ k) :
    alookup (aerase l k) k2 = alookup l k2 := by
  induction l with
  | nil => rfl
  | cons p l ih =>
      by_cases hp : p.1 = k
      · rw [aerase_cons_pos p l k hp, ih, alookup_cons]
        have hne : ¬ (p.1 = k2) := by rw [hp]; exact fun e => h e.symm
        rw [if_neg hne]
      · rw [aerase_cons_neg p l k hp, alookup_cons, alookup_cons, ih]

/-! ### Lemmas about the `Resources` model -/

theorem Resources.amountOf_nil (k : Resource) :
    Resources.amountOf ([] : Resources) k = 0 := rfl

theorem Resources.amountOf_cons (r : Resource) (R : Resources) (k : Resource) :
    Resources.amountOf (r :: R) k =
      (if rkey r = k then r.amount else 0) + Resources.amountOf R k := by
  by_cases h : rkey r = k
  · simp [Resources.amountOf, List.filter_cons, h]
  · simp [Resources.amountOf, List.filter_cons, h]

theorem Resources.amountOf_append (A B : Resources) (k : Resource) :
    Resources.amountOf (A ++ B) k =
      Resources.amountOf A k + Resources.amountOf B k := by
  simp [Resources.amountOf, List.filter_append]

theorem Resources.mem_keysR (R : Resources) (k : Resource) :
    k ∈ Resources.keysR R ↔ ∃ r ∈ R, rkey r = k := by
  simp [Resources.keysR, List.mem_dedup, List.mem_map]

theorem Resources.amountOf_eq_zero (R : Resources) (k : Resource)
    (h : k ∉ Resources.keysR R) : Resources.amountOf R k = 0 := by
  induction R with
  | nil => rfl
  | cons r R ih =>
      rw [Resources.amountOf_cons]
      have h1 : ¬ (rkey r = k) := by
        intro e
        exact h ((Resources.mem_keysR (r :: R) k).mpr ⟨r, List.mem_cons_self r R, e⟩)
      have h2 : k ∉ Resources.keysR R := by
        intro hm
        obtain ⟨q, hq, e⟩ := (Resources.mem_keysR R k).mp hm
        exact h ((Resources.mem_keysR (r :: R) k).mpr ⟨q, List.mem_cons_of_mem r hq, e⟩)
      rw [if_neg h1, ih h2, zero_add]

theorem rkey_amount (r : Resource) : (rkey r).amount = 0 := rfl

theorem rkey_of_key (k : Resource) (h : k.amount = 0) (v : ℤ) :
    rkey { k with amount := v } = k := by
  cases k
  simp_all [rkey]

theorem Resources.amountOf_subAuxR (ks : List Resource) (A B : Resources)
    (k : Resource) (hk : ks.Nodup) (hz : ∀ x ∈ ks, x.amount = 0) :
    Resources.amountOf (Resources.subAuxR ks A B) k =
      if k ∈ ks then max 0 (Resources.amountOf A k - Resources.amountOf B k)
      else 0 := by
  induction ks with
  | nil => simp [Resources.subAuxR, Resources.amountOf]
  | cons x ks ih =>
      obtain ⟨hk1, hk2⟩ := List.nodup_cons.mp hk
      have hzx : x.amount = 0 := hz x (List.mem_cons_self x ks)
      have hz2 : ∀ y ∈ ks, y.amount = 0 :=
        fun y hy => hz y (List.mem_cons_of_mem x hy)
      by_cases e : k = x
      · subst e
        have htail : Resources.amountOf (Resources.subAuxR ks A B) k = 0 := by
          rw [ih hk2 hz2, if_neg hk1]
        by_cases hpos : 0 < Resources.amountOf A k - Resources.amountOf B k
        · have hcons : Resources.subAuxR (k :: ks) A B =
              { k with amount := Resources.amountOf A k - Resources.amountOf B k } ::
                Resources.subAuxR ks A B := by
            unfold Resources.subAuxR
            rw [List.filterMap_cons, if_pos hpos]
          rw [hcons, Resources.amountOf_cons, htail,
              if_pos (rkey_of_key k hzx _), if_pos (List.mem_cons_self k ks)]
          have : max 0 (Resources.amountOf A k - Resources.amountOf B k) =
              Resources.amountOf A k - Resources.amountOf B k :=
            max_eq_right (le_of_lt hpos)
          rw [this, add_zero]
        · have hcons : Resources.subAuxR (k :: ks) A B = Resources.subAuxR ks A B := by
            unfold Resources.subAuxR
            rw [List.filterMap_cons, if_neg hpos]
          rw [hcons, htail, if_pos (List.mem_cons_self k ks)]
          have : max 0 (Resources.amountOf A k - Resources.amountOf B k) = 0 :=
            max_eq_left (le_of_not_lt hpos)
          rw [this]
      · have hstep : Resources.amountOf (Resources.subAuxR (x :: ks) A B) k =
            Resources.amountOf (Resources.subAuxR ks A B) k := by
          by_cases hpos : 0 < Resources.amountOf A x - Resources.amountOf B x
          · have hcons : Resources.subAuxR (x :: ks) A B =
                { x with amount := Resources.amountOf A x - Resources.amountOf B x } ::
                  Resources.subAuxR ks A B := by
              unfold Resources.subAuxR
              rw [List.filterMap_cons, if_pos hpos]
            rw [hcons, Resources.amountOf_cons]
            have : ¬ (rkey { x with amount := Resources.amountOf A x - Resources.amountOf B x } = k) := by
              rw [rkey_of_key x hzx]
              exact fun h => e h.symm
            rw [if_neg this, zero_add]
          · have hcons : Resources.subAuxR (x :: ks) A B = Resources.subAuxR ks A B := by
              unfold Resources.subAuxR
              rw [List.filterMap_cons, if_neg hpos]
            rw [hcons]
        rw [hstep, ih hk2 hz2]
        have hmem : (k ∈ x :: ks) ↔ (k ∈ ks) := by
          constructor
          · intro h; rcases List.mem_cons.mp h with h | h
            · exact absurd h e
            · exact h
          · exact fun h => List.mem_cons_of_mem x h
        by_cases hm : k ∈ ks
        · rw [if_pos hm, if_pos (hmem.mpr hm)]
        · rw [if_neg hm, if_neg (fun h => hm (hmem.mp h))]

theorem Resources.keysR_amount_zero (R : Resources) :
    ∀ x ∈ Resources.keysR R, x.amount = 0 := by
  intro x hx
  obtain ⟨r, _, e⟩ := (Resources.mem_keysR R x).mp hx
  rw [← e]
  rfl

theorem Resources.amountOf_subR (A B : Resources) (k : Resource) :
    Resources.amountOf (Resources.subR A B) k =
      if k ∈ Resources.keysR A then
        max 0 (Resources.amountOf A k - Resources.amountOf B k)
      else 0 := by
  exact Resources.amountOf_subAuxR (Resources.keysR A) A B k
    (List.nodup_dedup _) (Resources.keysR_amount_zero A)

theorem Resources.amountOf_subR_nonneg (A B : Resources) (k : Resource) :
    0 ≤ Resources.amountOf (Resources.subR A B) k := by
  rw [Resources.amountOf_subR]
  by_cases h : k ∈ Resources.keysR A
  · rw [if_pos h]; exact le_max_left 0 _
  · rw [if_neg h]

theorem Resources.amountOf_subR_of_nonneg (A B : Resources) (k : Resource)
    (hb : 0 ≤ Resources.amountOf B k) :
    Resources.amountOf (Resources.subR A B) k =
      max 0 (Resources.amountOf A k - Resources.amountOf B k) := by
  rw [Resources.amountOf_subR]
  by_cases h : k ∈ Resources.keysR A
  · rw [if_pos h]
  · rw [if_neg h, Resources.amountOf_eq_zero A k h]
    symm
    apply max_eq_left
    simpa using neg_nonpos_of_nonneg hb

theorem Resources.subR_self (A : Resources) : Resources.subR A A = [] := by
  unfold Resources.subR Resources.subAuxR
  apply List.filterMap_eq_nil_iff.mpr
  intro k _
  rw [if_neg]
  simp

theorem Resources.containsR_iff (A B : Resources) :
    Resources.containsR A B = true ↔
      ∀ k ∈ Resources.keysR B, Resources.amountOf B k ≤ Resources.amountOf A k := by
  simp [Resources.containsR, List.all_eq_true]

theorem Resources.amountOf_nonneg (R : Resources) (k : Resource)
    (h : ∀ r ∈ R, 0 ≤ r.amount) : 0 ≤ Resources.amountOf R k := by
  induction R with
  | nil => exact le_refl 0
  | cons r R ih =>
      rw [Resources.amountOf_cons]
      have h1 := h r (List.mem_cons_self r R)
      have h2 := ih (fun x hx => h x (List.mem_cons_of_mem r hx))
      by_cases e : rkey r = k
      · rw [if_pos e]; exact add_nonneg h1 h2
      · rw [if_neg e, zero_add]; exact h2

theorem Resources.containsR_iff_forall (A B : Resources)
    (ha : ∀ k, 0 ≤ Resources.amountOf A k) :
    Resources.containsR A B = true ↔
      ∀ k, Resources.amountOf B k ≤ Resources.amountOf A k := by
  rw [Resources.containsR_iff]
  constructor
  · intro h k
    by_cases hm : k ∈ Resources.keysR B
    · exact h k hm
    · rw [Resources.amountOf_eq_zero B k hm]; exact ha k
  · intro h k _
    exact h k

theorem Resources.mem_subR_pos (A B : Resources) (r : Resource)
    (h : r ∈ Resources.subR A B) : 0 < r.amount := by
  unfold Resources.subR Resources.subAuxR at h
  obtain ⟨k, _, he⟩ := List.mem_filterMap.mp h
  by_cases hpos : 0 < Resources.amountOf A k - Resources.amountOf B k
  · rw [if_pos hpos] at he
    cases he
    exact hpos
  · rw [if_neg hpos] at he
    cases he

/-! ### Sample fixtures used by the witness and counterexample theorems -/

/-- A fully-capable framework capability set. -/
def sampleCaps : FrameworkCapabilities :=
  { multiRole := true, gpuResources := true, revocableResources := true,
    sharedResources := true, reservationRefinement := true, regionAware := true }

/-- Default options: 1s allocation interval, no global min-allocatable. -/
def sampleOpts : AllocOptions :=
  { allocationInterval := 1, minAllocatableResources := none,
    filterGpuResources := false, domainRegion := none }

/-- An unreserved non-revocable divisible cpus scalar. -/
def sampleCpus (q : ℤ) : Resource :=
  { name := "cpus", isScalar := true, amount := q, reservation := none,
    revocable := false, shared := false, divisible := true, refined := false,
    allocatedTo := none }

/-- A framework with a per-role min-allocatable override of 2 cpus for
role `r`. -/
def sampleFwMin : Framework :=
  { roles := ["r"], suppressedRoles := [], capabilities := sampleCaps,
    active := true, minAllocatableResources := [("r", [[("cpus", 2)]])],
    offerFilters := [], inverseOfferFilters := [] }

/-- A plain framework with no filters and no min-allocatable lists. -/
def sampleFwPlain : Framework :=
  { roles := ["r"], suppressedRoles := [], capabilities := sampleCaps,
    active := true, minAllocatableResources := [],
    offerFilters := [], inverseOfferFilters := [] }

/-- A fully-capable agent capability set. -/
def sampleSlaveCaps : SlaveCapabilities :=
  { multiRole := true, hierarchicalRole := true }

/-- An agent without the MULTI_ROLE capability. -/
def sampleSlaveNoMulti : Slave :=
  { hostname := "h", total := [], allocated := [], activated := true,
    hasGpu := false, region := none,
    capabilities := { multiRole := false, hierarchicalRole := true },
    maintenance := none }

/-! ### C4 — the `allocatable` predicate -/

/-- C4: for every resources `R`, role and framework, `allocatable` returns
false when `R` is empty; returns true when no minimum-allocatable-resources
requirements are configured (neither the framework's per-role override nor
the global option) or the effective requirement list is empty; and
otherwise returns true iff at least one effective requirement quantity set
is contained in `R`, the framework's per-role list replacing the global
list when present. -/
theorem C4_allocatable_spec (opts : AllocOptions) (framework : Framework)
    (R : Resources) (role : Role) :
    (R = [] → allocatable opts framework R role = false) ∧
    (R ≠ [] → alookup framework.minAllocatableResources role = none →
      opts.minAllocatableResources = none →
      allocatable opts framework R role = true) ∧
    (R ≠ [] → ∀ l, alookup framework.minAllocatableResources role = some l →
      (allocatable opts framework R role = true ↔
        l = [] ∨ ∃ qs ∈ l, Resources.containsQuantities R qs = true)) ∧
    (R ≠ [] → alookup framework.minAllocatableResources role = none →
      ∀ g, opts.minAllocatableResources = some g →
      (allocatable opts framework R role = true ↔
        g = [] ∨ ∃ qs ∈ g, Resources.containsQuantities R qs = true)) := by
  have hEmptyFalse : R ≠ [] → R.isEmpty = false := by
    intro h
    cases R with
    | nil => exact absurd rfl h
    | cons r rest => rfl
  refine ⟨?_, ?_, ?_, ?_⟩
  · intro h
    subst h
    rfl
  · intro hR h1 h2
    simp [allocatable, hEmptyFalse hR, h1, h2]
  · intro hR l h1
    by_cases hl : l = []
    · subst hl
      simp [allocatable, hEmptyFalse hR, h1]
    · have hlE : l.isEmpty = false := by
        cases l with
        | nil => exact absurd rfl hl
        | cons q rest => rfl
      simp [allocatable, hEmptyFalse hR, h1, hlE, hl, List.any_eq_true]
  · intro hR h1 g h2
    by_cases hg : g = []
    · subst hg
      simp [allocatable, hEmptyFalse hR, h1, h2]
    · have hgE : g.isEmpty = false := by
        cases g with
        | nil => exact absurd rfl hg
        | cons q rest => rfl
      simp [allocatable, hEmptyFalse hR, h1, h2, hgE, hg, List.any_eq_true]

/-- Witness for C4 at concrete inputs: empty resources are rejected, and
3 cpus pass the framework's own 2-cpus requirement. -/
theorem C4_allocatable_spec_witness :
    allocatable sampleOpts sampleFwMin [] "r" = false ∧
    allocatable sampleOpts sampleFwMin [sampleCpus 3] "r" = true := by
  constructor
  · exact (C4_allocatable_spec sampleOpts sampleFwMin [] "r").1 rfl
  · exact ((C4_allocatable_spec sampleOpts sampleFwMin [sampleCpus 3] "r").2.2.1
      (by decide) [[("cpus", 2)]] (by decide)).mpr
      (Or.inr ⟨[("cpus", 2)], by decide, by decide⟩)

/-! ### C6 — offer-filter consultation -/

/-- The `OfferFilter`s stored for a (framework, role, agent) triple. -/
def offerFiltersAt (framework : Framework) (role : Role) (slaveId : SlaveID) :
    List OfferFilterRec :=
  (alookup ((alookup framework.offerFilters role).getD []) slaveId).getD []

/-- The stored-filter tail of `isFilteredOffer`, rephrased as an
existential over `offerFiltersAt`. -/
theorem C6_tail (framework : Framework) (slaveId : SlaveID) (role : Role)
    (R : Resources) :
    (match alookup framework.offerFilters role with
      | none => false
      | some roleFilters =>
        match alookup roleFilters slaveId with
        | none => false
        | some agentFilters =>
            agentFilters.any fun f => f.resources.containsR R) = true ↔
    ∃ f ∈ offerFiltersAt framework role slaveId,
      f.resources.containsR R = true := by
  unfold offerFiltersAt
  cases hrf : alookup framework.offerFilters role with
  | none => simp [hrf, alookup_nil]
  | some roleFilters =>
    cases haf : alookup roleFilters slaveId with
    | none => simp [hrf, haf, alookup_nil]
    | some agentFilters => simp [hrf, haf, List.any_eq_true]

/-- C6 (amended): `isFiltered(framework, role, agent, R)` returns true iff
an implicit capability filter applies — a MULTI_ROLE framework paired with
a non-MULTI_ROLE agent, or a hierarchical role paired with a
non-HIERARCHICAL_ROLE agent — or some stored OfferFilter for the triple
has refused resources containing `R`. -/
theorem C6_isFiltered_characterization (framework : Framework) (slave : Slave)
    (role : Role) (slaveId : SlaveID) (R : Resources) :
    isFilteredOffer framework slave role slaveId R = true ↔
      (framework.capabilities.multiRole = true ∧
        slave.capabilities.multiRole = false) ∨
      (slave.capabilities.hierarchicalRole = false ∧
        role.contains '/' = true) ∨
      ∃ f ∈ offerFiltersAt framework role slaveId,
        Resources.containsR f.resources R = true := by
  have htail := C6_tail framework slaveId role R
  unfold isFilteredOffer
  cases hm : framework.capabilities.multiRole <;>
  cases hsm : slave.capabilities.multiRole <;>
  cases hh : slave.capabilities.hierarchicalRole <;>
  cases hc : role.contains '/' <;>
  simp only [Bool.and_self, Bool.and_true, Bool.and_false,
    Bool.true_and, Bool.false_and, Bool.not_true, Bool.not_false,
    if_true, if_false, Bool.false_eq_true, Bool.true_eq_false, false_and,
    true_and, and_true, and_false, false_or, or_false, true_or, or_true,
    iff_true, true_iff, false_iff, htail]

/-- Counterexample to C6 as stated: a MULTI_ROLE framework on a
non-MULTI_ROLE agent is filtered implicitly, with no stored OfferFilter at
all, so "filtered iff some stored filter contains the resources" fails. -/
theorem C6_counterexample :
    ¬ (isFilteredOffer sampleFwPlain sampleSlaveNoMulti "r" "a" [] = true ↔
       ∃ f ∈ offerFiltersAt sampleFwPlain "r" "a",
         Resources.containsR f.resources [] = true) := by
  decide

/-! ### C8 — recovery pause/resume: frame lemmas and spec -/

theorem setQuota_quotaGuarantees (s : AllocState) (role : Role) (g : RQ) :
    (setQuota s role g).quotaGuarantees = s.quotaGuarantees ++ [(role, g)] := by
  simp only [setQuota]
  split <;> rfl

theorem setQuota_paused (s : AllocState) (role : Role) (g : RQ) :
    (setQuota s role g).paused = s.paused := by
  simp only [setQuota]
  split <;> rfl

theorem setQuota_expected (s : AllocState) (role : Role) (g : RQ) :
    (setQuota s role g).expectedAgentCount = s.expectedAgentCount := by
  simp only [setQuota]
  split <;> rfl

theorem setQuota_resumeTimer (s : AllocState) (role : Role) (g : RQ) :
    (setQuota s role g).resumeTimer = s.resumeTimer := by
  simp only [setQuota]
  split <;> rfl

theorem foldQuotas_quotaGuarantees (quotas : List (Role × RQ)) (s : AllocState) :
    (quotas.foldl (fun s p => setQuota s p.1 p.2) s).quotaGuarantees =
      s.quotaGuarantees ++ quotas := by
  induction quotas generalizing s with
  | nil => simp
  | cons p rest ih =>
      simp only [List.foldl_cons]
      rw [ih (setQuota s p.1 p.2), setQuota_quotaGuarantees]
      simp

theorem foldQuotas_paused (quotas : List (Role × RQ)) (s : AllocState) :
    (quotas.foldl (fun s p => setQuota s p.1 p.2) s).paused = s.paused := by
  induction quotas generalizing s with
  | nil => rfl
  | cons p rest ih =>
      simp only [List.foldl_cons]
      rw [ih (setQuota s p.1 p.2), setQuota_paused]

theorem foldQuotas_resumeTimer (quotas : List (Role × RQ)) (s : AllocState) :
    (quotas.foldl (fun s p => setQuota s p.1 p.2) s).resumeTimer =
      s.resumeTimer := by
  induction quotas generalizing s with
  | nil => rfl
  | cons p rest ih =>
      simp only [List.foldl_cons]
      rw [ih (setQuota s p.1 p.2), setQuota_resumeTimer]

theorem trackFrameworkUnderRole_slaves (s : AllocState) (f : FrameworkID)
    (role : Role) :
    (trackFrameworkUnderRole s f role).slaves = s.slaves := by
  simp only [trackFrameworkUnderRole]
  split <;> rfl

theorem trackFrameworkUnderRole_paused (s : AllocState) (f : FrameworkID)
    (role : Role) :
    (trackFrameworkUnderRole s f role).paused = s.paused := by
  simp only [trackFrameworkUnderRole]
  split <;> rfl

theorem trackFrameworkUnderRole_expected (s : AllocState) (f : FrameworkID)
    (role : Role) :
    (trackFrameworkUnderRole s f role).expectedAgentCount =
      s.expectedAgentCount := by
  simp only [trackFrameworkUnderRole]
  split <;> rfl

theorem trackAllocatedOne_slaves (s : AllocState) (a : SlaveID)
    (f : FrameworkID) (role : Role) (r : Resources) :
    (trackAllocatedOne s a f role r).slaves = s.slaves := by
  simp only [trackAllocatedOne]
  split <;> split <;> simp_all [trackFrameworkUnderRole_slaves]

theorem trackAllocatedOne_paused (s : AllocState) (a : SlaveID)
    (f : FrameworkID) (role : Role) (r : Resources) :
    (trackAllocatedOne s a f role r).paused = s.paused := by
  simp only [trackAllocatedOne]
  split <;> split <;> simp_all [trackFrameworkUnderRole_paused]

theorem trackAllocatedOne_expected (s : AllocState) (a : SlaveID)
    (f : FrameworkID) (role : Role) (r : Resources) :
    (trackAllocatedOne s a f role r).expectedAgentCount =
      s.expectedAgentCount := by
  simp only [trackAllocatedOne]
  split <;> split <;> simp_all [trackFrameworkUnderRole_expected]

theorem trackAllocatedResources_slaves (s : AllocState) (a : SlaveID)
    (f : FrameworkID) (alloc : Resources) :
    (trackAllocatedResources s a f alloc).slaves = s.slaves := by
  unfold trackAllocatedResources
  generalize Resources.allocations alloc = l
  induction l generalizing s with
  | nil => rfl
  | cons p rest ih =>
      simp only [List.foldl_cons]
      rw [ih (trackAllocatedOne s a f p.1 p.2), trackAllocatedOne_slaves]

theorem trackAllocatedResources_paused (s : AllocState) (a : SlaveID)
    (f : FrameworkID) (alloc : Resources) :
    (trackAllocatedResources s a f alloc).paused = s.paused := by
  unfold trackAllocatedResources
  generalize Resources.allocations alloc = l
  induction l generalizing s with
  | nil => rfl
  | cons p rest ih =>
      simp only [List.foldl_cons]
      rw [ih (trackAllocatedOne s a f p.1 p.2), trackAllocatedOne_paused]

theorem trackAllocatedResources_expected (s : AllocState) (a : SlaveID)
    (f : FrameworkID) (alloc : Resources) :
    (trackAllocatedResources s a f alloc).expectedAgentCount =
      s.expectedAgentCount := by
  unfold trackAllocatedResources
  generalize Resources.allocations alloc = l
  induction l generalizing s with
  | nil => rfl
  | cons p rest ih =>
      simp only [List.foldl_cons]
      rw [ih (trackAllocatedOne s a f p.1 p.2), trackAllocatedOne_expected]

theorem trackUsedAllocations_slaves (s : AllocState) (a : SlaveID)
    (used : List (FrameworkID × Resources)) :
    (trackUsedAllocations s a used).slaves = s.slaves := by
  unfold trackUsedAllocations
  induction used generalizing s with
  | nil => rfl
  | cons p rest ih =>
      simp only [List.foldl_cons]
      by_cases h : (alookup s.frameworks p.1).isSome
      · rw [if_pos h, ih (trackAllocatedResources s a p.1 p.2),
            trackAllocatedResources_slaves]
      · rw [if_neg h]
        exact ih s

theorem trackUsedAllocations_paused (s : AllocState) (a : SlaveID)
    (used : List (FrameworkID × Resources)) :
    (trackUsedAllocations s a used).paused = s.paused := by
  unfold trackUsedAllocations
  induction used generalizing s with
  | nil => rfl
  | cons p rest ih =>
      simp only [List.foldl_cons]
      by_cases h : (alookup s.frameworks p.1).isSome
      · rw [if_pos h, ih (trackAllocatedResources s a p.1 p.2),
            trackAllocatedResources_paused]
      · rw [if_neg h]
        exact ih s

theorem trackUsedAllocations_expected (s : AllocState) (a : SlaveID)
    (used : List (FrameworkID × Resources)) :
    (trackUsedAllocations s a used).expectedAgentCount =
      s.expectedAgentCount := by
  unfold trackUsedAllocations
  induction used generalizing s with
  | nil => rfl
  | cons p rest ih =>
      simp only [List.foldl_cons]
      by_cases h : (alookup s.frameworks p.1).isSome
      · rw [if_pos h, ih (trackAllocatedResources s a p.1 p.2),
            trackAllocatedResources_expected]
      · rw [if_neg h]
        exact ih s

theorem C8_recover_spec (s : AllocState) (n : Nat) (quotas : List (Role × RQ))
    (slaveId : SlaveID) (hostname : String) (caps : SlaveCapabilities)
    (hasGpu : Bool) (region : Option String) (unav : Option String)
    (total : Resources) (used : List (FrameworkID × Resources)) :
    (quotas = [] → recoverAllocator s n quotas = s) ∧
    (quotas ≠ [] →
      (recoverAllocator s n quotas).quotaGuarantees =
          s.quotaGuarantees ++ quotas ∧
      (recoverAllocator s n quotas).expectedAgentCount =
          some (effectiveExpectedAgents n) ∧
      (effectiveExpectedAgents n = 0 →
        (recoverAllocator s n quotas).paused = s.paused ∧
        (recoverAllocator s n quotas).resumeTimer = s.resumeTimer) ∧
      (effectiveExpectedAgents n ≠ 0 →
        (recoverAllocator s n quotas).paused = true ∧
        (recoverAllocator s n quotas).resumeTimer =
          some allocationHoldOffRecoveryTimeoutSeconds)) ∧
    (∀ k, s.paused = true → s.expectedAgentCount = some k →
      k ≤ s.slaves.length + 1 →
      (addSlave s slaveId hostname caps hasGpu region unav total used).paused
          = false ∧
      (addSlave s slaveId hostname caps hasGpu region unav total
          used).expectedAgentCount = none) := by
  refine ⟨?_, ?_, ?_⟩
  · intro h
    subst h
    rfl
  · intro hq
    have hqE : quotas.isEmpty = false := by
      cases quotas with
      | nil => exact absurd rfl hq
      | cons p rest => rfl
    by_cases hz : effectiveExpectedAgents n = 0
    · have hr : recoverAllocator s n quotas =
          { quotas.foldl (fun s p => setQuota s p.1 p.2) s with
            expectedAgentCount := some (effectiveExpectedAgents n) } := by
        simp only [recoverAllocator, hqE, Bool.false_eq_true, if_false,
          if_pos hz]
      rw [hr]
      exact ⟨foldQuotas_quotaGuarantees quotas s, rfl,
        fun _ => ⟨foldQuotas_paused quotas s, foldQuotas_resumeTimer quotas s⟩,
        fun h => absurd hz h⟩
    · have hr : recoverAllocator s n quotas =
          { quotas.foldl (fun s p => setQuota s p.1 p.2) s with
            expectedAgentCount := some (effectiveExpectedAgents n),
            paused := true,
            resumeTimer := some allocationHoldOffRecoveryTimeoutSeconds } := by
        simp only [recoverAllocator, hqE, Bool.false_eq_true, if_false,
          if_neg hz]
      rw [hr]
      exact ⟨foldQuotas_quotaGuarantees quotas s, rfl,
        fun h => absurd h hz, fun _ => ⟨rfl, rfl⟩⟩
  · intro k hp he hk
    have hlen : ∀ (sl : Slave), (s.slaves ++ [(slaveId, sl)]).length =
        s.slaves.length + 1 := by
      intro sl
      simp
    simp only [addSlave, trackUsedAllocations_paused,
      trackUsedAllocations_expected, trackUsedAllocations_slaves, hp, he]
    simp only [Option.isSome_some, Option.getD_some, Bool.and_true,
      Bool.true_and, List.length_append, List.length_cons, List.length_nil]
    have hdec : decide (k ≤ s.slaves.length + (0 + 1)) = true := by
      simp only [Nat.zero_add]
      exact decide_eq_true hk
    rw [hdec]
    exact ⟨rfl, rfl⟩

def emptySorter : Sorter := { order := [], clients := [], totals := [], alloc := [] }

def sampleState0 : AllocState :=
  { options := sampleOpts, frameworks := [], slaves := [], whitelist := none,
    allocationCandidates := [], roles := [], quotaGuarantees := [],
    reservationScalarQuantities := [], roleSorter := emptySorter,
    quotaRoleSorter := emptySorter, frameworkSorters := [], paused := false,
    expectedAgentCount := none, resumeTimer := none }

def samplePausedState : AllocState :=
  { sampleState0 with paused := true, expectedAgentCount := some 1 }

theorem C8_recover_spec_witness :
    recoverAllocator sampleState0 5 [] = sampleState0 ∧
    (recoverAllocator sampleState0 5 [("q", [("cpus", 1)])]).paused = true ∧
    (recoverAllocator sampleState0 5 [("q", [("cpus", 1)])]).resumeTimer =
      some allocationHoldOffRecoveryTimeoutSeconds ∧
    (addSlave samplePausedState "a" "h" sampleSlaveCaps false none none []
      []).paused = false := by
  refine ⟨?_, ?_, ?_, ?_⟩
  · exact (C8_recover_spec sampleState0 5 [] "a" "h" sampleSlaveCaps false
      none none [] []).1 rfl
  · exact (((C8_recover_spec sampleState0 5 [("q", [("cpus", 1)])] "a" "h"
      sampleSlaveCaps false none none [] []).2.1 (by decide)).2.2.2
      (by decide)).1
  · exact (((C8_recover_spec sampleState0 5 [("q", [("cpus", 1)])] "a" "h"
      sampleSlaveCaps false none none [] []).2.1 (by decide)).2.2.2
      (by decide)).2
  · exact ((C8_recover_spec samplePausedState 5 [] "a" "h" sampleSlaveCaps
      false none none [] []).2.2 1 rfl rfl (by decide)).1

/-! ### C5 and C10 — recoverResources: frame lemmas and filter installation -/

theorem untrackFrameworkUnderRole_frameworks (s : AllocState)
    (f : FrameworkID) (role : Role) :
    (untrackFrameworkUnderRole s f role).frameworks = s.frameworks := by
  simp only [untrackFrameworkUnderRole]
  split <;> rfl

theorem untrackFrameworkUnderRole_slaves (s : AllocState)
    (f : FrameworkID) (role : Role) :
    (untrackFrameworkUnderRole s f role).slaves = s.slaves := by
  simp only [untrackFrameworkUnderRole]
  split <;> rfl

theorem untrackFrameworkUnderRole_options (s : AllocState)
    (f : FrameworkID) (role : Role) :
    (untrackFrameworkUnderRole s f role).options = s.options := by
  simp only [untrackFrameworkUnderRole]
  split <;> rfl

theorem untrackAllocatedOne_frameworks (s : AllocState) (a : SlaveID)
    (f : FrameworkID) (role : Role) (r : Resources) :
    (untrackAllocatedOne s a f role r).frameworks = s.frameworks := by
  simp only [untrackAllocatedOne]
  split <;> rfl

theorem untrackAllocatedOne_slaves (s : AllocState) (a : SlaveID)
    (f : FrameworkID) (role : Role) (r : Resources) :
    (untrackAllocatedOne s a f role r).slaves = s.slaves := by
  simp only [untrackAllocatedOne]
  split <;> rfl

theorem untrackAllocatedOne_options (s : AllocState) (a : SlaveID)
    (f : FrameworkID) (role : Role) (r : Resources) :
    (untrackAllocatedOne s a f role r).options = s.options := by
  simp only [untrackAllocatedOne]
  split <;> rfl

theorem untrackAllocatedResources_frameworks (s : AllocState) (a : SlaveID)
    (f : FrameworkID) (alloc : Resources) :
    (untrackAllocatedResources s a f alloc).frameworks = s.frameworks := by
  unfold untrackAllocatedResources
  generalize Resources.allocations alloc = l
  induction l generalizing s with
  | nil => rfl
  | cons p rest ih =>
      simp only [List.foldl_cons]
      rw [ih (untrackAllocatedOne s a f p.1 p.2), untrackAllocatedOne_frameworks]

theorem untrackAllocatedResources_slaves (s : AllocState) (a : SlaveID)
    (f : FrameworkID) (alloc : Resources) :
    (untrackAllocatedResources s a f alloc).slaves = s.slaves := by
  unfold untrackAllocatedResources
  generalize Resources.allocations alloc = l
  induction l generalizing s with
  | nil => rfl
  | cons p rest ih =>
      simp only [List.foldl_cons]
      rw [ih (untrackAllocatedOne s a f p.1 p.2), untrackAllocatedOne_slaves]

theorem untrackAllocatedResources_options (s : AllocState) (a : SlaveID)
    (f : FrameworkID) (alloc : Resources) :
    (untrackAllocatedResources s a f alloc).options = s.options := by
  unfold untrackAllocatedResources
  generalize Resources.allocations alloc = l
  induction l generalizing s with
  | nil => rfl
  | cons p rest ih =>
      simp only [List.foldl_cons]
      rw [ih (untrackAllocatedOne s a f p.1 p.2), untrackAllocatedOne_options]

theorem recoverUntrackPhase_frameworks (s : AllocState) (f : FrameworkID)
    (a : SlaveID) (R : Resources) (role : Role) :
    (recoverUntrackPhase s f a R role).frameworks = s.frameworks := by
  simp only [recoverUntrackPhase]
  split
  · rfl
  · split
    · rfl
    · split
      · split
        · rw [untrackFrameworkUnderRole_frameworks,
              untrackAllocatedResources_frameworks]
        · rw [untrackAllocatedResources_frameworks]
      · rfl

theorem recoverUntrackPhase_slaves (s : AllocState) (f : FrameworkID)
    (a : SlaveID) (R : Resources) (role : Role) :
    (recoverUntrackPhase s f a R role).slaves = s.slaves := by
  simp only [recoverUntrackPhase]
  split
  · rfl
  · split
    · rfl
    · split
      · split
        · rw [untrackFrameworkUnderRole_slaves, untrackAllocatedResources_slaves]
        · rw [untrackAllocatedResources_slaves]
      · rfl

theorem recoverUntrackPhase_options (s : AllocState) (f : FrameworkID)
    (a : SlaveID) (R : Resources) (role : Role) :
    (recoverUntrackPhase s f a R role).options = s.options := by
  simp only [recoverUntrackPhase]
  split
  · rfl
  · split
    · rfl
    · split
      · split
        · rw [untrackFrameworkUnderRole_options, untrackAllocatedResources_options]
        · rw [untrackAllocatedResources_options]
      · rfl

theorem recoverUnallocPhase_frameworks (s : AllocState) (a : SlaveID)
    (R : Resources) :
    (recoverUnallocPhase s a R).frameworks = s.frameworks := by
  simp only [recoverUnallocPhase]
  split <;> rfl

theorem recoverUnallocPhase_options (s : AllocState) (a : SlaveID)
    (R : Resources) :
    (recoverUnallocPhase s a R).options = s.options := by
  simp only [recoverUnallocPhase]
  split <;> rfl

theorem recoverUnallocPhase_slaves_isSome (s : AllocState) (a : SlaveID)
    (R : Resources) (x : SlaveID) :
    (alookup (recoverUnallocPhase s a R).slaves x).isSome =
      (alookup s.slaves x).isSome := by
  simp only [recoverUnallocPhase]
  cases h : alookup s.slaves a with
  | none => rfl
  | some sl =>
      simp only []
      by_cases hx : x = a
      · subst hx
        rw [alookup_aupdate_self, h]
        rfl
      · rw [alookup_aupdate_ne _ _ _ _ _ hx]

theorem C10_recoverResources_frame (s : AllocState) (f : FrameworkID)
    (a : SlaveID) (R : Resources) (filters : Option ℤ) :
    (recoverResources s f a [] filters = s) ∧
    (alookup s.frameworks f = none ∨ alookup s.slaves a = none →
      (recoverResources s f a R filters).frameworks = s.frameworks) := by
  constructor
  · rfl
  · intro hmiss
    by_cases hRE : R.isEmpty
    · simp only [recoverResources, hRE, if_true]
    · simp only [recoverResources, hRE, Bool.false_eq_true, if_false]
      rcases hA : Resources.allocations R with _ | ⟨⟨role, rest⟩, tl⟩
      · rfl
      · cases tl with
        | cons q tl2 => rfl
        | nil =>
          simp only []
          have h1f : (recoverUntrackPhase s f a R role).frameworks =
            s.frameworks := recoverUntrackPhase_frameworks s f a R role
          have h1s : (recoverUntrackPhase s f a R role).slaves = s.slaves :=
            recoverUntrackPhase_slaves s f a R role
          have h3f : (recoverUnallocPhase (recoverUntrackPhase s f a R role)
              a R).frameworks = s.frameworks := by
            rw [recoverUnallocPhase_frameworks, h1f]
          cases filters with
          | none => exact h3f
          | some rs =>
            simp only [recoverInstallFilter]
            have hcond : ((alookup (recoverUnallocPhase
                (recoverUntrackPhase s f a R role) a R).frameworks f).isNone ||
                (alookup (recoverUnallocPhase
                  (recoverUntrackPhase s f a R role) a R).slaves a).isNone) =
                true := by
              rcases hmiss with hm | hm
              · rw [h3f, hm]
                rfl
              · have := recoverUnallocPhase_slaves_isSome
                  (recoverUntrackPhase s f a R role) a R a
                rw [h1s, hm] at this
                rw [Bool.or_eq_true]
                right
                cases hq : alookup (recoverUnallocPhase
                    (recoverUntrackPhase s f a R role) a R).slaves a with
                | none => rfl
                | some v =>
                    rw [hq] at this
                    exact absurd this (by simp)
            rw [if_pos hcond]
            exact h3f

theorem recoverInstallFilter_spec (s : AllocState) (f : FrameworkID)
    (a : SlaveID) (R : Resources) (role : Role) (rs : ℤ) (fw : Framework)
    (hf : alookup s.frameworks f = some fw)
    (ha : (alookup s.slaves a).isSome = true)
    (ht : clampRefuseSeconds rs ≠ 0) :
    ∃ fw2,
      alookup (recoverInstallFilter s f a R role rs).frameworks f = some fw2 ∧
      offerFiltersAt fw2 role a =
        offerFiltersAt fw role a ++
          [{ resources := Resources.unallocate R,
             timeout := max s.options.allocationInterval
               (clampRefuseSeconds rs) }] ∧
      (∀ role2 a2, ¬ (role2 = role ∧ a2 = a) →
        offerFiltersAt fw2 role2 a2 = offerFiltersAt fw role2 a2) := by
  have hguard : ((alookup s.frameworks f).isNone ||
      (alookup s.slaves a).isNone) = false := by
    rw [hf]
    cases hq : alookup s.slaves a with
    | none => rw [hq] at ha; exact absurd ha (by simp)
    | some v => rfl
  simp only [recoverInstallFilter, hguard, Bool.false_eq_true, if_false,
    if_neg, ht, ne_eq, not_false_iff, if_true]
  refine ⟨{ fw with offerFilters := aupdate fw.offerFilters role [] (fun rf => aupdate rf a [] (fun l => l ++ [{ resources := Resources.unallocate R, timeout := max s.options.allocationInterval (clampRefuseSeconds rs) }])) }, ?_, ?_, ?_⟩
  · rw [alookup_aupdate_self, hf]
    rfl
  · simp only [offerFiltersAt]
    rw [alookup_aupdate_self, Option.getD_some, alookup_aupdate_self,
        Option.getD_some]
  · intro role2 a2 hne
    by_cases hr : role2 = role
    · subst hr
      have hax : a2 ≠ a := fun e => hne ⟨rfl, e⟩
      simp only [offerFiltersAt]
      rw [alookup_aupdate_self, Option.getD_some,
          alookup_aupdate_ne _ _ _ _ _ hax]
    · simp only [offerFiltersAt]
      rw [alookup_aupdate_ne _ _ _ _ _ hr]

theorem recoverInstallFilter_frameworks_zero (s : AllocState)
    (f : FrameworkID) (a : SlaveID) (R : Resources) (role : Role) (rs : ℤ)
    (ht : clampRefuseSeconds rs = 0) :
    (recoverInstallFilter s f a R role rs).frameworks = s.frameworks := by
  simp only [recoverInstallFilter]
  split
  · rfl
  · rw [if_neg (not_not_intro ht)]

theorem recoverInstallFilter_frameworks_guard (s : AllocState)
    (f : FrameworkID) (a : SlaveID) (R : Resources) (role : Role) (rs : ℤ)
    (h : ((alookup s.frameworks f).isNone ||
      (alookup s.slaves a).isNone) = true) :
    (recoverInstallFilter s f a R role rs).frameworks = s.frameworks := by
  simp only [recoverInstallFilter, h, if_true]

theorem recoverInstallFilter_other (s : AllocState) (f : FrameworkID)
    (a : SlaveID) (R : Resources) (role : Role) (rs : ℤ) (f2 : FrameworkID)
    (h : f2 ≠ f) :
    alookup (recoverInstallFilter s f a R role rs).frameworks f2 =
      alookup s.frameworks f2 := by
  simp only [recoverInstallFilter]
  split
  · rfl
  · split
    · exact alookup_aupdate_ne _ _ _ _ _ h
    · rfl

theorem C5_recoverResources_filter (s : AllocState) (f : FrameworkID)
    (a : SlaveID) (R : Resources) (role : Role) (rest : Resources) (rs : ℤ)
    (hR : R.isEmpty = false)
    (hA : Resources.allocations R = [(role, rest)]) :
    (∀ fw, alookup s.frameworks f = some fw →
      (alookup s.slaves a).isSome = true →
      clampRefuseSeconds rs ≠ 0 →
      ∃ fw2,
        alookup (recoverResources s f a R (some rs)).frameworks f = some fw2 ∧
        offerFiltersAt fw2 role a =
          offerFiltersAt fw role a ++
            [{ resources := Resources.unallocate R,
               timeout := max s.options.allocationInterval
                 (clampRefuseSeconds rs) }] ∧
        (∀ role2 a2, ¬ (role2 = role ∧ a2 = a) →
          offerFiltersAt fw2 role2 a2 = offerFiltersAt fw role2 a2)) ∧
    (clampRefuseSeconds rs = 0 →
      (recoverResources s f a R (some rs)).frameworks = s.frameworks) ∧
    (alookup s.frameworks f = none ∨ alookup s.slaves a = none →
      (recoverResources s f a R (some rs)).frameworks = s.frameworks) ∧
    (∀ f2, f2 ≠ f →
      alookup (recoverResources s f a R (some rs)).frameworks f2 =
        alookup s.frameworks f2) := by
  have hrw : recoverResources s f a R (some rs) =
      recoverInstallFilter
        (recoverUnallocPhase (recoverUntrackPhase s f a R role) a R)
        f a R role rs := by
    simp only [recoverResources, hR, Bool.false_eq_true, if_false, hA]
  have h3f : (recoverUnallocPhase (recoverUntrackPhase s f a R role)
      a R).frameworks = s.frameworks := by
    rw [recoverUnallocPhase_frameworks, recoverUntrackPhase_frameworks]
  have h3o : (recoverUnallocPhase (recoverUntrackPhase s f a R role)
      a R).options = s.options := by
    rw [recoverUnallocPhase_options, recoverUntrackPhase_options]
  have h3sA : (alookup (recoverUnallocPhase (recoverUntrackPhase s f a R role)
      a R).slaves a).isSome = (alookup s.slaves a).isSome := by
    rw [recoverUnallocPhase_slaves_isSome, recoverUntrackPhase_slaves]
  refine ⟨?_, ?_, ?_, ?_⟩
  · intro fw hf ha ht
    obtain ⟨fw2, g1, g2, g3⟩ := recoverInstallFilter_spec
      (recoverUnallocPhase (recoverUntrackPhase s f a R role) a R)
      f a R role rs fw (by rw [h3f]; exact hf) (by rw [h3sA]; exact ha) ht
    rw [h3o] at g2
    refine ⟨fw2, ?_, g2, g3⟩
    rw [hrw]
    exact g1
  · intro ht
    rw [hrw, recoverInstallFilter_frameworks_zero _ _ _ _ _ _ ht, h3f]
  · intro hmiss
    have hguard : ((alookup (recoverUnallocPhase
        (recoverUntrackPhase s f a R role) a R).frameworks f).isNone ||
        (alookup (recoverUnallocPhase
          (recoverUntrackPhase s f a R role) a R).slaves a).isNone) = true := by
      rcases hmiss with hm | hm
      · rw [h3f, hm]
        rfl
      · rw [Bool.or_eq_true]
        right
        cases hq : alookup (recoverUnallocPhase
            (recoverUntrackPhase s f a R role) a R).slaves a with
        | none => rfl
        | some v =>
            have := h3sA
            rw [hq, hm] at this
            exact absurd this (by simp)
    rw [hrw, recoverInstallFilter_frameworks_guard _ _ _ _ _ _ hguard, h3f]
  · intro f2 h2
    rw [hrw, recoverInstallFilter_other _ _ _ _ _ _ _ h2, h3f]

def sampleAllocCpus : Resource := { sampleCpus 1 with allocatedTo := some "r" }

def sampleSlaveA : Slave :=
  { hostname := "h", total := [sampleCpus 4], allocated := [sampleAllocCpus],
    activated := true, hasGpu := false, region := none,
    capabilities := sampleSlaveCaps, maintenance := none }

def sampleC5State : AllocState :=
  { sampleState0 with
    frameworks := [("f", sampleFwPlain)],
    slaves := [("a", sampleSlaveA)] }

theorem C5_recoverResources_filter_witness :
    ∃ fw2,
      alookup (recoverResources sampleC5State "f" "a" [sampleAllocCpus]
        (some 30)).frameworks "f" = some fw2 ∧
      offerFiltersAt fw2 "r" "a" =
        [{ resources := Resources.unallocate [sampleAllocCpus],
           timeout := 30 }] := by
  obtain ⟨fw2, g1, g2, g3⟩ :=
    (C5_recoverResources_filter sampleC5State "f" "a" [sampleAllocCpus] "r"
      [sampleAllocCpus] 30 (by decide) (by decide)).1 sampleFwPlain
      (by decide) (by decide) (by decide)
  refine ⟨fw2, g1, ?_⟩
  rw [g2]
  decide

theorem C10_recoverResources_frame_witness :
    recoverResources sampleState0 "f" "a" [] (some 10) = sampleState0 ∧
    (recoverResources sampleState0 "f" "a" [sampleAllocCpus]
      (some 10)).frameworks = sampleState0.frameworks := by
  refine ⟨(C10_recoverResources_frame sampleState0 "f" "a" [sampleAllocCpus]
    (some 10)).1, ?_⟩
  exact (C10_recoverResources_frame sampleState0 "f" "a" [sampleAllocCpus]
    (some 10)).2 (Or.inl rfl)

/-! ### C9 — updateAvailable: monotone application of operations -/

theorem alookup_map_values {β γ : Type} (l : List (String × β)) (g : β → γ)
    (k : String) :
    alookup (l.map (fun p => (p.1, g p.2))) k = (alookup l k).map g := by
  induction l with
  | nil => rfl
  | cons p rest ih =>
      rw [List.map_cons, alookup_cons, alookup_cons]
      by_cases h : p.1 = k
      · rw [if_pos h, if_pos h]
        rfl
      · rw [if_neg h, if_neg h, ih]

theorem applyOps_nil (R : Resources) : applyOps R [] = some R := rfl

theorem applyOps_none (ops : List OfferOperation) :
    ops.foldl (fun acc op => acc.bind (fun r => applyOp r op)) none = none := by
  induction ops with
  | nil => rfl
  | cons op rest ih => simpa using ih

theorem applyOps_cons (R : Resources) (op : OfferOperation)
    (ops : List OfferOperation) :
    applyOps R (op :: ops) =
      match applyOp R op with
      | none => none
      | some R2 => applyOps R2 ops := by
  cases h : applyOp R op with
  | none =>
      simp only [applyOps, List.foldl_cons, Option.some_bind, h]
      exact applyOps_none ops
  | some R2 =>
      simp only [applyOps, List.foldl_cons, Option.some_bind, h]

theorem amountOf_unallocate_nonneg (X : Resources) (k : Resource)
    (h : ∀ r ∈ X, 0 ≤ r.amount) :
    0 ≤ Resources.amountOf (Resources.unallocate X) k := by
  apply Resources.amountOf_nonneg
  intro r hr
  obtain ⟨x, hx, e⟩ := List.mem_map.mp hr
  rw [← e]
  exact h x hx

theorem getAvailable_le_total (slave : Slave)
    (htot : ∀ r ∈ slave.total, 0 ≤ r.amount)
    (halloc : ∀ r ∈ slave.allocated, 0 ≤ r.amount) :
    ∀ k, Resources.amountOf (Slave.getAvailable slave) k ≤
      Resources.amountOf slave.total k := by
  intro k
  unfold Slave.getAvailable
  rw [Resources.amountOf_subR]
  by_cases h : k ∈ Resources.keysR slave.total
  · rw [if_pos h]
    apply max_le
    · exact Resources.amountOf_nonneg _ _ htot
    · exact sub_le_self _ (amountOf_unallocate_nonneg _ _ halloc)
  · rw [if_neg h]
    exact Resources.amountOf_nonneg _ _ htot

theorem amountOf_subR_mono (A B c : Resources) (k : Resource)
    (hAB : Resources.amountOf A k ≤ Resources.amountOf B k)
    (hc : 0 ≤ Resources.amountOf c k) :
    Resources.amountOf (Resources.subR A c) k ≤
      Resources.amountOf (Resources.subR B c) k := by
  rw [Resources.amountOf_subR, Resources.amountOf_subR]
  by_cases hA : k ∈ Resources.keysR A
  · rw [if_pos hA]
    by_cases hB : k ∈ Resources.keysR B
    · rw [if_pos hB]
      exact max_le_max (le_refl 0) (sub_le_sub_right hAB _)
    · rw [if_neg hB]
      have hB0 : Resources.amountOf B k = 0 := Resources.amountOf_eq_zero B k hB
      apply max_le (le_refl 0)
      have : Resources.amountOf A k ≤ 0 := by rw [← hB0]; exact hAB
      linarith
  · rw [if_neg hA]
    by_cases hB : k ∈ Resources.keysR B
    · rw [if_pos hB]
      exact le_max_left 0 _
    · rw [if_neg hB]

theorem applyOp_mono (A B : Resources) (op : OfferOperation)
    (hAB : ∀ k, Resources.amountOf A k ≤ Resources.amountOf B k)
    (hc : ∀ r ∈ op.consumed, 0 ≤ r.amount) :
    ∀ A2, applyOp A op = some A2 →
      ∃ B2, applyOp B op = some B2 ∧
        ∀ k, Resources.amountOf A2 k ≤ Resources.amountOf B2 k := by
  intro A2 hA2
  unfold applyOp at hA2 ⊢
  by_cases hcont : Resources.containsR A op.consumed = true
  · rw [if_pos hcont] at hA2
    cases hA2
    have hcontB : Resources.containsR B op.consumed = true := by
      rw [Resources.containsR_iff] at hcont ⊢
      intro k hk
      exact le_trans (hcont k hk) (hAB k)
    rw [if_pos hcontB]
    refine ⟨_, rfl, ?_⟩
    intro k
    rw [Resources.amountOf_append, Resources.amountOf_append]
    have := amountOf_subR_mono A B op.consumed k (hAB k)
      (Resources.amountOf_nonneg _ _ hc)
    linarith
  · rw [if_neg hcont] at hA2
    cases hA2

theorem applyOps_mono (ops : List OfferOperation) (A B : Resources)
    (hAB : ∀ k, Resources.amountOf A k ≤ Resources.amountOf B k)
    (hops : ∀ op ∈ ops, ∀ r ∈ op.consumed, 0 ≤ r.amount) :
    ∀ A2, applyOps A ops = some A2 →
      ∃ B2, applyOps B ops = some B2 ∧
        ∀ k, Resources.amountOf A2 k ≤ Resources.amountOf B2 k := by
  induction ops generalizing A B with
  | nil =>
      intro A2 h
      rw [applyOps_nil] at h
      cases h
      exact ⟨B, applyOps_nil B, hAB⟩
  | cons op rest ih =>
      intro A2 h
      rw [applyOps_cons] at h
      cases hstep : applyOp A op with
      | none => rw [hstep] at h; cases h
      | some A1 =>
          rw [hstep] at h
          obtain ⟨B1, hB1, hAB1⟩ := applyOp_mono A B op hAB
            (hops op (List.mem_cons_self op rest)) A1 hstep
          obtain ⟨B2, hB2, hAB2⟩ := ih A1 B1 hAB1
            (fun o ho => hops o (List.mem_cons_of_mem op ho)) A2 h
          refine ⟨B2, ?_, hAB2⟩
          rw [applyOps_cons, hB1]
          exact hB2

theorem sorter_remove_add_total (so : Sorter) (a : SlaveID) (t newT : Resources)
    (h : alookup so.totals a = some t) :
    alookup (Sorter.addTotal (Sorter.removeTotal so a t) a newT).totals a =
      some newT := by
  simp only [Sorter.removeTotal, Sorter.addTotal, h, Resources.subR_self,
    List.isEmpty_nil, if_true]
  rw [alookup_aupdate_self, alookup_aerase_self]
  rfl

theorem updateSlaveTotal_slaves_total (s : AllocState) (a : SlaveID)
    (T2 : Resources) (slave : Slave) (hs : alookup s.slaves a = some slave) :
    (alookup (updateSlaveTotal s a T2).1.slaves a).map Slave.total = some T2 := by
  simp only [updateSlaveTotal, hs]
  by_cases he : slave.total = T2
  · rw [if_pos he]
    simp [hs, he]
  · rw [if_neg he]
    split
    · rw [alookup_aupdate_self, hs]
      rfl
    · rw [alookup_aupdate_self, hs]
      rfl

theorem updateSlaveTotal_roleSorter (s : AllocState) (a : SlaveID)
    (T2 : Resources) (slave : Slave) (hs : alookup s.slaves a = some slave)
    (hrs : alookup s.roleSorter.totals a = some slave.total) :
    alookup (updateSlaveTotal s a T2).1.roleSorter.totals a = some T2 := by
  simp only [updateSlaveTotal, hs]
  by_cases he : slave.total = T2
  · rw [if_pos he]
    rw [← he]
    exact hrs
  · rw [if_neg he]
    split
    · exact sorter_remove_add_total s.roleSorter a slave.total T2 hrs
    · exact sorter_remove_add_total s.roleSorter a slave.total T2 hrs

theorem updateSlaveTotal_quotaSorter (s : AllocState) (a : SlaveID)
    (T2 : Resources) (slave : Slave) (hs : alookup s.slaves a = some slave)
    (hqs : alookup s.quotaRoleSorter.totals a =
      some (Resources.nonRevocable slave.total)) :
    alookup (updateSlaveTotal s a T2).1.quotaRoleSorter.totals a =
      some (Resources.nonRevocable T2) := by
  simp only [updateSlaveTotal, hs]
  by_cases he : slave.total = T2
  · rw [if_pos he]
    rw [← he]
    exact hqs
  · rw [if_neg he]
    split
    · exact sorter_remove_add_total s.quotaRoleSorter a
        (Resources.nonRevocable slave.total) (Resources.nonRevocable T2) hqs
    · exact sorter_remove_add_total s.quotaRoleSorter a
        (Resources.nonRevocable slave.total) (Resources.nonRevocable T2) hqs

theorem updateSlaveTotal_frameworkSorters (s : AllocState) (a : SlaveID)
    (T2 : Resources) (slave : Slave) (hs : alookup s.slaves a = some slave)
    (role : Role) (so : Sorter)
    (hfs : alookup s.frameworkSorters role = some so)
    (hso : alookup so.totals a = some slave.total) :
    ∃ so2, alookup (updateSlaveTotal s a T2).1.frameworkSorters role =
      some so2 ∧ alookup so2.totals a = some T2 := by
  simp only [updateSlaveTotal, hs]
  by_cases he : slave.total = T2
  · rw [if_pos he]
    refine ⟨so, hfs, ?_⟩
    rw [← he]
    exact hso
  · rw [if_neg he]
    split
    · refine ⟨Sorter.addTotal (Sorter.removeTotal so a slave.total) a T2,
        ?_, ?_⟩
      · have hm := alookup_map_values s.frameworkSorters
          (fun x => Sorter.addTotal (Sorter.removeTotal x a slave.total) a T2)
          role
        rw [hfs] at hm
        exact hm
      · exact sorter_remove_add_total so a slave.total T2 hso
    · refine ⟨Sorter.addTotal (Sorter.removeTotal so a slave.total) a T2,
        ?_, ?_⟩
      · have hm := alookup_map_values s.frameworkSorters
          (fun x => Sorter.addTotal (Sorter.removeTotal x a slave.total) a T2)
          role
        rw [hfs] at hm
        exact hm
      · exact sorter_remove_add_total so a slave.total T2 hso

theorem C9_updateAvailable_spec (s : AllocState) (a : SlaveID)
    (ops : List OfferOperation) (slave : Slave)
    (hs : alookup s.slaves a = some slave)
    (htot : ∀ r ∈ slave.total, 0 ≤ r.amount)
    (halloc : ∀ r ∈ slave.allocated, 0 ≤ r.amount)
    (hops : ∀ op ∈ ops, ∀ r ∈ op.consumed, 0 ≤ r.amount)
    (hrs : alookup s.roleSorter.totals a = some slave.total)
    (hqs : alookup s.quotaRoleSorter.totals a =
      some (Resources.nonRevocable slave.total)) :
    (applyOps (Slave.getAvailable slave) ops = none →
      updateAvailable s a ops = none) ∧
    (∀ A2, applyOps (Slave.getAvailable slave) ops = some A2 →
      ∃ T2, applyOps slave.total ops = some T2 ∧
        updateAvailable s a ops = some (updateSlaveTotal s a T2).1 ∧
        (alookup (updateSlaveTotal s a T2).1.slaves a).map Slave.total =
          some T2 ∧
        alookup (updateSlaveTotal s a T2).1.roleSorter.totals a = some T2 ∧
        alookup (updateSlaveTotal s a T2).1.quotaRoleSorter.totals a =
          some (Resources.nonRevocable T2) ∧
        (∀ role so, alookup s.frameworkSorters role = some so →
          alookup so.totals a = some slave.total →
          ∃ so2, alookup (updateSlaveTotal s a T2).1.frameworkSorters role =
            some so2 ∧ alookup so2.totals a = some T2)) := by
  constructor
  · intro h
    simp only [updateAvailable, hs, h]
  · intro A2 hA2
    obtain ⟨T2, hT2, hle⟩ := applyOps_mono ops (Slave.getAvailable slave)
      slave.total (getAvailable_le_total slave htot halloc) hops A2 hA2
    refine ⟨T2, hT2, ?_, updateSlaveTotal_slaves_total s a T2 slave hs,
      updateSlaveTotal_roleSorter s a T2 slave hs hrs,
      updateSlaveTotal_quotaSorter s a T2 slave hs hqs,
      fun role so hfs hso =>
        updateSlaveTotal_frameworkSorters s a T2 slave hs role so hfs hso⟩
    simp only [updateAvailable, hs, hA2, hT2]

def sampleSlaveB : Slave :=
  { hostname := "h", total := [sampleCpus 4], allocated := [],
    activated := true, hasGpu := false, region := none,
    capabilities := sampleSlaveCaps, maintenance := none }

def sampleReservedCpus : Resource :=
  { sampleCpus 2 with reservation := some "r" }

def sampleOp : OfferOperation :=
  { consumed := [sampleCpus 2], converted := [sampleReservedCpus] }

def sampleBigOp : OfferOperation :=
  { consumed := [sampleCpus 100], converted := [] }

def sampleC9State : AllocState :=
  { sampleState0 with
    slaves := [("a", sampleSlaveB)],
    roleSorter := { emptySorter with totals := [("a", [sampleCpus 4])] },
    quotaRoleSorter := { emptySorter with totals := [("a", [sampleCpus 4])] } }

theorem C9_updateAvailable_spec_witness :
    updateAvailable sampleC9State "a" [sampleBigOp] = none ∧
    ∃ T2, applyOps sampleSlaveB.total [sampleOp] = some T2 ∧
      updateAvailable sampleC9State "a" [sampleOp] =
        some (updateSlaveTotal sampleC9State "a" T2).1 := by
  constructor
  · exact (C9_updateAvailable_spec sampleC9State "a" [sampleBigOp]
      sampleSlaveB (by decide) (by decide) (by decide) (by decide)
      (by decide) (by decide)).1 (by decide)
  · obtain ⟨T2, h1, h2, h3⟩ :=
      (C9_updateAvailable_spec sampleC9State "a" [sampleOp] sampleSlaveB
        (by decide) (by decide) (by decide) (by decide) (by decide)
        (by decide)).2
        (Resources.subR (Slave.getAvailable sampleSlaveB) [sampleCpus 2] ++
          [sampleReservedCpus])
        (by decide)
    exact ⟨T2, h1, h2⟩

theorem RQ.get_nonneg (q : RQ) (h : ∀ p ∈ q, 0 ≤ p.2) (n : String) :
    0 ≤ RQ.get q n := by
  induction q with
  | nil => exact le_refl 0
  | cons p rest ih =>
      rw [RQ.get_cons]
      have h1 := h p (List.mem_cons_self p rest)
      have h2 := ih (fun x hx => h x (List.mem_cons_of_mem p hx))
      by_cases e : p.1 = n
      · rw [if_pos e]; exact add_nonneg h1 h2
      · rw [if_neg e, zero_add]; exact h2

theorem RQ.fromScalarResources_append (A B : Resources) :
    RQ.fromScalarResources (A ++ B) =
      RQ.fromScalarResources A ++ RQ.fromScalarResources B := by
  simp [RQ.fromScalarResources, Resources.scalars, List.filter_append]

theorem RQ.get_fromScalar_nonneg (R : Resources)
    (h : ∀ r ∈ R, 0 ≤ r.amount) (n : String) :
    0 ≤ RQ.get (RQ.fromScalarResources R) n := by
  apply RQ.get_nonneg
  intro p hp
  obtain ⟨r, hr, e⟩ := List.mem_map.mp hp
  have : r ∈ R := List.mem_of_mem_filter hr
  rw [← e]
  exact h r this

/-- Total scalar quantity named `n` inside a resource collection. -/
def scalarQuantityOf (R : Resources) (n : String) : ℤ :=
  ((R.filter (fun r => r.isScalar && r.name == n)).map
    (fun r => r.amount)).sum

theorem RQ.get_fromScalarResources_eq (R : Resources) (n : String) :
    RQ.get (RQ.fromScalarResources R) n = scalarQuantityOf R n := by
  induction R with
  | nil => rfl
  | cons r rest ih =>
      by_cases hsc : r.isScalar
      · by_cases hn : r.name = n
        · have h1 : RQ.fromScalarResources (r :: rest) =
              (r.name, r.amount) :: RQ.fromScalarResources rest := by
            simp [RQ.fromScalarResources, Resources.scalars,
              List.filter_cons, hsc]
          have h2 : scalarQuantityOf (r :: rest) n =
              r.amount + scalarQuantityOf rest n := by
            simp [scalarQuantityOf, List.filter_cons, hsc, hn]
          rw [h1, RQ.get_cons, h2, if_pos hn, ih]
        · have h1 : RQ.fromScalarResources (r :: rest) =
              (r.name, r.amount) :: RQ.fromScalarResources rest := by
            simp [RQ.fromScalarResources, Resources.scalars,
              List.filter_cons, hsc]
          have h2 : scalarQuantityOf (r :: rest) n = scalarQuantityOf rest n := by
            simp [scalarQuantityOf, List.filter_cons, hsc, hn]
          rw [h1, RQ.get_cons, h2, if_neg hn, ih, zero_add]
      · have h1 : RQ.fromScalarResources (r :: rest) =
            RQ.fromScalarResources rest := by
          simp [RQ.fromScalarResources, Resources.scalars,
            List.filter_cons, hsc]
        have h2 : scalarQuantityOf (r :: rest) n = scalarQuantityOf rest n := by
          simp [scalarQuantityOf, List.filter_cons, hsc]
        rw [h1, h2, ih]

theorem get_rqMapAdd (m : List (Role × RQ)) (k : Role) (q : RQ) (r : Role)
    (n : String) :
    RQ.get ((alookup (rqMapAdd m k q) r).getD []) n =
      RQ.get ((alookup m r).getD []) n + (if k = r then RQ.get q n else 0) := by
  unfold rqMapAdd
  by_cases h : r = k
  · subst h
    rw [alookup_aupdate_self, Option.getD_some, RQ.get_append, if_pos rfl]
  · rw [alookup_aupdate_ne _ _ _ _ _ h, if_neg (fun e => h e.symm), add_zero]

theorem get_mapAdd_fold {α : Type} (l : List α) (key : α → Role)
    (val : α → RQ) (m0 : List (Role × RQ)) (r : Role) (n : String) :
    RQ.get ((alookup (l.foldl (fun m x => rqMapAdd m (key x) (val x)) m0)
        r).getD []) n =
      RQ.get ((alookup m0 r).getD []) n +
        ((l.filter (fun x => key x == r)).map
          (fun x => RQ.get (val x) n)).sum := by
  induction l generalizing m0 with
  | nil => simp
  | cons x rest ih =>
      rw [List.foldl_cons, ih (rqMapAdd m0 (key x) (val x)), get_rqMapAdd]
      by_cases h : key x = r
      · have hb : (key x == r) = true := beq_iff_eq.mpr h
        rw [if_pos h]
        simp only [List.filter_cons, hb, if_true, List.map_cons, List.sum_cons]
        ring
      · have hb : (key x == r) = false := beq_eq_false_iff_ne.mpr h
        rw [if_neg h, add_zero]
        simp only [List.filter_cons, hb, Bool.false_eq_true, if_false]

theorem get_append_fold {α : Type} (l : List α) (g : α → RQ) (acc0 : RQ)
    (n : String) :
    RQ.get (l.foldl (fun acc x => acc ++ g x) acc0) n =
      RQ.get acc0 n + (l.map (fun x => RQ.get (g x) n)).sum := by
  induction l generalizing acc0 with
  | nil => simp
  | cons x rest ih =>
      rw [List.foldl_cons, ih (acc0 ++ g x), RQ.get_append]
      simp only [List.map_cons, List.sum_cons]
      ring

theorem max0_sub_collapse (x b : ℤ) (hb : 0 ≤ b) :
    max 0 (max 0 x - b) = max 0 (x - b) := by
  rcases le_or_lt 0 x with hx | hx
  · rw [max_eq_right hx]
  · rw [max_eq_left (le_of_lt hx)]
    have h1 : (0 : ℤ) - b ≤ 0 := by linarith
    have h2 : x - b ≤ 0 := by linarith
    rw [max_eq_left h1, max_eq_left h2]

theorem get_sub_fold {α : Type} (l : List α) (g : α → RQ) (x : RQ) (n : String)
    (hl : ∀ q ∈ l, 0 ≤ RQ.get (g q) n) (hx : 0 ≤ RQ.get x n) :
    RQ.get (l.foldl (fun acc q => RQ.sub acc (g q)) x) n =
      max 0 (RQ.get x n - (l.map (fun q => RQ.get (g q) n)).sum) := by
  induction l generalizing x with
  | nil =>
      simp only [List.foldl_nil, List.map_nil, List.sum_nil, sub_zero]
      rw [max_eq_right hx]
  | cons q rest ih =>
      rw [List.foldl_cons]
      rw [ih (RQ.sub x (g q)) (fun y hy => hl y (List.mem_cons_of_mem q hy))
        (RQ.get_sub_nonneg x (g q) n)]
      rw [RQ.get_sub_of_nonneg x (g q) n (hl q (List.mem_cons_self q rest))]
      have hsum : 0 ≤ (rest.map (fun y => RQ.get (g y) n)).sum := by
        apply List.sum_nonneg
        intro v hv
        obtain ⟨y, hy, e⟩ := List.mem_map.mp hv
        rw [← e]
        exact hl y (List.mem_cons_of_mem q hy)
      rw [max0_sub_collapse _ _ hsum]
      simp only [List.map_cons, List.sum_cons]
      ring_nf

/-- Spec-side: the quantity of resource `n` carried by the unreserved
non-revocable scalar part of `R`. -/
def specUnreservedNonRevocableScalarQ (R : Resources) (n : String) : ℤ :=
  scalarQuantityOf (R.filter (fun r => r.reservation == none && !r.revocable)) n

theorem specUnreserved_eq (R : Resources) (n : String) :
    RQ.get (RQ.fromScalarResources (Resources.scalars
      (Resources.nonRevocable (Resources.unreserved R)))) n =
    specUnreservedNonRevocableScalarQ R n := by
  rw [RQ.get_fromScalarResources_eq]
  unfold specUnreservedNonRevocableScalarQ scalarQuantityOf Resources.scalars
    Resources.nonRevocable Resources.unreserved
  rw [List.filter_filter, List.filter_filter, List.filter_filter,
    List.filter_filter]
  congr 1
  congr 1
  apply List.filter_congr
  intro r _
  cases hrv : r.revocable <;> cases hsc : r.isScalar <;>
    cases hres : r.reservation <;>
      simp [hrv, hsc, hres, Bool.and_comm, Bool.and_assoc, Bool.and_left_comm]

theorem filter_key_eq_of_nodup {β : Type} (l : List (String × β)) (r : String)
    (v : β) (hnd : (l.map Prod.fst).Nodup) (hl : alookup l r = some v) :
    l.filter (fun p => p.1 == r) = [(r, v)] := by
  induction l with
  | nil => cases hl
  | cons p rest ih =>
      rw [List.map_cons, List.nodup_cons] at hnd
      obtain ⟨hp, hrest⟩ := hnd
      rw [alookup_cons] at hl
      by_cases h : p.1 = r
      · rw [if_pos h] at hl
        have hv : p.2 = v := Option.some.inj hl
        have hb : (p.1 == r) = true := beq_iff_eq.mpr h
        rw [List.filter_cons, hb, if_pos rfl]
        have hnone : rest.filter (fun p => p.1 == r) = [] := by
          apply List.filter_eq_nil_iff.mpr
          intro q hq
          intro hbq
          apply hp
          rw [h]
          have : q.1 = r := beq_iff_eq.mp hbq
          rw [← this]
          exact List.mem_map.mpr ⟨q, hq, rfl⟩
        rw [hnone]
        have : p = (r, v) := by
          cases p
          simp_all
        rw [this]
      · rw [if_neg h] at hl
        have hb : (p.1 == r) = false := beq_eq_false_iff_ne.mpr h
        rw [List.filter_cons, hb]
        simp only [Bool.false_eq_true, if_false]
        exact ih hrest hl

theorem mem_of_alookup_eq_some {β : Type} (l : List (String × β)) (k : String)
    (v : β) (h : alookup l k = some v) : (k, v) ∈ l := by
  induction l with
  | nil => cases h
  | cons p rest ih =>
      rw [alookup_cons] at h
      by_cases e : p.1 = k
      · rw [if_pos e] at h
        have hpv : p = (k, v) := by
          cases p
          simp_all
        rw [← hpv]
        exact List.mem_cons_self p rest
      · rw [if_neg e] at h
        exact List.mem_cons_of_mem p (ih h)

theorem alookup_of_mem_nodup {β : Type} (l : List (String × β))
    (p : String × β) (hnd : (l.map Prod.fst).Nodup) (hp : p ∈ l) :
    alookup l p.1 = some p.2 := by
  induction l with
  | nil => cases hp
  | cons q rest ih =>
      rw [List.map_cons, List.nodup_cons] at hnd
      obtain ⟨hq, hrest⟩ := hnd
      rw [alookup_cons]
      rcases List.mem_cons.mp hp with h | h
      · subst h
        rw [if_pos rfl]
      · have hne : q.1 ≠ p.1 := by
          intro e
          apply hq
          rw [e]
          exact List.mem_map.mpr ⟨p, h, rfl⟩
        rw [if_neg hne]
        exact ih hrest h

theorem sum_filter_and {α : Type} (l : List α) (p q : α → Bool) (f : α → ℤ)
    (h : ∀ x ∈ l, p x = true → q x = false → f x = 0) :
    ((l.filter (fun x => p x && q x)).map f).sum =
      ((l.filter p).map f).sum := by
  induction l with
  | nil => rfl
  | cons x rest ih =>
      have ih2 := ih (fun y hy => h y (List.mem_cons_of_mem x hy))
      by_cases hp : p x = true
      · by_cases hq : q x = true
        · simp [List.filter_cons, hp, hq, ih2]
        · have hq0 : q x = false := by
            cases hqe : q x
            · rfl
            · exact absurd hqe hq
          have hf := h x (List.mem_cons_self x rest) hp hq0
          simp [List.filter_cons, hp, hq0, hf, ih2]
      · have hp0 : p x = false := by
          cases hpe : p x
          · rfl
          · exact absurd hpe hp
        simp [List.filter_cons, hp0, ih2]

theorem scalarQuantityOf_nonneg (R : Resources)
    (h : ∀ r ∈ R, 0 ≤ r.amount) (n : String) : 0 ≤ scalarQuantityOf R n := by
  apply List.sum_nonneg
  intro x hx
  obtain ⟨r, hr, e⟩ := List.mem_map.mp hx
  rw [← e]
  exact h r (List.mem_of_mem_filter hr)

theorem get_ite_append_fold {α : Type} (l : List α) (c : α → Bool) (g : α → RQ)
    (acc0 : RQ) (n : String) :
    RQ.get (l.foldl (fun acc x => if c x then acc else acc ++ g x) acc0) n =
      RQ.get acc0 n +
        ((l.filter (fun x => !c x)).map (fun x => RQ.get (g x) n)).sum := by
  induction l generalizing acc0 with
  | nil => simp
  | cons x rest ih =>
      simp only [List.foldl_cons, List.filter_cons]
      by_cases hc : c x = true
      · have hnc : (!c x) = false := by rw [hc]; rfl
        rw [if_pos hc, hnc]
        simp only [Bool.false_eq_true, if_false]
        exact ih acc0
      · have hc0 : c x = false := by
          cases hce : c x
          · rfl
          · exact absurd hce hc
        have hnc : (!c x) = true := by rw [hc0]; rfl
        rw [if_neg hc, hnc, if_pos rfl, List.map_cons, List.sum_cons,
          ih (acc0 ++ g x), RQ.get_append]
        ring

theorem get_guard_inner_append_fold {α β : Type} (l : List α) (c : α → Bool)
    (inner : α → List β) (g : β → RQ) (acc0 : RQ) (n : String) :
    RQ.get (l.foldl
        (fun acc x =>
          if !c x then acc
          else (inner x).foldl (fun acc q => acc ++ g q) acc) acc0) n =
      RQ.get acc0 n +
        ((l.filter c).map
          (fun x => ((inner x).map (fun q => RQ.get (g q) n)).sum)).sum := by
  induction l generalizing acc0 with
  | nil => simp
  | cons x rest ih =>
      simp only [List.foldl_cons, List.filter_cons]
      by_cases hc : c x = true
      · have hnc : (!c x) = false := by rw [hc]; rfl
        rw [hnc, hc]
        simp only [Bool.false_eq_true, if_false, eq_self_iff_true, if_true,
          List.map_cons, List.sum_cons]
        rw [ih, get_append_fold]
        ring
      · have hc0 : c x = false := by
          cases hce : c x
          · rfl
          · exact absurd hce hc
        have hnc : (!c x) = true := by rw [hc0]; rfl
        rw [hnc, hc0]
        simp only [eq_self_iff_true, if_true, Bool.false_eq_true, if_false]
        exact ih acc0

theorem get_consumedAllocAux (s : AllocState) (l : List (Role × List FrameworkID))
    (m : List (Role × RQ)) (r : Role) (n : String) :
    RQ.get ((alookup (l.foldl
        (fun m p =>
          let topLevel := topLevelRole p.1
          if (alookup s.quotaGuarantees topLevel).isNone then m
          else if !(Sorter.hasClient s.roleSorter p.1) then m
          else
            (Sorter.allocationOf s.roleSorter p.1).foldl
              (fun m q =>
                rqMapAdd m topLevel
                  (RQ.fromScalarResources
                    (Resources.scalars (Resources.nonRevocable (Resources.unreserved q.2)))))
              m) m) r).getD []) n =
      RQ.get ((alookup m r).getD []) n +
        ((l.filter (fun p =>
            (alookup s.quotaGuarantees (topLevelRole p.1)).isSome
              && Sorter.hasClient s.roleSorter p.1
              && (topLevelRole p.1 == r))).map
          (fun p => ((Sorter.allocationOf s.roleSorter p.1).map
            (fun q => RQ.get (RQ.fromScalarResources (Resources.scalars
              (Resources.nonRevocable (Resources.unreserved q.2)))) n)).sum)).sum := by
  induction l generalizing m with
  | nil => simp
  | cons p rest ih =>
      simp only [List.foldl_cons, List.filter_cons]
      cases hg : alookup s.quotaGuarantees (topLevelRole p.1) with
      | none =>
          simp only [Option.isNone_none, if_true, Option.isSome_none,
            Bool.false_and, Bool.false_eq_true, if_false]
          exact ih m
      | some g =>
          simp only [Option.isNone_some, Bool.false_eq_true, if_false,
            Option.isSome_some, Bool.true_and]
          by_cases hc : Sorter.hasClient s.roleSorter p.1 = true
          · have hnc : (!Sorter.hasClient s.roleSorter p.1) = false := by
              rw [hc]; rfl
            rw [hnc, hc]
            simp only [Bool.false_eq_true, if_false, Bool.true_and]
            by_cases ht : topLevelRole p.1 = r
            · have htb : (topLevelRole p.1 == r) = true := beq_iff_eq.mpr ht
              rw [htb]
              simp only [if_true, List.map_cons, List.sum_cons]
              rw [ih]
              have hk := get_mapAdd_fold (Sorter.allocationOf s.roleSorter p.1)
                (fun q => topLevelRole p.1)
                (fun q => RQ.fromScalarResources
                  (Resources.scalars (Resources.nonRevocable (Resources.unreserved q.2))))
                m r n
              rw [List.filter_congr (by intro q hq; rw [htb])] at hk
              rw [List.filter_true] at hk
              rw [hk]
              ring
            · have htb : (topLevelRole p.1 == r) = false := beq_eq_false_iff_ne.mpr ht
              rw [htb]
              simp only [Bool.false_eq_true, if_false]
              rw [ih]
              have hk := get_mapAdd_fold (Sorter.allocationOf s.roleSorter p.1)
                (fun q => topLevelRole p.1)
                (fun q => RQ.fromScalarResources
                  (Resources.scalars (Resources.nonRevocable (Resources.unreserved q.2))))
                m r n
              rw [List.filter_congr (by intro q hq; rw [htb])] at hk
              rw [List.filter_false, List.map_nil, List.sum_nil, add_zero] at hk
              rw [hk]
          · have hc0 : Sorter.hasClient s.roleSorter p.1 = false := by
              cases hce : Sorter.hasClient s.roleSorter p.1
              · rfl
              · exact absurd hce hc
            have hnc : (!Sorter.hasClient s.roleSorter p.1) = true := by
              rw [hc0]; rfl
            rw [hnc, hc0]
            simp only [if_true, Bool.false_and, Bool.false_eq_true, if_false]
            exact ih m

theorem get_seedConsumedReservations (s : AllocState) (r : Role) (n : String) :
    RQ.get ((alookup (seedConsumedReservations s) r).getD []) n =
      ((s.quotaGuarantees.filter (fun p => p.1 == r)).map
        (fun p => RQ.get ((alookup s.reservationScalarQuantities p.1).getD []) n)).sum := by
  have h := get_mapAdd_fold s.quotaGuarantees Prod.fst
    (fun p => (alookup s.reservationScalarQuantities p.1).getD []) [] r n
  simp only [alookup_nil, Option.getD_none, RQ.get_nil, zero_add] at h
  exact h

/-- Spec formula for the consumed quota of a quota'ed top-level role: the
role's (hierarchically tracked) reservation quantities plus the unreserved
non-revocable scalar allocations of the role and all of its subroles. -/
def specConsumedQuota (s : AllocState) (r : Role) (n : String) : ℤ :=
  RQ.get ((alookup s.reservationScalarQuantities r).getD []) n +
    ((s.roles.filter (fun p => topLevelRole p.1 == r)).map
      (fun p => ((Sorter.allocationOf s.roleSorter p.1).map
        (fun q => specUnreservedNonRevocableScalarQ q.2 n)).sum)).sum

theorem get_seedConsumedQuota (s : AllocState) (r : Role) (g : RQ) (n : String)
    (hnd : (s.quotaGuarantees.map Prod.fst).Nodup)
    (hg : alookup s.quotaGuarantees r = some g)
    (hsync : ∀ c, Sorter.hasClient s.roleSorter c = false →
      Sorter.allocationOf s.roleSorter c = []) :
    RQ.get ((alookup (seedConsumedQuota s) r).getD []) n =
      specConsumedQuota s r n := by
  unfold seedConsumedQuota seedConsumedAllocations
  rw [get_consumedAllocAux]
  rw [get_seedConsumedReservations, filter_key_eq_of_nodup s.quotaGuarantees r g hnd hg]
  unfold specConsumedQuota
  congr 1
  · simp
  · have hcongr : s.roles.filter (fun p =>
        (alookup s.quotaGuarantees (topLevelRole p.1)).isSome
          && Sorter.hasClient s.roleSorter p.1
          && (topLevelRole p.1 == r)) =
        s.roles.filter (fun p =>
          (topLevelRole p.1 == r) && Sorter.hasClient s.roleSorter p.1) := by
      apply List.filter_congr
      intro p hp
      by_cases ht : topLevelRole p.1 = r
      · rw [ht, hg]
        simp
      · have htb : (topLevelRole p.1 == r) = false := beq_eq_false_iff_ne.mpr ht
        rw [htb]
        simp
    rw [hcongr]
    have hdrop := sum_filter_and s.roles
      (fun p => topLevelRole p.1 == r)
      (fun p => Sorter.hasClient s.roleSorter p.1)
      (fun p => ((Sorter.allocationOf s.roleSorter p.1).map
        (fun q => RQ.get (RQ.fromScalarResources (Resources.scalars
          (Resources.nonRevocable (Resources.unreserved q.2)))) n)).sum)
      (by
        intro x hx hpt hcf
        dsimp only
        rw [hsync x.1 hcf]
        rfl)
    rw [hdrop]
    simp only [specUnreserved_eq]

theorem specConsumedQuota_nonneg (s : AllocState) (r : Role) (n : String)
    (hres : ∀ p ∈ s.reservationScalarQuantities, ∀ q ∈ p.2, 0 ≤ q.2)
    (halloc : ∀ p ∈ s.roleSorter.alloc, ∀ q ∈ p.2, ∀ x ∈ q.2, 0 ≤ x.amount) :
    0 ≤ specConsumedQuota s r n := by
  unfold specConsumedQuota
  apply add_nonneg
  · cases hl : alookup s.reservationScalarQuantities r with
    | none => simp [RQ.get]
    | some v =>
        simp only [Option.getD_some]
        apply RQ.get_nonneg
        intro q hq
        exact hres (r, v) (mem_of_alookup_eq_some _ _ _ hl) q hq
  · apply List.sum_nonneg
    intro x hx
    obtain ⟨p, hp, e⟩ := List.mem_map.mp hx
    rw [← e]
    apply List.sum_nonneg
    intro y hy
    obtain ⟨q, hq, e2⟩ := List.mem_map.mp hy
    rw [← e2]
    unfold specUnreservedNonRevocableScalarQ
    apply scalarQuantityOf_nonneg
    intro z hz
    have hz2 : z ∈ q.2 := List.mem_of_mem_filter hz
    have hq' := hq
    unfold Sorter.allocationOf at hq'
    cases hl : alookup s.roleSorter.alloc p.1 with
    | none =>
        rw [hl] at hq'
        simp at hq'
    | some w =>
        rw [hl] at hq'
        simp only [Option.getD_some] at hq'
        exact halloc (p.1, w) (mem_of_alookup_eq_some _ _ _ hl) q hq' z hz2

/-- Spec formula for the required headroom:
`Σ max(0, guarantee − consumed quota)` over the quota'ed roles. -/
def specRequiredHeadroom (s : AllocState) (n : String) : ℤ :=
  (s.quotaGuarantees.map
    (fun p => max 0 (RQ.get p.2 n - specConsumedQuota s p.1 n))).sum

theorem get_seedRequiredHeadroom (s : AllocState) (n : String)
    (hnd : (s.quotaGuarantees.map Prod.fst).Nodup)
    (hres : ∀ p ∈ s.reservationScalarQuantities, ∀ q ∈ p.2, 0 ≤ q.2)
    (halloc : ∀ p ∈ s.roleSorter.alloc, ∀ q ∈ p.2, ∀ x ∈ q.2, 0 ≤ x.amount)
    (hsync : ∀ c, Sorter.hasClient s.roleSorter c = false →
      Sorter.allocationOf s.roleSorter c = []) :
    RQ.get (seedRequiredHeadroom s (seedConsumedQuota s)) n =
      specRequiredHeadroom s n := by
  unfold seedRequiredHeadroom specRequiredHeadroom
  have h := get_append_fold s.quotaGuarantees
    (fun p => RQ.sub p.2 ((alookup (seedConsumedQuota s) p.1).getD [])) [] n
  simp only [RQ.get_nil, zero_add] at h
  rw [h]
  congr 1
  apply List.map_congr_left
  intro p hp
  have hgp : alookup s.quotaGuarantees p.1 = some p.2 :=
    alookup_of_mem_nodup s.quotaGuarantees p hnd hp
  have hchar := get_seedConsumedQuota s p.1 p.2 n hnd hgp hsync
  have hnn : 0 ≤ specConsumedQuota s p.1 n :=
    specConsumedQuota_nonneg s p.1 n hres halloc
  rw [RQ.get_sub_of_nonneg _ _ _ (by rw [hchar]; exact hnn), hchar]

theorem allocationOf_mem_nonneg (s : Sorter)
    (halloc : ∀ p ∈ s.alloc, ∀ q ∈ p.2, ∀ x ∈ q.2, 0 ≤ x.amount)
    (c : String) (q : SlaveID × Resources) (hq : q ∈ Sorter.allocationOf s c)
    (x : Resource) (hx : x ∈ q.2) : 0 ≤ x.amount := by
  unfold Sorter.allocationOf at hq
  cases hl : alookup s.alloc c with
  | none =>
      rw [hl] at hq
      simp at hq
  | some w =>
      rw [hl] at hq
      simp only [Option.getD_some] at hq
      exact halloc (c, w) (mem_of_alookup_eq_some _ _ _ hl) q hq x hx

theorem get_seedTotalReservation (s : AllocState) (n : String) :
    RQ.get (seedTotalReservation s) n =
      ((s.reservationScalarQuantities.filter (fun p => !p.1.contains '/')).map
        (fun p => RQ.get p.2 n)).sum := by
  have h := get_ite_append_fold s.reservationScalarQuantities
    (fun p => p.1.contains '/') (fun p => p.2) [] n
  simp only [RQ.get_nil, zero_add] at h
  exact h

theorem get_seedTotalAllocatedReservation (s : AllocState) (n : String) :
    RQ.get (seedTotalAllocatedReservation s) n =
      ((s.roles.filter (fun p => Sorter.hasClient s.roleSorter p.1)).map
        (fun p => ((Sorter.allocationOf s.roleSorter p.1).map
          (fun q => RQ.get (RQ.fromScalarResources
            (Resources.scalars (Resources.reservedAll q.2))) n)).sum)).sum := by
  have h := get_guard_inner_append_fold s.roles
    (fun p => Sorter.hasClient s.roleSorter p.1)
    (fun p => Sorter.allocationOf s.roleSorter p.1)
    (fun q => RQ.fromScalarResources (Resources.scalars (Resources.reservedAll q.2)))
    [] n
  simp only [RQ.get_nil, zero_add] at h
  exact h

/-- Spec formula for the available headroom: cluster total scalar
quantities minus allocated scalar quantities, minus unallocated
reservations (total top-level reservations minus allocated reservations),
minus the unallocated revocable scalars of every agent, truncated at zero
as `ResourceQuantities` subtraction is. -/
def specAvailableHeadroom (s : AllocState) (n : String) : ℤ :=
  max 0 (RQ.get (Sorter.totalScalarQuantities s.roleSorter) n
    - RQ.get (Sorter.allocationScalarQuantities s.roleSorter) n
    - max 0 (RQ.get (seedTotalReservation s) n
        - RQ.get (seedTotalAllocatedReservation s) n)
    - (s.slaves.map (fun p => RQ.get (RQ.fromScalarResources (Resources.scalars
        (Resources.revocableOf (Slave.getAvailable p.2)))) n)).sum)

theorem get_seedAvailableHeadroom (s : AllocState) (n : String)
    (halloc : ∀ p ∈ s.roleSorter.alloc, ∀ q ∈ p.2, ∀ x ∈ q.2, 0 ≤ x.amount)
    (havail : ∀ p ∈ s.slaves, ∀ r ∈ Slave.getAvailable p.2, 0 ≤ r.amount) :
    RQ.get (seedAvailableHeadroom s) n = specAvailableHeadroom s n := by
  have hA : 0 ≤ RQ.get (Sorter.allocationScalarQuantities s.roleSorter) n := by
    unfold Sorter.allocationScalarQuantities
    apply RQ.get_fromScalar_nonneg
    intro r hr
    rw [List.mem_flatMap] at hr
    obtain ⟨p, hp, hr2⟩ := hr
    rw [List.mem_flatMap] at hr2
    obtain ⟨q, hq, hr3⟩ := hr2
    exact halloc p hp q hq r hr3
  have hRalloc : 0 ≤ RQ.get (seedTotalAllocatedReservation s) n := by
    rw [get_seedTotalAllocatedReservation]
    apply List.sum_nonneg
    intro x hx
    obtain ⟨p, hp, e⟩ := List.mem_map.mp hx
    rw [← e]
    apply List.sum_nonneg
    intro y hy
    obtain ⟨q, hq, e2⟩ := List.mem_map.mp hy
    rw [← e2]
    apply RQ.get_fromScalar_nonneg
    intro r hr
    exact allocationOf_mem_nonneg s.roleSorter halloc p.1 q hq r
      (List.mem_of_mem_filter (List.mem_of_mem_filter hr))
  have hV : ∀ p ∈ s.slaves, 0 ≤ RQ.get (RQ.fromScalarResources (Resources.scalars
      (Resources.revocableOf (Slave.getAvailable p.2)))) n := by
    intro p hp
    apply RQ.get_fromScalar_nonneg
    intro r hr
    exact havail p hp r (List.mem_of_mem_filter (List.mem_of_mem_filter hr))
  have h2 := RQ.get_sub_of_nonneg (Sorter.totalScalarQuantities s.roleSorter)
    (Sorter.allocationScalarQuantities s.roleSorter) n hA
  have hU := RQ.get_sub_of_nonneg (seedTotalReservation s)
    (seedTotalAllocatedReservation s) n hRalloc
  have hU0 := RQ.get_sub_nonneg (seedTotalReservation s)
    (seedTotalAllocatedReservation s) n
  have h3 := RQ.get_sub_of_nonneg
    (RQ.sub (Sorter.totalScalarQuantities s.roleSorter)
      (Sorter.allocationScalarQuantities s.roleSorter))
    (RQ.sub (seedTotalReservation s) (seedTotalAllocatedReservation s)) n hU0
  rw [h2, hU] at h3
  rw [max0_sub_collapse _ _ (le_max_left 0 _)] at h3
  have hx : 0 ≤ RQ.get (RQ.sub
      (RQ.sub (Sorter.totalScalarQuantities s.roleSorter)
        (Sorter.allocationScalarQuantities s.roleSorter))
      (RQ.sub (seedTotalReservation s) (seedTotalAllocatedReservation s))) n := by
    rw [h3]
    exact le_max_left 0 _
  have hfold := get_sub_fold s.slaves
    (fun p => RQ.fromScalarResources (Resources.scalars
      (Resources.revocableOf (Slave.getAvailable p.2))))
    (RQ.sub
      (RQ.sub (Sorter.totalScalarQuantities s.roleSorter)
        (Sorter.allocationScalarQuantities s.roleSorter))
      (RQ.sub (seedTotalReservation s) (seedTotalAllocatedReservation s))) n hV hx
  rw [h3] at hfold
  have hVs : 0 ≤ (s.slaves.map (fun p => RQ.get (RQ.fromScalarResources
      (Resources.scalars (Resources.revocableOf (Slave.getAvailable p.2)))) n)).sum := by
    apply List.sum_nonneg
    intro x hx2
    obtain ⟨p, hp, e⟩ := List.mem_map.mp hx2
    rw [← e]
    exact hV p hp
  rw [max0_sub_collapse _ _ hVs] at hfold
  exact hfold

/-- **C2**: before Stage 1 of an allocation run, the headroom quantities
are seeded as specified.  Per resource name `n`: the consumed quota of a
quota'ed role `r` is its (hierarchically tracked) reservation quantities
plus the unreserved non-revocable scalar allocations of `r` and its
subroles; `requiredHeadroom` is the sum over quota'ed roles of
`max 0 (guarantee − consumed quota)`; and `availableHeadroom` is the
cluster total scalar quantities minus allocated scalars, minus
unallocated reservations (total top-level reservations minus allocated
reservations), minus the unallocated revocable scalars of every agent,
truncated at zero.  The hypotheses state well-formedness of the
bookkeeping: quota keys are unique, tracked quantities are nonnegative,
and the role sorter reports allocations only for tracked clients. -/
theorem C2_headroom_seeding (s : AllocState) (n : String) (r : Role) (g : RQ)
    (hnd : (s.quotaGuarantees.map Prod.fst).Nodup)
    (hg : alookup s.quotaGuarantees r = some g)
    (hres : ∀ p ∈ s.reservationScalarQuantities, ∀ q ∈ p.2, 0 ≤ q.2)
    (halloc : ∀ p ∈ s.roleSorter.alloc, ∀ q ∈ p.2, ∀ x ∈ q.2, 0 ≤ x.amount)
    (havail : ∀ p ∈ s.slaves, ∀ x ∈ Slave.getAvailable p.2, 0 ≤ x.amount)
    (hsync : ∀ c, Sorter.hasClient s.roleSorter c = false →
      Sorter.allocationOf s.roleSorter c = []) :
    RQ.get ((alookup (seedConsumedQuota s) r).getD []) n =
      specConsumedQuota s r n ∧
    RQ.get (seedRequiredHeadroom s (seedConsumedQuota s)) n =
      specRequiredHeadroom s n ∧
    RQ.get (seedAvailableHeadroom s) n = specAvailableHeadroom s n :=
  ⟨get_seedConsumedQuota s r g n hnd hg hsync,
   get_seedRequiredHeadroom s n hnd hres halloc hsync,
   get_seedAvailableHeadroom s n halloc havail⟩

/-- A 2-cpu allocation held by role `qa`. -/
def sampleC2AllocRes : Resource :=
  { sampleCpus 2 with allocatedTo := some "qa" }

def sampleC2Sorter : Sorter :=
  { order := ["qa"], clients := ["qa"],
    totals := [("a1", [sampleCpus 10])],
    alloc := [("qa", [("a1", [sampleC2AllocRes])])] }

def sampleC2Slave : Slave :=
  { hostname := "h2", total := [sampleCpus 10], allocated := [sampleC2AllocRes],
    activated := true, hasGpu := false, region := none,
    capabilities := sampleSlaveCaps, maintenance := none }

def sampleC2State : AllocState :=
  { sampleState0 with
    slaves := [("a1", sampleC2Slave)],
    roles := [("qa", ["f1"])],
    quotaGuarantees := [("qa", [("cpus", 4)])],
    reservationScalarQuantities := [("qa", [("cpus", 1)])],
    roleSorter := sampleC2Sorter }

theorem C2_headroom_seeding_witness :
    RQ.get ((alookup (seedConsumedQuota sampleC2State) "qa").getD []) "cpus" =
      specConsumedQuota sampleC2State "qa" "cpus" ∧
    RQ.get (seedRequiredHeadroom sampleC2State
      (seedConsumedQuota sampleC2State)) "cpus" =
      specRequiredHeadroom sampleC2State "cpus" ∧
    RQ.get (seedAvailableHeadroom sampleC2State) "cpus" =
      specAvailableHeadroom sampleC2State "cpus" :=
  C2_headroom_seeding sampleC2State "cpus" "qa" [("cpus", 4)]
    (by decide) (by decide) (by decide) (by decide) (by decide)
    (by
      intro c h
      by_cases e : c = "qa"
      · subst e
        simp [sampleC2State, sampleC2Sorter, Sorter.hasClient] at h
      · show Sorter.allocationOf sampleC2State.roleSorter c = []
        unfold Sorter.allocationOf
        have hl : alookup sampleC2State.roleSorter.alloc c = none := by
          show alookup [("qa", [("a1", [sampleC2AllocRes])])] c = none
          rw [alookup_cons, if_neg (fun hh => e hh.symm)]
          rfl
        rw [hl]
        rfl)

/-- The agent resources a Stage-1/Stage-2 step works from: the agent's
available resources, minus what this run already offered from the agent's
shared pool, stripped of resources the framework is incapable of. -/
def stage1Available (st : RunState) (slaveId : SlaveID) (slave : Slave)
    (framework : Framework) : Resources :=
  stripIncapableResources
    (Resources.subR (Slave.getAvailable slave)
      ((alookup st.offeredSharedResources slaveId).getD []))
    framework.capabilities

/-- Spec formula for the first part of the Stage-1 offer: the agent's
available resources reserved to the role (non-revocable), plus the
available unreserved non-revocable resources shrunk to at most the role's
unsatisfied quota guarantee. -/
def specStage1QuotaPart (available : Resources) (role : Role)
    (quotaGuarantee consumed : RQ) : Resources :=
  Resources.nonRevocable (Resources.reservedTo available role) ++
    shrinkResources (Resources.unreserved (Resources.nonRevocable available))
      (RQ.sub quotaGuarantee consumed)

/-- Spec formula for the full Stage-1 offer: the quota part, plus the
unreserved scalars without a quota guarantee shrunk to the surplus
headroom, plus the unreserved non-scalar resources. -/
def specStage1ToAllocate (available : Resources) (role : Role)
    (quotaGuarantee consumed surplus : RQ) : Resources :=
  specStage1QuotaPart available role quotaGuarantee consumed ++
    shrinkResources
      ((Resources.unreserved (Resources.nonRevocable available)).filter
        (fun r => decide (RQ.get quotaGuarantee r.name = 0)))
      surplus ++
    (Resources.unreserved (Resources.nonRevocable available)).filter
      (fun r => !r.isScalar)

/-- **C3**: a Stage-1 step builds its offer as the spec states.  With the
step's agent and framework present and capable, let `available` be the
stripped available resources and `toAllocate` the reserved-to-role
non-revocable part plus the unreserved non-revocable part shrunk to the
unsatisfied quota guarantee.  If `toAllocate` is empty the step is a
no-op `continue` — the non-quota-guarantee scalars and non-scalar parts
are not even considered.  Otherwise the offer additionally carries the
unreserved scalars without quota guarantee shrunk to the surplus headroom
and the unreserved non-scalars, and (when allocatable and unfiltered) the
full `specStage1ToAllocate` is what is recorded as offered. -/
theorem C3_stage1_toAllocate (slaveId : SlaveID) (role : Role)
    (quotaGuarantee : RQ) (frameworkId : FrameworkID) (st : RunState)
    (slave : Slave) (framework : Framework)
    (hs : alookup st.state.slaves slaveId = some slave)
    (hne : (Resources.allocatableTo
      (Resources.subR (Slave.getAvailable slave)
        ((alookup st.offeredSharedResources slaveId).getD [])) role).isEmpty
      = false)
    (hf : alookup st.state.frameworks frameworkId = some framework)
    (hcap : isCapableOfReceivingAgent st.state.options framework.capabilities
      slave = true) :
    ((specStage1QuotaPart (stage1Available st slaveId slave framework) role
        quotaGuarantee ((alookup st.rolesConsumedQuota role).getD [])).isEmpty
        = true →
      stage1FwStep slaveId role quotaGuarantee frameworkId st = (st, true)) ∧
    ((specStage1QuotaPart (stage1Available st slaveId slave framework) role
        quotaGuarantee ((alookup st.rolesConsumedQuota role).getD [])).isEmpty
        = false →
      allocatable st.state.options framework
        (specStage1ToAllocate (stage1Available st slaveId slave framework) role
          quotaGuarantee ((alookup st.rolesConsumedQuota role).getD [])
          (RQ.sub st.availableHeadroom st.requiredHeadroom)) role = true →
      isFilteredOffer framework slave role slaveId
        (specStage1ToAllocate (stage1Available st slaveId slave framework) role
          quotaGuarantee ((alookup st.rolesConsumedQuota role).getD [])
          (RQ.sub st.availableHeadroom st.requiredHeadroom)) = false →
      (stage1FwStep slaveId role quotaGuarantee frameworkId st).2 = true ∧
      alookup ((alookup ((alookup
          (stage1FwStep slaveId role quotaGuarantee frameworkId st).1.offerable
          frameworkId).getD []) role).getD []) slaveId =
        some (((alookup ((alookup ((alookup st.offerable frameworkId).getD [])
            role).getD []) slaveId).getD []) ++
          Resources.allocateRole
            (specStage1ToAllocate (stage1Available st slaveId slave framework)
              role quotaGuarantee ((alookup st.rolesConsumedQuota role).getD [])
              (RQ.sub st.availableHeadroom st.requiredHeadroom)) role)) := by
  unfold specStage1ToAllocate specStage1QuotaPart stage1Available
  unfold stage1FwStep
  rw [hs]
  simp only [hne, Bool.false_eq_true, if_false, hf, hcap, Bool.not_true]
  constructor
  · intro hempty
    rw [hempty]
    simp only [if_true]
  · intro hnempty halloc hfilt
    rw [hnempty]
    simp only [Bool.false_eq_true, if_false]
    rw [halloc, hfilt]
    simp only [Bool.not_true, Bool.false_or, Bool.false_eq_true, if_false]
    constructor
    · trivial
    · rw [alookup_aupdate_self, Option.getD_some, alookup_aupdate_self,
        Option.getD_some, alookup_aupdate_self]

def sampleC3Slave : Slave :=
  { hostname := "h3", total := [sampleCpus 10], allocated := [],
    activated := true, hasGpu := false, region := none,
    capabilities := sampleSlaveCaps, maintenance := none }

def sampleC3Fw : Framework :=
  { roles := ["qa"], suppressedRoles := [], capabilities := sampleCaps,
    active := true, minAllocatableResources := [],
    offerFilters := [], inverseOfferFilters := [] }

def sampleC3State : AllocState :=
  { sampleState0 with
    frameworks := [("f1", sampleC3Fw)],
    slaves := [("a1", sampleC3Slave)],
    roles := [("qa", ["f1"])],
    quotaGuarantees := [("qa", [("cpus", 4)])] }

def sampleC3Run : RunState :=
  { state := sampleC3State, rolesConsumedQuota := [], requiredHeadroom := [],
    availableHeadroom := [("cpus", 10)], offeredSharedResources := [],
    offerable := [], heldBackForHeadroom := [], heldBackAgentCount := 0 }

theorem C3_stage1_toAllocate_witness :
    (stage1FwStep "a1" "qa" [("cpus", 4)] "f1" sampleC3Run).2 = true ∧
    alookup ((alookup ((alookup
        (stage1FwStep "a1" "qa" [("cpus", 4)] "f1" sampleC3Run).1.offerable
        "f1").getD []) "qa").getD []) "a1" =
      some (((alookup ((alookup ((alookup sampleC3Run.offerable "f1").getD [])
          "qa").getD []) "a1").getD []) ++
        Resources.allocateRole
          (specStage1ToAllocate
            (stage1Available sampleC3Run "a1" sampleC3Slave sampleC3Fw) "qa"
            [("cpus", 4)] ((alookup sampleC3Run.rolesConsumedQuota "qa").getD [])
            (RQ.sub sampleC3Run.availableHeadroom sampleC3Run.requiredHeadroom))
          "qa") :=
  (C3_stage1_toAllocate "a1" "qa" [("cpus", 4)] "f1" sampleC3Run sampleC3Slave
    sampleC3Fw (by decide) (by decide) (by decide) (by decide)).2
    (by decide) (by decide) (by decide)

/-- The portion Stage 2 holds back when headroom is insufficient:
unreserved non-revocable scalars. -/
def isUnreservedNonRevocableScalar (r : Resource) : Bool :=
  r.isScalar && (r.reservation == none) && !r.revocable

theorem Resources.amountOf_filter_key (X : Resources) (p : Resource → Bool)
    (hp : ∀ r, p r = p (rkey r)) (k : Resource) :
    Resources.amountOf (X.filter p) k =
      if p k = true then Resources.amountOf X k else 0 := by
  induction X with
  | nil =>
      by_cases h : p k = true
      · rw [if_pos h]
        rfl
      · rw [if_neg h]
        rfl
  | cons r X ih =>
      rw [List.filter_cons, Resources.amountOf_cons]
      by_cases hk : rkey r = k
      · have hpr : p r = p k := by rw [hp r, hk]
        by_cases h : p k = true
        · rw [if_pos h]
          have : p r = true := by rw [hpr, h]
          rw [this]
          simp only [if_true]
          rw [Resources.amountOf_cons, if_pos hk, ih, if_pos h]
        · have h0 : p k = false := by
            cases he : p k
            · rfl
            · exact absurd he h
          rw [if_neg h]
          have : p r = false := by rw [hpr, h0]
          rw [this]
          simp only [Bool.false_eq_true, if_false]
          rw [ih, if_neg h]
      · by_cases hpr : p r = true
        · rw [hpr]
          simp only [if_true]
          rw [Resources.amountOf_cons, if_neg hk, ih]
          simp
        · have : p r = false := by
            cases he : p r
            · rfl
            · exact absurd he hpr
          rw [this]
          simp only [Bool.false_eq_true, if_false]
          rw [ih, if_neg hk, zero_add]

theorem headroomResources_eq_filter (X : Resources) :
    Resources.nonRevocable (Resources.unreserved (Resources.scalars X)) =
      X.filter isUnreservedNonRevocableScalar := by
  unfold Resources.nonRevocable Resources.unreserved Resources.scalars
  rw [List.filter_filter, List.filter_filter]
  apply List.filter_congr
  intro r _
  unfold isUnreservedNonRevocableScalar
  cases hrv : r.revocable <;> cases hsc : r.isScalar <;>
    cases hres : r.reservation <;>
      simp [hrv, hsc, hres, Bool.and_comm, Bool.and_assoc, Bool.and_left_comm]

theorem amountOf_headroom (X : Resources) (k : Resource) :
    Resources.amountOf
      (Resources.nonRevocable (Resources.unreserved (Resources.scalars X))) k =
      if isUnreservedNonRevocableScalar k = true then Resources.amountOf X k
      else 0 := by
  rw [headroomResources_eq_filter]
  apply Resources.amountOf_filter_key
  intro r
  rfl

theorem Resources.subR_headroom_amount (T : Resources)
    (hp : ∀ r ∈ T, 0 < r.amount) (k : Resource) :
    Resources.amountOf (Resources.subR T
      (Resources.nonRevocable (Resources.unreserved (Resources.scalars T)))) k =
      if isUnreservedNonRevocableScalar k = true then 0
      else Resources.amountOf T k := by
  rw [Resources.amountOf_subR]
  by_cases hk : k ∈ Resources.keysR T
  · rw [if_pos hk, amountOf_headroom]
    by_cases hu : isUnreservedNonRevocableScalar k = true
    · rw [if_pos hu, if_pos hu]
      simp
    · rw [if_neg hu, if_neg hu, sub_zero]
      apply max_eq_right
      apply Resources.amountOf_nonneg
      intro r hr
      exact le_of_lt (hp r hr)
  · rw [if_neg hk, Resources.amountOf_eq_zero T k hk]
    by_cases hu : isUnreservedNonRevocableScalar k = true
    · rw [if_pos hu]
    · rw [if_neg hu]

/-- **C1 (amended)**: the Stage-2 headroom hold-back mechanics.  With the
step's agent and framework present and capable, let `toAllocate` be the
agent's available resources allocatable to the role and `headroom` its
unreserved non-revocable scalar portion.  If subtracting that portion
from `availableHeadroom` would no longer contain `requiredHeadroom`, the
step adds the portion to `heldBackForHeadroom`, bumps
`heldBackAgentCount`, leaves `availableHeadroom` unchanged, and what can
still be offered is exactly the remainder (per key: zero on unreserved
non-revocable scalar keys and the full `toAllocate` amount elsewhere —
i.e. reservations, revocable and non-scalar resources).  If the headroom
is sufficient the hold-back records are untouched and `availableHeadroom`
is decremented by the portion exactly when the full offer goes out. -/
theorem C1_stage2_holdback (slaveId : SlaveID) (role : Role)
    (frameworkId : FrameworkID) (st : RunState) (slave : Slave)
    (framework : Framework)
    (hs : alookup st.state.slaves slaveId = some slave)
    (hne : (Resources.allocatableTo
      (Resources.subR (Slave.getAvailable slave)
        ((alookup st.offeredSharedResources slaveId).getD [])) role).isEmpty
      = false)
    (hf : alookup st.state.frameworks frameworkId = some framework)
    (hcap : isCapableOfReceivingAgent st.state.options framework.capabilities
      slave = true) :
    (RQ.contains
        (RQ.sub st.availableHeadroom (RQ.fromScalarResources
          (Resources.nonRevocable (Resources.unreserved (Resources.scalars
            (Resources.allocatableTo
              (stage1Available st slaveId slave framework) role))))))
        st.requiredHeadroom = false →
      (stage2FwStep slaveId role frameworkId st).1.heldBackForHeadroom =
        st.heldBackForHeadroom ++ RQ.fromScalarResources
          (Resources.nonRevocable (Resources.unreserved (Resources.scalars
            (Resources.allocatableTo
              (stage1Available st slaveId slave framework) role)))) ∧
      (stage2FwStep slaveId role frameworkId st).1.heldBackAgentCount =
        st.heldBackAgentCount + 1 ∧
      (stage2FwStep slaveId role frameworkId st).1.availableHeadroom =
        st.availableHeadroom ∧
      (∀ k, Resources.amountOf
          (Resources.subR
            (Resources.allocatableTo (stage1Available st slaveId slave framework)
              role)
            (Resources.nonRevocable (Resources.unreserved (Resources.scalars
              (Resources.allocatableTo
                (stage1Available st slaveId slave framework) role))))) k =
        if isUnreservedNonRevocableScalar k = true then 0
        else Resources.amountOf
          (Resources.allocatableTo (stage1Available st slaveId slave framework)
            role) k) ∧
      (allocatable st.state.options framework
          (Resources.subR
            (Resources.allocatableTo (stage1Available st slaveId slave framework)
              role)
            (Resources.nonRevocable (Resources.unreserved (Resources.scalars
              (Resources.allocatableTo
                (stage1Available st slaveId slave framework) role))))) role
          = true →
        isFilteredOffer framework slave role slaveId
          (Resources.subR
            (Resources.allocatableTo (stage1Available st slaveId slave framework)
              role)
            (Resources.nonRevocable (Resources.unreserved (Resources.scalars
              (Resources.allocatableTo
                (stage1Available st slaveId slave framework) role))))) = false →
        alookup ((alookup ((alookup
            (stage2FwStep slaveId role frameworkId st).1.offerable
            frameworkId).getD []) role).getD []) slaveId =
          some (((alookup ((alookup ((alookup st.offerable frameworkId).getD [])
              role).getD []) slaveId).getD []) ++
            Resources.allocateRole
              (Resources.subR
                (Resources.allocatableTo
                  (stage1Available st slaveId slave framework) role)
                (Resources.nonRevocable (Resources.unreserved (Resources.scalars
                  (Resources.allocatableTo
                    (stage1Available st slaveId slave framework) role)))))
              role))) ∧
    (RQ.contains
        (RQ.sub st.availableHeadroom (RQ.fromScalarResources
          (Resources.nonRevocable (Resources.unreserved (Resources.scalars
            (Resources.allocatableTo
              (stage1Available st slaveId slave framework) role))))))
        st.requiredHeadroom = true →
      (stage2FwStep slaveId role frameworkId st).1.heldBackForHeadroom =
        st.heldBackForHeadroom ∧
      (stage2FwStep slaveId role frameworkId st).1.heldBackAgentCount =
        st.heldBackAgentCount ∧
      (allocatable st.state.options framework
          (Resources.allocatableTo (stage1Available st slaveId slave framework)
            role) role = true →
        isFilteredOffer framework slave role slaveId
          (Resources.allocatableTo (stage1Available st slaveId slave framework)
            role) = false →
        (stage2FwStep slaveId role frameworkId st).1.availableHeadroom =
          RQ.sub st.availableHeadroom (RQ.fromScalarResources
            (Resources.nonRevocable (Resources.unreserved (Resources.scalars
              (Resources.allocatableTo
                (stage1Available st slaveId slave framework) role))))) ∧
        alookup ((alookup ((alookup
            (stage2FwStep slaveId role frameworkId st).1.offerable
            frameworkId).getD []) role).getD []) slaveId =
          some (((alookup ((alookup ((alookup st.offerable frameworkId).getD [])
              role).getD []) slaveId).getD []) ++
            Resources.allocateRole
              (Resources.allocatableTo
                (stage1Available st slaveId slave framework) role) role)) ∧
      ((allocatable st.state.options framework
          (Resources.allocatableTo (stage1Available st slaveId slave framework)
            role) role = false ∨
        isFilteredOffer framework slave role slaveId
          (Resources.allocatableTo (stage1Available st slaveId slave framework)
            role) = true) →
        (stage2FwStep slaveId role frameworkId st).1.availableHeadroom =
          st.availableHeadroom)) := by
  have hp : ∀ r ∈ Resources.allocatableTo
      (stage1Available st slaveId slave framework) role, 0 < r.amount := by
    intro r hr
    exact Resources.mem_subR_pos _ _ r
      (List.mem_of_mem_filter (List.mem_of_mem_filter hr))
  unfold stage1Available
  unfold stage2FwStep
  rw [hs]
  simp only [hne, Bool.false_eq_true, if_false, hf, hcap, Bool.not_true]
  constructor
  · intro hins
    simp only [hins, Bool.false_eq_true, if_false]
    refine ⟨?_, ?_, ?_, ?_, ?_⟩
    · split
      · rfl
      · rfl
    · split
      · rfl
      · rfl
    · split
      · rfl
      · rfl
    · intro k
      exact Resources.subR_headroom_amount _ (by
        intro r hr
        exact hp r hr) k
    · intro ha hfil
      rw [ha, hfil]
      simp only [Bool.not_true, Bool.false_or, Bool.false_eq_true, if_false]
      rw [alookup_aupdate_self, Option.getD_some, alookup_aupdate_self,
        Option.getD_some, alookup_aupdate_self]
  · intro hins
    simp only [hins, if_true]
    refine ⟨?_, ?_, ?_, ?_⟩
    · split
      · rfl
      · rfl
    · split
      · rfl
      · rfl
    · intro ha hfil
      rw [ha, hfil]
      simp only [Bool.not_true, Bool.false_or, Bool.false_eq_true, if_false]
      constructor
      · trivial
      · rw [alookup_aupdate_self, Option.getD_some, alookup_aupdate_self,
          Option.getD_some, alookup_aupdate_self]
    · intro hcond
      rcases hcond with h | h
      · simp only [h, Bool.not_false, Bool.true_or, if_true]
      · simp only [h, Bool.or_true, if_true]

/-- A state with an overcommitted quota guarantee and no agents at all. -/
def sampleC1State : AllocState :=
  { sampleState0 with quotaGuarantees := [("qa", [("cpus", 8)])] }

/-- **C1 counterexample**: the run-level disjunction of the original claim
("after every allocation run, either availableHeadroom contains
requiredHeadroom or the engine held resources back") fails when the
headroom deficit predates the run and no Stage-2 step executes: with a
quota guarantee of 8 cpus and no agents, the run ends with an
availableHeadroom that does not contain requiredHeadroom while both
held-back counters are still zero. -/
theorem C1_counterexample :
    RQ.contains (allocateRun sampleC1State).availableHeadroom
      (allocateRun sampleC1State).requiredHeadroom = false ∧
    (allocateRun sampleC1State).heldBackAgentCount = 0 ∧
    (allocateRun sampleC1State).heldBackForHeadroom = [] := by
  refine ⟨?_, ?_, ?_⟩ <;> decide

def sampleC1Reserved : Resource :=
  { sampleCpus 2 with reservation := some "r" }

def sampleC1Fw : Framework :=
  { roles := ["r"], suppressedRoles := [], capabilities := sampleCaps,
    active := true, minAllocatableResources := [],
    offerFilters := [], inverseOfferFilters := [] }

def sampleC1Slave : Slave :=
  { hostname := "h4", total := [sampleCpus 5, sampleC1Reserved], allocated := [],
    activated := true, hasGpu := false, region := none,
    capabilities := sampleSlaveCaps, maintenance := none }

def sampleC1State2 : AllocState :=
  { sampleState0 with
    frameworks := [("f1", sampleC1Fw)],
    slaves := [("a1", sampleC1Slave)],
    roles := [("r", ["f1"])] }

/-- A run state mid-allocation whose remaining available headroom (3 cpus)
exactly equals the required headroom, so offering the agent's 5 unreserved
cpus would violate it. -/
def sampleC1Run : RunState :=
  { state := sampleC1State2, rolesConsumedQuota := [],
    requiredHeadroom := [("cpus", 3)], availableHeadroom := [("cpus", 3)],
    offeredSharedResources := [], offerable := [],
    heldBackForHeadroom := [], heldBackAgentCount := 0 }

theorem C1_stage2_holdback_witness :
    (stage2FwStep "a1" "r" "f1" sampleC1Run).1.heldBackForHeadroom =
      sampleC1Run.heldBackForHeadroom ++ RQ.fromScalarResources
        (Resources.nonRevocable (Resources.unreserved (Resources.scalars
          (Resources.allocatableTo
            (stage1Available sampleC1Run "a1" sampleC1Slave sampleC1Fw) "r")))) ∧
    (stage2FwStep "a1" "r" "f1" sampleC1Run).1.heldBackAgentCount =
      sampleC1Run.heldBackAgentCount + 1 ∧
    (stage2FwStep "a1" "r" "f1" sampleC1Run).1.availableHeadroom =
      sampleC1Run.availableHeadroom ∧
    (∀ k, Resources.amountOf
        (Resources.subR
          (Resources.allocatableTo
            (stage1Available sampleC1Run "a1" sampleC1Slave sampleC1Fw) "r")
          (Resources.nonRevocable (Resources.unreserved (Resources.scalars
            (Resources.allocatableTo
              (stage1Available sampleC1Run "a1" sampleC1Slave sampleC1Fw)
              "r"))))) k =
      if isUnreservedNonRevocableScalar k = true then 0
      else Resources.amountOf
        (Resources.allocatableTo
          (stage1Available sampleC1Run "a1" sampleC1Slave sampleC1Fw) "r") k) ∧
    (allocatable sampleC1Run.state.options sampleC1Fw
        (Resources.subR
          (Resources.allocatableTo
            (stage1Available sampleC1Run "a1" sampleC1Slave sampleC1Fw) "r")
          (Resources.nonRevocable (Resources.unreserved (Resources.scalars
            (Resources.allocatableTo
              (stage1Available sampleC1Run "a1" sampleC1Slave sampleC1Fw)
              "r"))))) "r" = true →
      isFilteredOffer sampleC1Fw sampleC1Slave "r" "a1"
        (Resources.subR
          (Resources.allocatableTo
            (stage1Available sampleC1Run "a1" sampleC1Slave sampleC1Fw) "r")
          (Resources.nonRevocable (Resources.unreserved (Resources.scalars
            (Resources.allocatableTo
              (stage1Available sampleC1Run "a1" sampleC1Slave sampleC1Fw)
              "r"))))) = false →
      alookup ((alookup ((alookup
          (stage2FwStep "a1" "r" "f1" sampleC1Run).1.offerable
          "f1").getD []) "r").getD []) "a1" =
        some (((alookup ((alookup ((alookup sampleC1Run.offerable "f1").getD [])
            "r").getD []) "a1").getD []) ++
          Resources.allocateRole
            (Resources.subR
              (Resources.allocatableTo
                (stage1Available sampleC1Run "a1" sampleC1Slave sampleC1Fw) "r")
              (Resources.nonRevocable (Resources.unreserved (Resources.scalars
                (Resources.allocatableTo
                  (stage1Available sampleC1Run "a1" sampleC1Slave sampleC1Fw)
                  "r"))))) "r")) :=
  (C1_stage2_holdback "a1" "r" "f1" sampleC1Run sampleC1Slave sampleC1Fw
    (by decide) (by decide) (by decide) (by decide)).1 (by decide)

theorem alookup_isSome_of_mem {β : Type} (l : List (String × β)) (k : String)
    (v : β) (h : (k, v) ∈ l) : (alookup l k).isSome = true := by
  induction l with
  | nil => cases h
  | cons p rest ih =>
      rw [alookup_cons]
      by_cases e : p.1 = k
      · rw [if_pos e]
        rfl
      · rw [if_neg e]
        rcases List.mem_cons.mp h with h1 | h1
        · exact absurd (congrArg Prod.fst h1).symm e
        · exact ih h1

/-- The spec's emission conditions for one inverse offer: the agent is an
allocation candidate with maintenance set, the framework holds allocation
on the agent in some framework sorter, is active, has no outstanding
inverse offer for the agent and no pending inverse-offer filter. -/
def specInverseOfferEligible (s : AllocState) (f : FrameworkID)
    (a : SlaveID) : Bool :=
  s.allocationCandidates.contains a &&
  (match alookup s.slaves a with
   | none => false
   | some slave =>
     match slave.maintenance with
     | none => false
     | some m =>
       s.frameworkSorters.any
         (fun p => (alookup (Sorter.allocationAt p.2 a) f).isSome) &&
       (match alookup s.frameworks f with
        | none => false
        | some fw =>
          fw.active && !(m.offersOutstanding.contains f) &&
            !(isFilteredInverse fw a)))

/-- How a slave record evolves during one deallocation pass: only the
maintenance record changes, keeping its unavailability, and the
outstanding set is the original one plus exactly the frameworks whose
inverse offer for this agent was collected so far. -/
def MaintRel (orig cur : Slave) (offerable : InverseOfferable)
    (a : SlaveID) : Prop :=
  (orig.maintenance = none → cur = orig) ∧
  ∀ m, orig.maintenance = some m →
    ∃ m', cur.maintenance = some m' ∧
      m'.unavailability = m.unavailability ∧
      (∀ g, g ∈ m'.offersOutstanding ↔
        (g ∈ m.offersOutstanding ∨
          (alookup ((alookup offerable g).getD []) a).isSome = true))

/-- The invariant carried through one deallocation pass, relative to the
entry state `s`. -/
def DeallocInv (s : AllocState) (acc : AllocState × InverseOfferable) : Prop :=
  acc.1.frameworks = s.frameworks ∧
  acc.1.roles = s.roles ∧
  acc.1.allocationCandidates = s.allocationCandidates ∧
  acc.1.frameworkSorters = s.frameworkSorters ∧
  (∀ a, alookup s.slaves a = none → alookup acc.1.slaves a = none) ∧
  (∀ a slave, alookup s.slaves a = some slave →
    ∃ slave', alookup acc.1.slaves a = some slave' ∧
      MaintRel slave slave' acc.2 a) ∧
  (∀ g a u, alookup ((alookup acc.2 g).getD []) a = some u →
    specInverseOfferEligible s g a = true ∧
    (∀ slave m, alookup s.slaves a = some slave → slave.maintenance = some m →
      u = { resources := [], unavailability := m.unavailability }))

theorem deallocInv_init (s : AllocState) : DeallocInv s (s, []) := by
  refine ⟨rfl, rfl, rfl, rfl, fun a h => h, fun a slave h => ?_, fun g a u h => ?_⟩
  · refine ⟨slave, h, fun _ => rfl, fun m hm => ⟨m, hm, rfl, fun g => ?_⟩⟩
    simp [alookup_nil]
  · simp [alookup_nil] at h

theorem eligible_elim (s : AllocState) (f : FrameworkID) (a : SlaveID)
    (h : specInverseOfferEligible s f a = true) :
    s.allocationCandidates.contains a = true ∧
    ∃ slave m fw, alookup s.slaves a = some slave ∧
      slave.maintenance = some m ∧
      (s.frameworkSorters.any
        (fun p => (alookup (Sorter.allocationAt p.2 a) f).isSome)) = true ∧
      alookup s.frameworks f = some fw ∧ fw.active = true ∧
      m.offersOutstanding.contains f = false ∧
      isFilteredInverse fw a = false := by
  unfold specInverseOfferEligible at h
  rw [Bool.and_eq_true] at h
  obtain ⟨h1, hrest⟩ := h
  cases hos : alookup s.slaves a with
  | none =>
      rw [hos] at hrest
      simp at hrest
  | some slave =>
      rw [hos] at hrest
      simp only [] at hrest
      cases hm : slave.maintenance with
      | none =>
          rw [hm] at hrest
          simp at hrest
      | some m =>
          rw [hm] at hrest
          simp only [] at hrest
          rw [Bool.and_eq_true] at hrest
          obtain ⟨h4, hrest2⟩ := hrest
          cases hfw : alookup s.frameworks f with
          | none =>
              rw [hfw] at hrest2
              simp at hrest2
          | some fw =>
              rw [hfw] at hrest2
              simp only [] at hrest2
              rw [Bool.and_eq_true, Bool.and_eq_true] at hrest2
              obtain ⟨⟨h6, h7⟩, h8⟩ := hrest2
              refine ⟨h1, slave, m, fw, rfl, hm, h4, rfl, h6, ?_, ?_⟩
              · cases hc : m.offersOutstanding.contains f
                · rfl
                · rw [hc] at h7
                  simp at h7
              · cases hc : isFilteredInverse fw a
                · rfl
                · rw [hc] at h8
                  simp at h8

theorem eligible_intro (s : AllocState) (f : FrameworkID) (a : SlaveID)
    (slave : Slave) (m : Maintenance) (fw : Framework)
    (h1 : s.allocationCandidates.contains a = true)
    (h2 : alookup s.slaves a = some slave) (h3 : slave.maintenance = some m)
    (h4 : (s.frameworkSorters.any
      (fun p => (alookup (Sorter.allocationAt p.2 a) f).isSome)) = true)
    (h5 : alookup s.frameworks f = some fw) (h6 : fw.active = true)
    (h7 : m.offersOutstanding.contains f = false)
    (h8 : isFilteredInverse fw a = false) :
    specInverseOfferEligible s f a = true := by
  unfold specInverseOfferEligible
  rw [h2]
  simp only []
  rw [h3]
  simp only []
  rw [h5]
  simp only []
  rw [h1, h4, h6, h7, h8]
  rfl

theorem contains_eq_true_iff (l : List String) (x : String) :
    l.contains x = true ↔ x ∈ l := by
  induction l with
  | nil => simp
  | cons y l ih =>
      rw [List.contains_cons, Bool.or_eq_true, beq_iff_eq, ih, List.mem_cons]

theorem contains_eq_false_iff (l : List String) (x : String) :
    l.contains x = false ↔ x ∉ l := by
  constructor
  · intro h hm
    rw [(contains_eq_true_iff l x).mpr hm] at h
    cases h
  · intro h
    cases hc : l.contains x
    · rfl
    · exact absurd ((contains_eq_true_iff l x).mp hc) h

theorem deallocFw_step (s : AllocState) (acc : AllocState × InverseOfferable)
    (a : SlaveID) (f : FrameworkID)
    (ha : s.allocationCandidates.contains a = true)
    (hsort : (s.frameworkSorters.any
      (fun p => (alookup (Sorter.allocationAt p.2 a) f).isSome)) = true)
    (hinv : DeallocInv s acc) :
    DeallocInv s (deallocateFw a f acc.1 acc.2) ∧
    (∀ g a' u, alookup ((alookup acc.2 g).getD []) a' = some u →
      alookup ((alookup (deallocateFw a f acc.1 acc.2).2 g).getD []) a'
        = some u) ∧
    (specInverseOfferEligible s f a = true →
      (alookup ((alookup (deallocateFw a f acc.1 acc.2).2 f).getD []) a).isSome
        = true) := by
  obtain ⟨hfr, hro, hcand, hsorters, hsl1, hsl2, hsound⟩ := hinv
  cases h1 : alookup acc.1.slaves a with
  | none =>
      have hred : deallocateFw a f acc.1 acc.2 = (acc.1, acc.2) := by
        simp only [deallocateFw, h1]
      refine ⟨?_, ?_, ?_⟩
      · rw [hred]
        exact ⟨hfr, hro, hcand, hsorters, hsl1, hsl2, hsound⟩
      · intro g a' u h
        rw [hred]
        exact h
      · intro helig
        obtain ⟨_, slave, m, fw, hos, hmo, _, hfwo, _, _, _⟩ :=
          eligible_elim s f a helig
        obtain ⟨slave'', hcur, _⟩ := hsl2 a slave hos
        rw [h1] at hcur
        cases hcur
  | some slave' =>
    cases hos : alookup s.slaves a with
    | none =>
        have hno := hsl1 a hos
        rw [h1] at hno
        cases hno
    | some slave =>
      obtain ⟨slave'', hcur, hrel⟩ := hsl2 a slave hos
      rw [h1] at hcur
      injection hcur with hcur'
      subst hcur'
      cases h2 : slave'.maintenance with
      | none =>
          have hred : deallocateFw a f acc.1 acc.2 = (acc.1, acc.2) := by
            simp only [deallocateFw, h1, h2]
          refine ⟨?_, ?_, ?_⟩
          · rw [hred]
            exact ⟨hfr, hro, hcand, hsorters, hsl1, hsl2, hsound⟩
          · intro g a' u h
            rw [hred]
            exact h
          · intro helig
            obtain ⟨_, slave0, m0, fw, hos0, hmo0, _, _, _, _, _⟩ :=
              eligible_elim s f a helig
            rw [hos] at hos0
            injection hos0 with e0
            subst e0
            obtain ⟨m'', hm'', _, _⟩ := hrel.2 m0 hmo0
            rw [h2] at hm''
            cases hm''
      | some m' =>
        cases h3 : alookup acc.1.frameworks f with
        | none =>
            have hred : deallocateFw a f acc.1 acc.2 = (acc.1, acc.2) := by
              simp only [deallocateFw, h1, h2, h3]
            refine ⟨?_, ?_, ?_⟩
            · rw [hred]
              exact ⟨hfr, hro, hcand, hsorters, hsl1, hsl2, hsound⟩
            · intro g a' u h
              rw [hred]
              exact h
            · intro helig
              obtain ⟨_, slave0, m0, fw, hos0, hmo0, _, hfwo, _, _, _⟩ :=
                eligible_elim s f a helig
              rw [hfr] at h3
              rw [hfwo] at h3
              cases h3
        | some fw =>
          cases hact : fw.active with
          | false =>
              have hred : deallocateFw a f acc.1 acc.2 = (acc.1, acc.2) := by
                simp only [deallocateFw, h1, h2, h3, hact, Bool.not_false,
                  if_true]
              refine ⟨?_, ?_, ?_⟩
              · rw [hred]
                exact ⟨hfr, hro, hcand, hsorters, hsl1, hsl2, hsound⟩
              · intro g a' u h
                rw [hred]
                exact h
              · intro helig
                obtain ⟨_, slave0, m0, fw0, hos0, hmo0, _, hfwo, hact0, _, _⟩ :=
                  eligible_elim s f a helig
                rw [hfr] at h3
                rw [hfwo] at h3
                injection h3 with e3
                rw [e3] at hact0
                rw [hact] at hact0
                cases hact0
          | true =>
            cases hpair : (alookup ((alookup acc.2 f).getD []) a).isSome with
            | true =>
                have hred : deallocateFw a f acc.1 acc.2 = (acc.1, acc.2) := by
                  simp only [deallocateFw, h1, h2, h3, hact, Bool.not_true,
                    Bool.false_eq_true, if_false, hpair, if_true]
                refine ⟨?_, ?_, ?_⟩
                · rw [hred]
                  exact ⟨hfr, hro, hcand, hsorters, hsl1, hsl2, hsound⟩
                · intro g a' u h
                  rw [hred]
                  exact h
                · intro helig
                  rw [hred]
                  exact hpair
            | false =>
              cases hout : m'.offersOutstanding.contains f with
              | true =>
                  have hred : deallocateFw a f acc.1 acc.2 = (acc.1, acc.2) := by
                    simp only [deallocateFw, h1, h2, h3, hact, Bool.not_true,
                      Bool.false_eq_true, if_false, hpair, hout, if_true]
                  refine ⟨?_, ?_, ?_⟩
                  · rw [hred]
                    exact ⟨hfr, hro, hcand, hsorters, hsl1, hsl2, hsound⟩
                  · intro g a' u h
                    rw [hred]
                    exact h
                  · intro helig
                    obtain ⟨_, slave0, m0, fw0, hos0, hmo0, _, _, _, hcont0, _⟩ :=
                      eligible_elim s f a helig
                    rw [hos] at hos0
                    injection hos0 with e0
                    subst e0
                    obtain ⟨m'', hm'', _, hiff⟩ := hrel.2 m0 hmo0
                    rw [h2] at hm''
                    injection hm'' with em
                    subst em
                    have hfm : f ∈ m'.offersOutstanding :=
                      (contains_eq_true_iff _ f).mp hout
                    rcases (hiff f).mp hfm with hc | hc
                    · exact absurd hc ((contains_eq_false_iff _ f).mp hcont0)
                    · rw [hpair] at hc
                      cases hc
              | false =>
                cases hfil : isFilteredInverse fw a with
                | true =>
                    have hred : deallocateFw a f acc.1 acc.2 = (acc.1, acc.2) := by
                      simp only [deallocateFw, h1, h2, h3, hact, Bool.not_true,
                        Bool.false_eq_true, if_false, hpair, hout, hfil, if_true]
                    refine ⟨?_, ?_, ?_⟩
                    · rw [hred]
                      exact ⟨hfr, hro, hcand, hsorters, hsl1, hsl2, hsound⟩
                    · intro g a' u h
                      rw [hred]
                      exact h
                    · intro helig
                      obtain ⟨_, slave0, m0, fw0, hos0, hmo0, _, hfwo, _, _, hfil0⟩ :=
                        eligible_elim s f a helig
                      rw [hfr] at h3
                      rw [hfwo] at h3
                      injection h3 with e3
                      rw [e3] at hfil0
                      rw [hfil] at hfil0
                      cases hfil0
                | false =>
                  have hred : deallocateFw a f acc.1 acc.2 =
                      ({ acc.1 with slaves := aupdate acc.1.slaves a default (fun sl => { sl with maintenance := some { m' with offersOutstanding := m'.offersOutstanding ++ [f] } }) },
                       aupdate acc.2 f [] (fun sm => aupdate sm a { resources := [], unavailability := m'.unavailability } (fun _ => { resources := [], unavailability := m'.unavailability }))) := by
                    simp only [deallocateFw, h1, h2, h3, hact, Bool.not_true,
                      Bool.false_eq_true, if_false, hpair, hout, hfil]
                  have hoff_fa : alookup ((alookup (aupdate acc.2 f [] (fun sm => aupdate sm a { resources := [], unavailability := m'.unavailability } (fun _ => { resources := [], unavailability := m'.unavailability }))) f).getD []) a = some { resources := [], unavailability := m'.unavailability } := by
                    rw [alookup_aupdate_self, Option.getD_some,
                      alookup_aupdate_self]
                  have hoff_ga' : ∀ g a', ¬(g = f ∧ a' = a) →
                      alookup ((alookup (aupdate acc.2 f [] (fun sm => aupdate sm a { resources := [], unavailability := m'.unavailability } (fun _ => { resources := [], unavailability := m'.unavailability }))) g).getD []) a' = alookup ((alookup acc.2 g).getD []) a' := by
                    intro g a' hne
                    by_cases hg : g = f
                    · subst hg
                      have ha' : a' ≠ a := fun e => hne ⟨rfl, e⟩
                      rw [alookup_aupdate_self, Option.getD_some,
                        alookup_aupdate_ne _ _ _ _ _ ha']
                    · rw [alookup_aupdate_ne _ _ _ _ _ hg]
                  cases hmo : slave.maintenance with
                  | none =>
                      have he := hrel.1 hmo
                      rw [he] at h2
                      rw [hmo] at h2
                      cases h2
                  | some m =>
                    obtain ⟨m'', hm'', hu, hiff⟩ := hrel.2 m hmo
                    rw [h2] at hm''
                    injection hm'' with em
                    subst em
                    have hfw_s : alookup s.frameworks f = some fw := by
                      rw [← hfr]
                      exact h3
                    have hcontm : m.offersOutstanding.contains f = false := by
                      apply (contains_eq_false_iff _ f).mpr
                      intro hm
                      have hfm : f ∈ m'.offersOutstanding := (hiff f).mpr (Or.inl hm)
                      rw [(contains_eq_true_iff _ f).mpr hfm] at hout
                      cases hout
                    have helig_new : specInverseOfferEligible s f a = true :=
                      eligible_intro s f a slave m fw ha hos hmo hsort hfw_s
                        hact hcontm hfil
                    rw [hred]
                    refine ⟨?_, ?_, ?_⟩
                    · refine ⟨hfr, hro, hcand, hsorters, ?_, ?_, ?_⟩
                      · intro a' h0
                        by_cases e : a' = a
                        · subst e
                          rw [hos] at h0
                          cases h0
                        · rw [alookup_aupdate_ne _ _ _ _ _ e]
                          exact hsl1 a' h0
                      · intro a' slave0 h0
                        by_cases e : a' = a
                        · subst e
                          rw [hos] at h0
                          injection h0 with e0
                          subst e0
                          refine ⟨{ slave' with maintenance := some { m' with offersOutstanding := m'.offersOutstanding ++ [f] } }, ?_, ?_, ?_⟩
                          · rw [alookup_aupdate_self, h1]
                            rfl
                          · intro hn
                            rw [hmo] at hn
                            cases hn
                          · intro m0 hm0
                            rw [hmo] at hm0
                            injection hm0 with em0
                            subst em0
                            refine ⟨{ m' with offersOutstanding := m'.offersOutstanding ++ [f] }, rfl, hu, ?_⟩
                            intro g
                            by_cases hg : g = f
                            · subst hg
                              constructor
                              · intro _
                                refine Or.inr ?_
                                rw [hoff_fa]
                                rfl
                              · intro _
                                exact List.mem_append.mpr (Or.inr (by simp))
                            · have hmem : g ∈ m'.offersOutstanding ++ [f] ↔
                                  g ∈ m'.offersOutstanding := by
                                rw [List.mem_append]
                                constructor
                                · rintro (h | h)
                                  · exact h
                                  · simp at h
                                    exact absurd h hg
                                · exact Or.inl
                              show g ∈ m'.offersOutstanding ++ [f] ↔ _
                              rw [hmem, hoff_ga' g a' (fun hc => hg hc.1)]
                              exact hiff g
                        · rw [alookup_aupdate_ne _ _ _ _ _ e]
                          obtain ⟨slave'', hcur'', hrel''⟩ := hsl2 a' slave0 h0
                          refine ⟨slave'', hcur'', hrel''.1, ?_⟩
                          intro m0 hm0
                          obtain ⟨m''2, hc2, hu2, hi2⟩ := hrel''.2 m0 hm0
                          refine ⟨m''2, hc2, hu2, ?_⟩
                          intro g
                          rw [hoff_ga' g a' (fun hc => e hc.2)]
                          exact hi2 g
                      · intro g a' u h
                        by_cases hg : g = f ∧ a' = a
                        · obtain ⟨hg1, hg2⟩ := hg
                          subst hg1
                          subst hg2
                          rw [hoff_fa] at h
                          injection h with hu'
                          refine ⟨helig_new, ?_⟩
                          intro slave0 m0 hos0 hm0
                          rw [hos] at hos0
                          injection hos0 with e0
                          subst e0
                          rw [hmo] at hm0
                          injection hm0 with em0
                          subst em0
                          rw [← hu']
                          show ({ resources := [], unavailability := m'.unavailability } : UnavailableResources) = _
                          rw [hu]
                        · rw [hoff_ga' g a' hg] at h
                          exact hsound g a' u h
                    · intro g a' u h
                      by_cases hg : g = f ∧ a' = a
                      · obtain ⟨hg1, hg2⟩ := hg
                        subst hg1
                        subst hg2
                        rw [h] at hpair
                        cases hpair
                      · rw [hoff_ga' g a' hg]
                        exact h
                    · intro _
                      rw [hoff_fa]
                      rfl

theorem deallocInnerFold (s : AllocState) (p : Role × Sorter)
    (hp : p ∈ s.frameworkSorters) (a : SlaveID)
    (ha : s.allocationCandidates.contains a = true)
    (l : List (String × Resources))
    (hl : ∀ x ∈ l, x ∈ Sorter.allocationAt p.2 a)
    (acc : AllocState × InverseOfferable) (hinv : DeallocInv s acc) :
    DeallocInv s (l.foldl (fun acc q => deallocateFw a q.1 acc.1 acc.2) acc) ∧
    (∀ g a' u, alookup ((alookup acc.2 g).getD []) a' = some u →
      alookup ((alookup
        (l.foldl (fun acc q => deallocateFw a q.1 acc.1 acc.2) acc).2 g).getD [])
        a' = some u) ∧
    (∀ f r, (f, r) ∈ l → specInverseOfferEligible s f a = true →
      (alookup ((alookup
        (l.foldl (fun acc q => deallocateFw a q.1 acc.1 acc.2) acc).2 f).getD [])
        a).isSome = true) := by
  induction l generalizing acc with
  | nil =>
      refine ⟨hinv, fun g a' u h => h, ?_⟩
      intro f r hfr
      cases hfr
  | cons q rest ih =>
      have hx := hl q (List.mem_cons_self q rest)
      have hsort_q : (s.frameworkSorters.any
          (fun pp => (alookup (Sorter.allocationAt pp.2 a) q.1).isSome)) = true := by
        apply List.any_eq_true.mpr
        refine ⟨p, hp, ?_⟩
        exact alookup_isSome_of_mem _ q.1 q.2 hx
      obtain ⟨hinv2, hmono2, hprog2⟩ := deallocFw_step s acc a q.1 ha hsort_q hinv
      obtain ⟨hinv3, hmono3, hprog3⟩ :=
        ih (fun x hx2 => hl x (List.mem_cons_of_mem q hx2))
          (deallocateFw a q.1 acc.1 acc.2) hinv2
      refine ⟨hinv3, ?_, ?_⟩
      · intro g a' u h
        exact hmono3 g a' u (hmono2 g a' u h)
      · intro f r hfr helig
        rcases List.mem_cons.mp hfr with he | he
        · have hq1 : q.1 = f := by rw [← he]
          have helig' : specInverseOfferEligible s q.1 a = true := by
            rw [hq1]
            exact helig
          have h5 := hprog2 helig'
          obtain ⟨u, hu⟩ := Option.isSome_iff_exists.mp h5
          have h6 := hmono3 q.1 a u hu
          rw [List.foldl_cons]
          rw [← hq1, h6]
          rfl
        · exact hprog3 f r he helig

theorem deallocSlave_step (s : AllocState) (p : Role × Sorter)
    (hp : p ∈ s.frameworkSorters) (a : SlaveID)
    (ha : s.allocationCandidates.contains a = true)
    (acc : AllocState × InverseOfferable) (hinv : DeallocInv s acc) :
    DeallocInv s (deallocateSlave p.2 a acc) ∧
    (∀ g a' u, alookup ((alookup acc.2 g).getD []) a' = some u →
      alookup ((alookup (deallocateSlave p.2 a acc).2 g).getD []) a'
        = some u) ∧
    (∀ f, (alookup (Sorter.allocationAt p.2 a) f).isSome = true →
      specInverseOfferEligible s f a = true →
      (alookup ((alookup (deallocateSlave p.2 a acc).2 f).getD []) a).isSome
        = true) := by
  obtain ⟨hfr, hro, hcand, hsorters, hsl1, hsl2, hsound⟩ := hinv
  cases hc : alookup acc.1.slaves a with
  | none =>
      have hred : deallocateSlave p.2 a acc = acc := by
        simp only [deallocateSlave, hc]
      refine ⟨?_, ?_, ?_⟩
      · rw [hred]
        exact ⟨hfr, hro, hcand, hsorters, hsl1, hsl2, hsound⟩
      · intro g a' u h
        rw [hred]
        exact h
      · intro f _ helig
        obtain ⟨_, slave, m, fw, hos, hmo, _, _, _, _, _⟩ :=
          eligible_elim s f a helig
        obtain ⟨slave'', hcur, _⟩ := hsl2 a slave hos
        rw [hc] at hcur
        cases hcur
  | some slave' =>
    cases h2 : slave'.maintenance with
    | none =>
        have hred : deallocateSlave p.2 a acc = acc := by
          simp only [deallocateSlave, hc, h2]
        refine ⟨?_, ?_, ?_⟩
        · rw [hred]
          exact ⟨hfr, hro, hcand, hsorters, hsl1, hsl2, hsound⟩
        · intro g a' u h
          rw [hred]
          exact h
        · intro f _ helig
          obtain ⟨_, slave, m, fw, hos, hmo, _, _, _, _, _⟩ :=
            eligible_elim s f a helig
          obtain ⟨slave'', hcur, hrel⟩ := hsl2 a slave hos
          rw [hc] at hcur
          injection hcur with e0
          subst e0
          obtain ⟨m'', hm'', _, _⟩ := hrel.2 m hmo
          rw [h2] at hm''
          cases hm''
    | some m' =>
        have hred : deallocateSlave p.2 a acc =
            (Sorter.allocationAt p.2 a).foldl
              (fun acc q => deallocateFw a q.1 acc.1 acc.2) acc := by
          simp only [deallocateSlave, hc, h2]
        obtain ⟨hinv3, hmono3, hprog3⟩ :=
          deallocInnerFold s p hp a ha (Sorter.allocationAt p.2 a)
            (fun x hx => hx) acc
            ⟨hfr, hro, hcand, hsorters, hsl1, hsl2, hsound⟩
        refine ⟨?_, ?_, ?_⟩
        · rw [hred]
          exact hinv3
        · intro g a' u h
          rw [hred]
          exact hmono3 g a' u h
        · intro f hf helig
          obtain ⟨r, hr⟩ := Option.isSome_iff_exists.mp hf
          rw [hred]
          exact hprog3 f r (mem_of_alookup_eq_some _ _ _ hr) helig

theorem deallocCandFold (s : AllocState) (p : Role × Sorter)
    (hp : p ∈ s.frameworkSorters) (l : List SlaveID)
    (hl : ∀ x ∈ l, x ∈ s.allocationCandidates)
    (acc : AllocState × InverseOfferable) (hinv : DeallocInv s acc) :
    DeallocInv s (l.foldl (fun acc slaveId => deallocateSlave p.2 slaveId acc)
      acc) ∧
    (∀ g a' u, alookup ((alookup acc.2 g).getD []) a' = some u →
      alookup ((alookup
        (l.foldl (fun acc slaveId => deallocateSlave p.2 slaveId acc)
          acc).2 g).getD []) a' = some u) ∧
    (∀ f a, a ∈ l → (alookup (Sorter.allocationAt p.2 a) f).isSome = true →
      specInverseOfferEligible s f a = true →
      (alookup ((alookup
        (l.foldl (fun acc slaveId => deallocateSlave p.2 slaveId acc)
          acc).2 f).getD []) a).isSome = true) := by
  induction l generalizing acc with
  | nil =>
      refine ⟨hinv, fun g a' u h => h, ?_⟩
      intro f a hfa
      cases hfa
  | cons b rest ih =>
      have hb : s.allocationCandidates.contains b = true :=
        (contains_eq_true_iff _ b).mpr (hl b (List.mem_cons_self b rest))
      obtain ⟨hinv2, hmono2, hprog2⟩ := deallocSlave_step s p hp b hb acc hinv
      obtain ⟨hinv3, hmono3, hprog3⟩ :=
        ih (fun x hx => hl x (List.mem_cons_of_mem b hx))
          (deallocateSlave p.2 b acc) hinv2
      refine ⟨hinv3, ?_, ?_⟩
      · intro g a' u h
        exact hmono3 g a' u (hmono2 g a' u h)
      · intro f a hal hf helig
        rcases List.mem_cons.mp hal with he | he
        · subst he
          have h5 := hprog2 f hf helig
          obtain ⟨u, hu⟩ := Option.isSome_iff_exists.mp h5
          have h6 := hmono3 f a u hu
          rw [List.foldl_cons, h6]
          rfl
        · exact hprog3 f a he hf helig

theorem deallocSorterFold (s : AllocState) (l : List (Role × Sorter))
    (hl : ∀ x ∈ l, x ∈ s.frameworkSorters)
    (acc : AllocState × InverseOfferable) (hinv : DeallocInv s acc) :
    DeallocInv s (l.foldl
      (fun acc p => s.allocationCandidates.foldl
        (fun acc slaveId => deallocateSlave p.2 slaveId acc) acc) acc) ∧
    (∀ g a' u, alookup ((alookup acc.2 g).getD []) a' = some u →
      alookup ((alookup (l.foldl
        (fun acc p => s.allocationCandidates.foldl
          (fun acc slaveId => deallocateSlave p.2 slaveId acc) acc)
        acc).2 g).getD []) a' = some u) ∧
    (∀ f a p, p ∈ l → a ∈ s.allocationCandidates →
      (alookup (Sorter.allocationAt p.2 a) f).isSome = true →
      specInverseOfferEligible s f a = true →
      (alookup ((alookup (l.foldl
        (fun acc p => s.allocationCandidates.foldl
          (fun acc slaveId => deallocateSlave p.2 slaveId acc) acc)
        acc).2 f).getD []) a).isSome = true) := by
  induction l generalizing acc with
  | nil =>
      refine ⟨hinv, fun g a' u h => h, ?_⟩
      intro f a p hpl
      cases hpl
  | cons q rest ih =>
      have hq : q ∈ s.frameworkSorters := hl q (List.mem_cons_self q rest)
      obtain ⟨hinv2, hmono2, hprog2⟩ :=
        deallocCandFold s q hq s.allocationCandidates (fun x hx => hx) acc hinv
      obtain ⟨hinv3, hmono3, hprog3⟩ :=
        ih (fun x hx => hl x (List.mem_cons_of_mem q hx)) _ hinv2
      refine ⟨hinv3, ?_, ?_⟩
      · intro g a' u h
        exact hmono3 g a' u (hmono2 g a' u h)
      · intro f a p hpl hcand hf helig
        rcases List.mem_cons.mp hpl with he | he
        · subst he
          have h5 := hprog2 f a hcand hf helig
          obtain ⟨u, hu⟩ := Option.isSome_iff_exists.mp h5
          have h6 := hmono3 f a u hu
          rw [List.foldl_cons, h6]
          rfl
        · exact hprog3 f a p he hcand hf helig

theorem dealloc_pass (s : AllocState) (hroles : s.roles.isEmpty = false) :
    DeallocInv s (deallocate s) ∧
    (∀ f a, (alookup ((alookup (deallocate s).2 f).getD []) a).isSome = true ↔
      specInverseOfferEligible s f a = true) := by
  have hred : deallocate s = s.frameworkSorters.foldl
      (fun acc p => s.allocationCandidates.foldl
        (fun acc slaveId => deallocateSlave p.2 slaveId acc) acc) (s, []) := by
    simp only [deallocate, hroles, Bool.false_eq_true, if_false]
  obtain ⟨hinv, hmono, hprog⟩ :=
    deallocSorterFold s s.frameworkSorters (fun x hx => hx) (s, [])
      (deallocInv_init s)
  constructor
  · rw [hred]
    exact hinv
  · intro f a
    constructor
    · intro hsome
      rw [hred] at hsome
      obtain ⟨u, hu⟩ := Option.isSome_iff_exists.mp hsome
      obtain ⟨_, _, _, _, _, _, hsound⟩ := hinv
      exact (hsound f a u hu).1
    · intro helig
      obtain ⟨hcanda, slave, m, fw, hos, hmo, hany, hfwo, hact, hcont, hfil⟩ :=
        eligible_elim s f a helig
      obtain ⟨p, hp, hpsome⟩ := List.any_eq_true.mp hany
      rw [hred]
      exact hprog f a p hp ((contains_eq_true_iff _ a).mp hcanda) hpsome helig

theorem updateInverseOffer_clears (s : AllocState) (a : SlaveID)
    (f : FrameworkID) (status : Option String) (filters : Option ℤ)
    (slave : Slave) (m : Maintenance)
    (hos : alookup s.slaves a = some slave) (hm : slave.maintenance = some m)
    (hc : m.offersOutstanding.contains f = true) :
    ∃ slave' m',
      alookup (updateInverseOffer s a f status filters).slaves a = some slave' ∧
      slave'.maintenance = some m' ∧
      m'.offersOutstanding.contains f = false := by
  have hfilter : (m.offersOutstanding.filter (fun x => x != f)).contains f
      = false := by
    apply (contains_eq_false_iff _ f).mpr
    intro hmem
    have hdec := List.of_mem_filter hmem
    simp at hdec
  unfold updateInverseOffer
  rw [hos]
  simp only []
  rw [hm]
  simp only [hc, if_true]
  cases status with
  | none =>
      cases filters with
      | none =>
          refine ⟨{ slave with maintenance := some { m with offersOutstanding := m.offersOutstanding.filter (fun x => x != f) } }, { m with offersOutstanding := m.offersOutstanding.filter (fun x => x != f) }, ?_, rfl, hfilter⟩
          simp only [alookup_aupdate_self, hos, Option.getD_some]
      | some refuseSeconds =>
          simp only []
          by_cases ht : clampRefuseSeconds refuseSeconds ≠ 0
          · rw [if_pos ht]
            refine ⟨{ slave with maintenance := some { m with offersOutstanding := m.offersOutstanding.filter (fun x => x != f) } }, { m with offersOutstanding := m.offersOutstanding.filter (fun x => x != f) }, ?_, rfl, hfilter⟩
            simp only [alookup_aupdate_self, hos, Option.getD_some]
          · rw [if_neg ht]
            refine ⟨{ slave with maintenance := some { m with offersOutstanding := m.offersOutstanding.filter (fun x => x != f) } }, { m with offersOutstanding := m.offersOutstanding.filter (fun x => x != f) }, ?_, rfl, hfilter⟩
            simp only [alookup_aupdate_self, hos, Option.getD_some]
  | some st =>
      cases filters with
      | none =>
          refine ⟨{ slave with maintenance := some { m with offersOutstanding := m.offersOutstanding.filter (fun x => x != f), statuses := aupdate m.statuses f "" (fun _ => st) } }, { m with offersOutstanding := m.offersOutstanding.filter (fun x => x != f), statuses := aupdate m.statuses f "" (fun _ => st) }, ?_, rfl, hfilter⟩
          simp only [alookup_aupdate_self, hos, Option.getD_some]
      | some refuseSeconds =>
          simp only []
          by_cases ht : clampRefuseSeconds refuseSeconds ≠ 0
          · rw [if_pos ht]
            refine ⟨{ slave with maintenance := some { m with offersOutstanding := m.offersOutstanding.filter (fun x => x != f), statuses := aupdate m.statuses f "" (fun _ => st) } }, { m with offersOutstanding := m.offersOutstanding.filter (fun x => x != f), statuses := aupdate m.statuses f "" (fun _ => st) }, ?_, rfl, hfilter⟩
            simp only [alookup_aupdate_self, hos, Option.getD_some]
          · rw [if_neg ht]
            refine ⟨{ slave with maintenance := some { m with offersOutstanding := m.offersOutstanding.filter (fun x => x != f), statuses := aupdate m.statuses f "" (fun _ => st) } }, { m with offersOutstanding := m.offersOutstanding.filter (fun x => x != f), statuses := aupdate m.statuses f "" (fun _ => st) }, ?_, rfl, hfilter⟩
            simp only [alookup_aupdate_self, hos, Option.getD_some]

/-- **C7**: inverse-offer emission in a deallocation pass.  With roles
nonempty (the pass runs): an inverse offer for `(f, a)` is collected iff
agent `a` is an allocation candidate whose slave record exists and has
maintenance set, `f` holds allocation on `a` in some framework sorter, is
active, has no outstanding inverse offer for `a` and no pending
inverse-offer filter; every collected offer carries empty resources and
the agent's unavailability; after the pass, an agent's outstanding set is
its original set plus exactly the frameworks collected for it, so a
second pass emits nothing for a collected pair; and `updateInverseOffer`
clears the outstanding flag. -/
theorem C7_deallocate_inverse_offers (s : AllocState)
    (hroles : s.roles.isEmpty = false) :
    (∀ f a, (alookup ((alookup (deallocate s).2 f).getD []) a).isSome = true ↔
      specInverseOfferEligible s f a = true) ∧
    (∀ f a u slave m, alookup s.slaves a = some slave →
      slave.maintenance = some m →
      alookup ((alookup (deallocate s).2 f).getD []) a = some u →
      u = { resources := [], unavailability := m.unavailability }) ∧
    (∀ a slave m, alookup s.slaves a = some slave →
      slave.maintenance = some m →
      ∃ slave' m', alookup (deallocate s).1.slaves a = some slave' ∧
        slave'.maintenance = some m' ∧
        (∀ g, g ∈ m'.offersOutstanding ↔ (g ∈ m.offersOutstanding ∨
          (alookup ((alookup (deallocate s).2 g).getD []) a).isSome = true))) ∧
    (∀ f a, (alookup ((alookup (deallocate s).2 f).getD []) a).isSome = true →
      (alookup ((alookup (deallocate (deallocate s).1).2 f).getD []) a).isSome
        = false) ∧
    (∀ a f status filters slave m, alookup s.slaves a = some slave →
      slave.maintenance = some m → m.offersOutstanding.contains f = true →
      ∃ slave' m',
        alookup (updateInverseOffer s a f status filters).slaves a
          = some slave' ∧
        slave'.maintenance = some m' ∧
        m'.offersOutstanding.contains f = false) := by
  obtain ⟨hinv, hiff⟩ := dealloc_pass s hroles
  obtain ⟨hfr, hro, hcand, hsorters, hsl1, hsl2, hsound⟩ := hinv
  refine ⟨hiff, ?_, ?_, ?_, ?_⟩
  · intro f a u slave m hos hm hlk
    exact (hsound f a u hlk).2 slave m hos hm
  · intro a slave m hos hm
    obtain ⟨slave', hcur, hrel⟩ := hsl2 a slave hos
    obtain ⟨m', hm', hu, hiffo⟩ := hrel.2 m hm
    exact ⟨slave', m', hcur, hm', hiffo⟩
  · intro f a hsome
    have hroles2 : (deallocate s).1.roles.isEmpty = false := by
      rw [hro]
      exact hroles
    obtain ⟨hinv2pass, hiff2⟩ := dealloc_pass (deallocate s).1 hroles2
    cases h2 : (alookup ((alookup
        (deallocate (deallocate s).1).2 f).getD []) a).isSome
    · rfl
    · exfalso
      have helig2 := (hiff2 f a).mp h2
      obtain ⟨_, slave0, m0, fw0, hos0, hmo0, _, _, _, hcont0, _⟩ :=
        eligible_elim _ f a helig2
      have helig1 := (hiff f a).mp hsome
      obtain ⟨_, slave1, m1, fw1, hos1, hmo1, _, _, _, _, _⟩ :=
        eligible_elim s f a helig1
      obtain ⟨slave', hcur, hrel⟩ := hsl2 a slave1 hos1
      obtain ⟨m', hm', hu, hiffo⟩ := hrel.2 m1 hmo1
      rw [hcur] at hos0
      injection hos0 with e0
      subst e0
      rw [hm'] at hmo0
      injection hmo0 with e1
      subst e1
      have hf : f ∈ m'.offersOutstanding := (hiffo f).mpr (Or.inr hsome)
      rw [(contains_eq_true_iff _ f).mpr hf] at hcont0
      cases hcont0
  · intro a f status filters slave m hos hm hc
    exact updateInverseOffer_clears s a f status filters slave m hos hm hc

def sampleC7Maint : Maintenance :=
  { unavailability := "T+1h", offersOutstanding := [], statuses := [] }

def sampleC7Slave : Slave :=
  { hostname := "h7", total := [sampleCpus 4], allocated := [sampleCpus 2],
    activated := true, hasGpu := false, region := none,
    capabilities := sampleSlaveCaps, maintenance := some sampleC7Maint }

def sampleC7Fw : Framework :=
  { roles := ["r"], suppressedRoles := [], capabilities := sampleCaps,
    active := true, minAllocatableResources := [],
    offerFilters := [], inverseOfferFilters := [] }

def sampleC7Sorter : Sorter :=
  { order := ["f1"], clients := ["f1"],
    totals := [("a1", [sampleCpus 4])],
    alloc := [("f1", [("a1", [sampleCpus 2])])] }

/-- An agent under maintenance with framework `f1` holding 2 cpus there. -/
def sampleC7State : AllocState :=
  { sampleState0 with
    frameworks := [("f1", sampleC7Fw)],
    slaves := [("a1", sampleC7Slave)],
    allocationCandidates := ["a1"],
    roles := [("r", ["f1"])],
    frameworkSorters := [("r", sampleC7Sorter)] }

theorem C7_deallocate_inverse_offers_witness :
    (∀ f a, (alookup ((alookup (deallocate sampleC7State).2 f).getD [])
        a).isSome = true ↔
      specInverseOfferEligible sampleC7State f a = true) ∧
    (∀ f a u slave m, alookup sampleC7State.slaves a = some slave →
      slave.maintenance = some m →
      alookup ((alookup (deallocate sampleC7State).2 f).getD []) a = some u →
      u = { resources := [], unavailability := m.unavailability }) ∧
    (∀ a slave m, alookup sampleC7State.slaves a = some slave →
      slave.maintenance = some m →
      ∃ slave' m', alookup (deallocate sampleC7State).1.slaves a
          = some slave' ∧
        slave'.maintenance = some m' ∧
        (∀ g, g ∈ m'.offersOutstanding ↔ (g ∈ m.offersOutstanding ∨
          (alookup ((alookup (deallocate sampleC7State).2 g).getD [])
            a).isSome = true))) ∧
    (∀ f a, (alookup ((alookup (deallocate sampleC7State).2 f).getD [])
        a).isSome = true →
      (alookup ((alookup (deallocate
        (deallocate sampleC7State).1).2 f).getD []) a).isSome = false) ∧
    (∀ a f status filters slave m,
      alookup sampleC7State.slaves a = some slave →
      slave.maintenance = some m → m.offersOutstanding.contains f = true →
      ∃ slave' m',
        alookup (updateInverseOffer sampleC7State a f status filters).slaves a
          = some slave' ∧
        slave'.maintenance = some m' ∧
        m'.offersOutstanding.contains f = false) :=
  C7_deallocate_inverse_offers sampleC7State (by decide)
